import Mathlib

/-!
# Weenix kernel: scheduler, mutex, file-descriptor and virtual-memory core

A shallow embedding of the C sources under `kernel/` and theorems about it.

Conventions of the embedding:

* a C pointer to a heap object is the identifier (`Nat`) of that object, a
  possibly-null pointer is an `Option`;
* an intrusive `list_t` is a Lean `List` in list order (`l_next` direction);
* `uint32_t` values are `Nat`, arithmetic that can wrap is reduced modulo `2^32`;
* a function that can hit a failed `KASSERT`, a null dereference or `panic`
  returns `Except Fault _`.
-/

namespace Weenix

/-! ## Machine arithmetic and constants -/

/-- Ways in which kernel code stops instead of returning. -/
inductive Fault where
  | assertFailed
  | nullDeref
  | kernelPanic
  | outOfBounds
  | diverges
  deriving DecidableEq, Repr

/-- Modulus of `uint32_t` arithmetic. -/
def U32 : Nat := 2 ^ 32

/-- Addition of two `uint32_t` values. -/
def u32add (a b : Nat) : Nat := (a + b) % U32

/-- Subtraction of two `uint32_t` values. -/
def u32sub (a b : Nat) : Nat := (a + (U32 - b % U32)) % U32

/-- Conversion of a `uint32_t` to `int` (two's complement). -/
def u32toInt (a : Nat) : Int := if a % U32 < 2 ^ 31 then (a % U32 : Nat) else ((a % U32 : Nat) : Int) - (U32 : Nat)

/-- Modelled from the spec: `PAGE_SHIFT` of `mm/page.h`, which is not among the sources;
`brk.c` shifts by the literal 12. -/
def PAGE_SHIFT : Nat := 12

/-- Modelled from the spec: `PAGE_SIZE` of `mm/page.h`, which is not among the sources. -/
def PAGE_SIZE : Nat := 2 ^ PAGE_SHIFT

/-- Modelled from the spec: `ADDR_TO_PN` of `mm/page.h`, the page number of an address. -/
def ADDR_TO_PN (addr : Nat) : Nat := addr / PAGE_SIZE

/-- Modelled from the spec: `PN_TO_ADDR` of `mm/page.h`, the first address of a page. -/
def PN_TO_ADDR (pn : Nat) : Nat := (pn * PAGE_SIZE) % U32

/-- Modelled from the spec: `PAGE_ALIGNED` of `mm/page.h`. -/
def PAGE_ALIGNED (addr : Nat) : Bool := addr % PAGE_SIZE == 0

/-- Modelled from the spec: `USER_MEM_LOW` of `config.h`, the lowest user address. -/
def USER_MEM_LOW : Nat := 0x00400000

/-- Modelled from the spec: `USER_MEM_HIGH` of `config.h`, one past the highest user address. -/
def USER_MEM_HIGH : Nat := 0xc0000000

/-- Modelled from the spec: `errno.h` is not among the sources; the usual values. -/
def EPERM : Int := 1
/-- Modelled from the spec: `errno.h` is not among the sources; the usual values. -/
def EINTR : Int := 4
/-- Modelled from the spec: `errno.h` is not among the sources; the usual values. -/
def EBADF : Int := 9
/-- Modelled from the spec: `errno.h` is not among the sources; the usual values. -/
def ENOMEM : Int := 12
/-- Modelled from the spec: `errno.h` is not among the sources; the usual values. -/
def EFAULT : Int := 14
/-- Modelled from the spec: `errno.h` is not among the sources; the usual values. -/
def EINVAL : Int := 22

/-- Modelled from the spec: protection bits of `mm/mman.h`, which is not among the sources. -/
def PROT_READ : Nat := 1
/-- Modelled from the spec: protection bits of `mm/mman.h`, which is not among the sources. -/
def PROT_WRITE : Nat := 2
/-- Modelled from the spec: mapping flags of `mm/mman.h`, which is not among the sources. -/
def MAP_SHARED : Nat := 1
/-- Modelled from the spec: mapping flags of `mm/mman.h`, which is not among the sources. -/
def MAP_PRIVATE : Nat := 2
/-- Modelled from the spec: mask of the mapping type in `mm/mman.h`. -/
def MAP_TYPE : Nat := 3
/-- Modelled from the spec: mapping flags of `mm/mman.h`, which is not among the sources. -/
def MAP_FIXED : Nat := 4
/-- Modelled from the spec: mapping flags of `mm/mman.h`, which is not among the sources. -/
def MAP_ANON : Nat := 8
/-- Modelled from the spec: search directions of `vm/vmmap.h`, which is not among the sources. -/
def VMMAP_DIR_LOHI : Nat := 1
/-- Modelled from the spec: search directions of `vm/vmmap.h`, which is not among the sources. -/
def VMMAP_DIR_HILO : Nat := 2

/-! ## Address spaces: `vm/vmmap.c` -/

/-- The fields of `vmarea_t` that the code below reads or writes; `vma_obj` is the
identifier of the memory object at the top of the area's chain. -/
structure vmarea_t where
  vma_start : Nat
  vma_end : Nat
  vma_off : Nat
  vma_prot : Nat
  vma_flags : Nat
  vma_obj : Nat
  vma_vmmap : Option Nat
  deriving DecidableEq, Repr

/-- An address space `vmmap_t`: `self` is the address of the structure (what `vma_vmmap`
of its areas points to), `vmm_list` the list of areas in list order. -/
structure vmmap_t where
  self : Nat
  vmm_list : List vmarea_t
  deriving DecidableEq, Repr

/-- Calls that `vmmap.c` makes into collaborators, in program order. -/
inductive VmEvent where
  | ref (obj : Nat)
  | put (obj : Nat)
  | pt_unmap_range (lo hi : Nat)
  | anon_create (obj : Nat)
  | shadow_create (obj shadowed : Nat)
  | vnode_mmap (obj : Nat)
  deriving DecidableEq, Repr

/-- The tail of `vmmap_remove` shared by its cases: an area that became empty is put,
unlinked and freed, otherwise it stays in the list. -/
def drop_if_empty (vma : vmarea_t) : List vmarea_t × List VmEvent :=
  if vma.vma_start = vma.vma_end then ([], [VmEvent.put vma.vma_obj]) else ([vma], [])

/-- The loop of `vmmap_remove` over the areas that are still to be visited. -/
def vmmap_remove_loop (map lopage start_vfn end_vfn : Nat) :
    List vmarea_t → List vmarea_t × List VmEvent
  | [] => ([], [])
  | vma_curr :: rest =>
    let flg_overlap : Bool := decide (start_vfn > vma_curr.vma_end ∨ end_vfn < vma_curr.vma_start)
    if start_vfn ≥ vma_curr.vma_start ∧ flg_overlap = false ∧ end_vfn ≤ vma_curr.vma_end then
      -- case 1: the range lies inside the area; split and leave the loop
      let split_vma : vmarea_t :=
        { vma_flags := vma_curr.vma_flags, vma_prot := vma_curr.vma_prot,
          vma_obj := vma_curr.vma_obj, vma_start := vma_curr.vma_start, vma_end := start_vfn,
          vma_vmmap := some map, vma_off := vma_curr.vma_off }
      let cur : vmarea_t :=
        { vma_curr with
          vma_off := u32sub (u32add vma_curr.vma_off end_vfn) vma_curr.vma_start,
          vma_start := end_vfn }
      let s := drop_if_empty split_vma
      let c := drop_if_empty cur
      (s.1 ++ c.1 ++ rest,
        [VmEvent.ref vma_curr.vma_obj] ++ s.2 ++ c.2 ++
          [VmEvent.pt_unmap_range (PN_TO_ADDR start_vfn) (PN_TO_ADDR end_vfn)])
    else if vma_curr.vma_end < end_vfn ∧ vma_curr.vma_start ≤ start_vfn ∧ flg_overlap = false then
      -- case 2: the range overlaps the end of the area
      let c := drop_if_empty { vma_curr with vma_end := lopage }
      let r := vmmap_remove_loop map lopage start_vfn end_vfn rest
      (c.1 ++ r.1, c.2 ++ r.2)
    else if start_vfn < vma_curr.vma_start ∧ end_vfn ≤ vma_curr.vma_end ∧ flg_overlap = false then
      -- case 3: the range overlaps the beginning of the area
      let c := drop_if_empty
        { vma_curr with
          vma_off := u32sub (u32add vma_curr.vma_off end_vfn) vma_curr.vma_start,
          vma_start := end_vfn }
      let r := vmmap_remove_loop map lopage start_vfn end_vfn rest
      (c.1 ++ r.1, c.2 ++ r.2)
    else if start_vfn < vma_curr.vma_start ∧ end_vfn > vma_curr.vma_end ∧ flg_overlap = false then
      -- case 4: the range contains the area
      let r := vmmap_remove_loop map lopage start_vfn end_vfn rest
      (r.1, [VmEvent.put vma_curr.vma_obj,
             VmEvent.pt_unmap_range (PN_TO_ADDR vma_curr.vma_start) (PN_TO_ADDR vma_curr.vma_end)]
              ++ r.2)
    else
      let r := vmmap_remove_loop map lopage start_vfn end_vfn rest
      (vma_curr :: r.1, r.2)

/-- The function `vmmap_remove(map, lopage, npages)`: the new area list and the calls made;
the C function always returns 0. -/
def vmmap_remove (map : vmmap_t) (lopage npages : Nat) : vmmap_t × List VmEvent :=
  let r := vmmap_remove_loop map.self lopage lopage (u32add lopage npages) map.vmm_list
  ({ map with vmm_list := r.1 }, r.2)

/-- The ordering invariant of an address space, as the specification words it: areas sorted
by `vma_start`, pairwise non-overlapping, each non-empty and inside the user page range. -/
def vmmap_ordered (map : List vmarea_t) : Prop :=
  map.Pairwise (fun a b => a.vma_start < b.vma_start) ∧
  map.Pairwise (fun a b => a.vma_end ≤ b.vma_start ∨ b.vma_end ≤ a.vma_start) ∧
  ∀ v ∈ map, v.vma_start < v.vma_end ∧
    ADDR_TO_PN USER_MEM_LOW ≤ v.vma_start ∧ v.vma_end ≤ ADDR_TO_PN USER_MEM_HIGH

/-- Page `p` lies in the area `v`. -/
def vma_covers (v : vmarea_t) (p : Nat) : Prop := v.vma_start ≤ p ∧ p < v.vma_end

/-- The form of the ordering invariant used in proofs: every area ends before each later
area starts, and each is non-empty and inside the user page range. -/
def vmmap_chain (map : List vmarea_t) : Prop :=
  map.Pairwise (fun a b => a.vma_end ≤ b.vma_start) ∧
  ∀ v ∈ map, v.vma_start < v.vma_end ∧
    ADDR_TO_PN USER_MEM_LOW ≤ v.vma_start ∧ v.vma_end ≤ ADDR_TO_PN USER_MEM_HIGH

/-- The `list_iterate_reverse` loop of `vmmap_find_range` and the code after it.
`userspace_end` and `vma` are the C locals of those names (`vma` is the area visited
last, `NULL` before the first iteration); the list holds the areas still to be visited,
highest first. -/
def vmmap_find_range_scan (npages : Nat) : Nat → Option vmarea_t → List vmarea_t → Except Fault Int
  | _, none, [] => .error .nullDeref
  | _, some vma, [] =>
    if u32sub vma.vma_start (ADDR_TO_PN USER_MEM_LOW) ≥ npages then
      .ok (u32toInt (u32sub vma.vma_start npages))
    else
      .ok (-1)
  | userspace_end, _, vma :: rest =>
    let pages := u32sub userspace_end vma.vma_end
    if npages ≤ pages then
      .ok (u32toInt (u32sub userspace_end npages))
    else
      vmmap_find_range_scan npages vma.vma_start (some vma) rest

/-- The function `vmmap_find_range(map, npages, dir)`. -/
def vmmap_find_range (map : vmmap_t) (npages dir : Nat) : Except Fault Int :=
  if dir = VMMAP_DIR_HILO then
    vmmap_find_range_scan npages (ADDR_TO_PN USER_MEM_HIGH) none map.vmm_list.reverse
  else
    .error .kernelPanic

/-- Position in the list of the area `vmmap_lookup` returns. -/
def vmmap_lookup_idx (vfn : Nat) : List vmarea_t → Option Nat
  | [] => none
  | curr_vma :: rest =>
    if vfn < curr_vma.vma_end ∧ vfn ≥ curr_vma.vma_start then some 0
    else (vmmap_lookup_idx vfn rest).map (· + 1)

/-- The function `vmmap_lookup(map, vfn)`: the first area whose range covers `vfn`. -/
def vmmap_lookup (map : vmmap_t) (vfn : Nat) : Option vmarea_t :=
  (vmmap_lookup_idx vfn map.vmm_list).bind (fun i => map.vmm_list[i]?)

/-- The loop of `vmmap_insert`: before the first area that starts at or after the end of
`newvma`, else at the tail. -/
def vmmap_insert_loop (newvma : vmarea_t) : List vmarea_t → List vmarea_t
  | [] => [newvma]
  | vma :: rest =>
    if vma.vma_start ≥ newvma.vma_end then newvma :: vma :: rest
    else vma :: vmmap_insert_loop newvma rest

/-- Position at which `vmmap_insert` links `newvma`. -/
def vmmap_insert_idx (newvma : vmarea_t) : List vmarea_t → Nat
  | [] => 0
  | vma :: rest =>
    if vma.vma_start ≥ newvma.vma_end then 0 else vmmap_insert_idx newvma rest + 1

/-- The function `vmmap_insert(map, newvma)` with its assertions. -/
def vmmap_insert (map : vmmap_t) (newvma : vmarea_t) : Except Fault vmmap_t :=
  if newvma.vma_vmmap ≠ none then .error .assertFailed
  else if ¬ newvma.vma_start < newvma.vma_end then .error .assertFailed
  else if ¬ (ADDR_TO_PN USER_MEM_LOW ≤ newvma.vma_start ∧
      ADDR_TO_PN USER_MEM_HIGH ≥ newvma.vma_end) then .error .assertFailed
  else
    .ok { map with
      vmm_list := vmmap_insert_loop { newvma with vma_vmmap := some map.self } map.vmm_list }

/-- The loop of `vmmap_clone`; the clone's areas have a null `vma_obj` (identifier 0). -/
def vmmap_clone_loop (clone_vmm : vmmap_t) : List vmarea_t → Except Fault vmmap_t
  | [] => .ok clone_vmm
  | vma :: rest =>
    let new_vma : vmarea_t :=
      { vma_start := vma.vma_start, vma_end := vma.vma_end, vma_off := vma.vma_off,
        vma_prot := vma.vma_prot, vma_flags := vma.vma_flags, vma_obj := 0, vma_vmmap := none }
    match vmmap_insert clone_vmm new_vma with
    | .error f => .error f
    | .ok c => vmmap_clone_loop c rest

/-- The function `vmmap_clone(map)`; `fresh` is the address of the new `vmmap_t`. -/
def vmmap_clone (map : vmmap_t) (fresh : Nat) : Except Fault vmmap_t :=
  vmmap_clone_loop { self := fresh, vmm_list := [] } map.vmm_list

/-- The loop of `vmmap_is_range_empty`. -/
def vmmap_is_range_empty_loop (startvfn endvfn : Nat) : List vmarea_t → Int
  | [] => 1
  | curr_vma :: rest =>
    if curr_vma.vma_end > startvfn ∧ curr_vma.vma_start < endvfn then 0
    else if startvfn < curr_vma.vma_start ∧ curr_vma.vma_start ≥ endvfn then 1
    else vmmap_is_range_empty_loop startvfn endvfn rest

/-- The function `vmmap_is_range_empty(map, startvfn, npages)` with its assertion. -/
def vmmap_is_range_empty (map : vmmap_t) (startvfn npages : Nat) : Except Fault Int :=
  let endvfn := u32add startvfn npages
  if startvfn < endvfn ∧ ADDR_TO_PN USER_MEM_LOW ≤ startvfn ∧ ADDR_TO_PN USER_MEM_HIGH ≥ endvfn then
    .ok (vmmap_is_range_empty_loop startvfn endvfn map.vmm_list)
  else
    .error .assertFailed

/-- What `vmmap_map` hands back: the return value, the address space, the position of the
new area (`*new`) and the calls made. -/
structure MapResult where
  retval : Int
  map : vmmap_t
  new : Option Nat
  events : List VmEvent
  deriving DecidableEq, Repr

/-- The function `vmmap_map`. `file` is `NULL` (`none`) or a vnode, given by the memory
object its `mmap` operation yields; `fresh` and `fresh + 1` are the identifiers that
`anon_create` and `shadow_create` hand out. -/
def vmmap_map (map : vmmap_t) (file : Option Nat) (lopage npages prot flags off dir : Nat)
    (fresh : Nat) : Except Fault MapResult :=
  if ¬ 0 < npages then .error .assertFailed
  else if ¬ (MAP_SHARED &&& flags ≠ 0 ∨ MAP_PRIVATE &&& flags ≠ 0) then .error .assertFailed
  else if ¬ (lopage = 0 ∨ ADDR_TO_PN USER_MEM_LOW ≤ lopage) then .error .assertFailed
  else if ¬ (lopage = 0 ∨ ADDR_TO_PN USER_MEM_HIGH ≥ u32add lopage npages) then
    .error .assertFailed
  else if ¬ PAGE_ALIGNED off then .error .assertFailed
  else
    -- the placement: `addr_s`, and the map after a possible `vmmap_remove`
    let placed : Except Fault (Option (Nat × vmmap_t × List VmEvent) × Int) :=
      if lopage = 0 then
        match vmmap_find_range map npages dir with
        | .error f => .error f
        | .ok avail_space_start =>
          if avail_space_start < 0 then .ok (none, avail_space_start)
          else .ok (some (avail_space_start.toNat, map, []), 0)
      else
        match vmmap_is_range_empty map lopage npages with
        | .error f => .error f
        | .ok e =>
          if e = 0 then
            let r := vmmap_remove map lopage npages
            .ok (some (lopage, r.1, r.2), 0)
          else .ok (some (lopage, map, []), 0)
    match placed with
    | .error f => .error f
    | .ok (none, r) => .ok { retval := r, map := map, new := none, events := [] }
    | .ok (some (addr_s, map1, ev1), _) =>
      let bottom : Nat := match file with
        | some o => o
        | none => fresh
      let ev2 : List VmEvent := match file with
        | some o => [VmEvent.vnode_mmap o]
        | none => [VmEvent.anon_create fresh]
      let is_private : Bool := flags &&& MAP_PRIVATE == MAP_PRIVATE
      let vma : vmarea_t :=
        { vma_start := addr_s, vma_end := u32add addr_s npages, vma_off := ADDR_TO_PN off,
          vma_prot := prot, vma_flags := flags,
          vma_obj := if is_private then fresh + 1 else bottom,
          vma_vmmap := none }
      let ev3 : List VmEvent := if is_private then [VmEvent.shadow_create (fresh + 1) bottom] else []
      match vmmap_insert map1 vma with
      | .error f => .error f
      | .ok map2 =>
        .ok { retval := 0, map := map2, new := some (vmmap_insert_idx vma map1.vmm_list),
              events := ev1 ++ ev2 ++ ev3 }

/-! ## The break: `vm/brk.c` -/

/-- The fields of `proc_t` that the virtual-memory system calls use. -/
structure proc_vm where
  p_brk : Nat
  p_start_brk : Nat
  p_vmmap : vmmap_t
  deriving DecidableEq, Repr

/-- What `do_brk` hands back: the return value, `*ret` when it was written, and the
process afterwards. -/
structure BrkResult where
  retval : Int
  ret : Option Nat
  proc : proc_vm
  deriving DecidableEq, Repr

/-- The assignment `vma->vma_end = pgn_end` through a pointer to the area at position `i`. -/
def set_vma_end (l : List vmarea_t) (i pgn_end : Nat) : List vmarea_t :=
  l.modify (fun v => { v with vma_end := pgn_end }) i

/-- The function `do_brk(addr, &ret)` of the current process `p`; `addr = 0` is `NULL`.
`fresh` is the next free memory-object identifier, passed on to `vmmap_map`. -/
def do_brk (p : proc_vm) (addr : Nat) (fresh : Nat) : Except Fault BrkResult :=
  if addr = 0 then
    .ok { retval := 0, ret := some p.p_brk, proc := p }
  else if addr < p.p_start_brk then
    .ok { retval := -ENOMEM, ret := none, proc := p }
  else if addr = p.p_start_brk then
    .ok { retval := 0, ret := some p.p_start_brk, proc := p }
  else
    let vmmap_cur := p.p_vmmap
    match vmmap_lookup vmmap_cur (u32sub p.p_start_brk 1 >>> 12) with
    | none => .error .nullDeref
    | some vma_cur =>
      let vma_cur_end_addr := (vma_cur.vma_end <<< 12) % U32
      let addr_str := max p.p_brk vma_cur_end_addr
      if addr = addr_str then
        .ok { retval := 0, ret := some addr, proc := { p with p_brk := addr } }
      else
        let pgn_end0 := addr >>> 12
        let pgn_start := addr_str >>> 12
        let pgn_end := if ¬ PAGE_ALIGNED addr then u32add pgn_end0 1 else pgn_end0
        let npages0 := u32sub pgn_end pgn_start
        let npages := if ¬ PAGE_ALIGNED addr_str then u32sub npages0 1 else npages0
        let pagenum0 := u32sub p.p_brk 1 >>> 12
        let pagenum := if ¬ PAGE_ALIGNED p.p_brk then u32add pagenum0 1 else pagenum0
        if addr_str = vma_cur_end_addr then
          if addr < vma_cur_end_addr then
            .ok { retval := 0, ret := some addr, proc := { p with p_brk := addr } }
          else
            match vmmap_is_range_empty vmmap_cur pgn_start npages with
            | .error f => .error f
            | .ok e =>
              if e ≠ 0 then
                match vmmap_map vmmap_cur none pgn_start npages (PROT_READ ||| PROT_WRITE)
                    MAP_PRIVATE (vma_cur_end_addr % PAGE_SIZE) VMMAP_DIR_HILO fresh with
                | .error f => .error f
                | .ok r =>
                  match r.new with
                  | none => .error .nullDeref
                  | some i =>
                    .ok { retval := 0, ret := some addr,
                          proc := { p with
                            p_brk := addr,
                            p_vmmap := { r.map with
                              vmm_list := set_vma_end r.map.vmm_list i pgn_end } } }
              else
                .ok { retval := -ENOMEM, ret := none, proc := p }
        else if addr > vma_cur_end_addr then
          let found : Except Fault (Option (Option Nat)) :=
            if npages = 0 ∨ addr ≤ p.p_brk then
              .ok (some (vmmap_lookup_idx (u32sub p.p_brk 1 >>> 12) vmmap_cur.vmm_list))
            else
              match vmmap_is_range_empty vmmap_cur pgn_start npages with
              | .error f => .error f
              | .ok e =>
                if e ≠ 0 then .ok (some (vmmap_lookup_idx pagenum vmmap_cur.vmm_list))
                else .ok none
          match found with
          | .error f => .error f
          | .ok none => .ok { retval := -ENOMEM, ret := none, proc := p }
          | .ok (some none) => .error .nullDeref
          | .ok (some (some i)) =>
            .ok { retval := 0, ret := some addr,
                  proc := { p with
                    p_brk := addr,
                    p_vmmap := { vmmap_cur with
                      vmm_list := set_vma_end vmmap_cur.vmm_list i pgn_end } } }
        else
          match vmmap_lookup vmmap_cur pagenum with
          | none => .error .nullDeref
          | some vma =>
            let r := vmmap_remove vmmap_cur vma.vma_start (u32sub vma.vma_end vma.vma_start)
            .ok { retval := 0, ret := some addr, proc := { p with p_brk := addr, p_vmmap := r.1 } }

/-! ## File descriptors: `fs/vfs_syscall.c` -/

/-- Modelled from the spec: `NFILES` of `config.h`, the size of a process's descriptor table. -/
def NFILES : Nat := 32

/-- Modelled from the spec: `MAX_FILES` of `config.h`, which `do_dup2` compares against. -/
def MAX_FILES : Nat := 1024

/-- The fields of `file_t`. -/
structure file_t where
  f_refcount : Int
  f_mode : Nat
  f_pos : Int
  f_vnode : Nat
  deriving DecidableEq, Repr

/-- The descriptor table of the current process and the file objects it can reach:
`p_files` is `curproc->p_files`, `files` maps the address of a live `file_t` to its
contents, `vputs` lists the vnodes released so far. -/
structure fs_state where
  p_files : List (Option Nat)
  files : Nat → Option file_t
  vputs : List Nat

/-- Modelled from the spec: `fref` of `fs/file.c`, which is not among the sources: one more
reference to the file. -/
def fref (s : fs_state) (f : Nat) : fs_state :=
  { s with files := fun g =>
      if g = f then (s.files f).map (fun x => { x with f_refcount := x.f_refcount + 1 })
      else s.files g }

/-- Modelled from the spec: `fget` of `fs/file.c`, which is not among the sources: null for a
descriptor that is out of range or not open, else the file with its reference count bumped. -/
def fget (s : fs_state) (fd : Int) : Option Nat × fs_state :=
  if fd < 0 ∨ fd ≥ NFILES then (none, s)
  else
    match s.p_files.getD fd.toNat none with
    | none => (none, s)
    | some f => (some f, fref s f)

/-- Modelled from the spec: `fput` of `fs/file.c`, which is not among the sources: one
reference less; at zero the vnode, when the file has one (`f_vnode` 0 is null), is released
and the file object freed. -/
def fput (s : fs_state) (f : Nat) : fs_state :=
  match s.files f with
  | none => s
  | some x =>
    if x.f_refcount - 1 = 0 then
      { s with files := fun g => if g = f then none else s.files g,
               vputs := if x.f_vnode = 0 then s.vputs else s.vputs ++ [x.f_vnode] }
    else
      { s with files := fun g =>
          if g = f then some { x with f_refcount := x.f_refcount - 1 } else s.files g }

/-- The function `do_close(fd)`. -/
def do_close (s : fs_state) (fd : Int) : Except Fault (Int × fs_state) :=
  match fget s fd with
  | (none, s1) => .ok (-EBADF, s1)
  | (some fileToBeClosed, s1) =>
    match s1.files fileToBeClosed with
    | none => .error .nullDeref
    | some file =>
      if file.f_mode = 0 then .ok (-EBADF, fput s1 fileToBeClosed)
      else
        let s2 := fput s1 fileToBeClosed
        let s3 := { s2 with p_files := s2.p_files.set fd.toNat none }
        .ok (0, fput s3 fileToBeClosed)

/-- The function `do_dup2(ofd, nfd)`. -/
def do_dup2 (s : fs_state) (ofd nfd : Int) : Except Fault (Int × fs_state) :=
  if ofd < 0 ∨ ofd ≥ MAX_FILES ∨ nfd < 0 ∨ nfd ≥ MAX_FILES then .ok (-EBADF, s)
  else
    match fget s ofd with
    | (none, s1) => .ok (-EBADF, s1)
    | (some fileToBeDuplicated, s1) =>
      match s1.files fileToBeDuplicated with
      | none => .error .nullDeref
      | some file =>
        if file.f_mode = 0 then .ok (-EBADF, fput s1 fileToBeDuplicated)
        else
          match s1.p_files[nfd.toNat]? with
          | none => .error .outOfBounds
          | some slot =>
            if slot ≠ none ∧ nfd = ofd then
              -- dup2-ing a file to itself
              .ok (nfd, fput s1 fileToBeDuplicated)
            else if slot = none then
              -- nfd not in use
              .ok (nfd, { s1 with p_files := s1.p_files.set nfd.toNat (some fileToBeDuplicated) })
            else
              .ok (nfd, s1)

/-! ## Mapping memory: `vm/mmap.c` -/

/-- Modelled from the spec: `FMODE_WRITE` of `fs/file.h`, which is not among the sources. -/
def FMODE_WRITE : Nat := 2

/-- What `do_mmap` hands back: the return value, `*ret` when it was written, the address
space and descriptor state afterwards, and the arguments `lopage`, `npages` of its call of
`vmmap_map` when it made one. -/
structure MmapResult where
  retval : Int
  ret : Option Nat
  map : vmmap_t
  fs : fs_state
  called : Option (Nat × Nat)
  events : List VmEvent

/-- The function `do_mmap(addr, len, prot, flags, fd, off, &ret)` of a process with address
space `map` and descriptor state `fs`. `vn_obj` gives the memory object that the `mmap`
operation of a vnode yields. -/
def do_mmap (map : vmmap_t) (fs : fs_state) (vn_obj : Nat → Nat)
    (addr len prot flags : Nat) (fd : Int) (off : Nat) (fresh : Nat) : Except Fault MmapResult :=
  let fail (e : Int) (fs1 : fs_state) : Except Fault MmapResult :=
    .ok { retval := e, ret := none, map := map, fs := fs1, called := none, events := [] }
  if len ≤ 0 ∨ len > USER_MEM_HIGH - USER_MEM_LOW then fail (-EINVAL) fs
  else if ¬ PAGE_ALIGNED off ∨ ¬ PAGE_ALIGNED addr then fail (-EINVAL) fs
  else
    let lopage : Nat := if flags ^^^ MAP_FIXED ≠ 0 then ADDR_TO_PN addr else 0
    if ¬ (MAP_SHARED &&& flags ≠ 0 ∨ MAP_PRIVATE &&& flags ≠ 0) then fail (-EPERM) fs
    else if flags &&& MAP_FIXED ≠ 0 ∧ addr = 0 then fail (-EINVAL) fs
    else
      -- the vnode to map (`node`), after the descriptor checks
      let node : Except Fault (Except Int (Option Nat) × fs_state) :=
        if flags &&& MAP_ANON = 0 then
          match fget fs fd with
          | (none, fs1) => .ok (.error (-EBADF), fs1)
          | (some fp, fs1) =>
            if fd < 0 ∨ fd ≥ MAX_FILES ∨ fs1.p_files.getD fd.toNat none = none then
              .ok (.error (-EBADF), fs1)
            else
              match fs1.files fp with
              | none => .error .nullDeref
              | some file =>
                if prot &&& PROT_WRITE ≠ 0 ∧ file.f_mode &&& FMODE_WRITE ≠ FMODE_WRITE then
                  .ok (.error (-EPERM), fput fs1 fp)
                else
                  .ok (.ok (some file.f_vnode), fput fs1 fp)
        else .ok (.ok none, fs)
      match node with
      | .error f => .error f
      | .ok (.error e, fs1) => fail e fs1
      | .ok (.ok vn, fs1) =>
        let npages := (len - 1) / PAGE_SIZE + 1
        match vmmap_map map (vn.map vn_obj) lopage npages prot flags off VMMAP_DIR_HILO fresh with
        | .error f => .error f
        | .ok r =>
          if r.retval < 0 then
            .ok { retval := r.retval, ret := none, map := r.map, fs := fs1,
                  called := some (lopage, npages), events := r.events }
          else
            match r.new.bind (fun i => r.map.vmm_list[i]?) with
            | none => .error .nullDeref
            | some mmap =>
              .ok { retval := r.retval, ret := some (PN_TO_ADDR mmap.vma_start), map := r.map,
                    fs := fs1, called := some (lopage, npages), events := r.events }

/-- The function `do_munmap(addr, len)` on the address space `map` of the current process:
the return value, the address space afterwards and the calls `vmmap_remove` made.
`tlb_flush_all` touches nothing that is modelled here. -/
def do_munmap (map : vmmap_t) (addr len : Nat) : Int × vmmap_t × List VmEvent :=
  if len ≤ 0 ∨ addr = 0 then (-EINVAL, map, [])
  else if addr < USER_MEM_LOW ∨ u32sub USER_MEM_HIGH addr < len then (-EINVAL, map, [])
  else if ¬ PAGE_ALIGNED addr then (-EINVAL, map, [])
  else
    let npages0 := len / PAGE_SIZE
    let npages := if len % PAGE_SIZE ≠ 0 then u32add npages0 1 else npages0
    let r := vmmap_remove map (ADDR_TO_PN addr) npages
    (0, r.1, r.2)

/-! ## Page faults: `vm/pagefault.c` -/

/-- Modelled from the spec: `FAULT_WRITE` of `vm/pagefault.h`, which is not among the sources. -/
def FAULT_WRITE : Nat := 2
/-- Modelled from the spec: page-table flags of `mm/pagetable.h`. -/
def PT_PRESENT : Nat := 1
/-- Modelled from the spec: page-table flags of `mm/pagetable.h`. -/
def PT_WRITE : Nat := 2
/-- Modelled from the spec: page-table flags of `mm/pagetable.h`. -/
def PT_USER : Nat := 4
/-- Modelled from the spec: page-directory flags of `mm/pagetable.h`. -/
def PD_PRESENT : Nat := 1
/-- Modelled from the spec: page-directory flags of `mm/pagetable.h`. -/
def PD_WRITE : Nat := 2
/-- Modelled from the spec: page-directory flags of `mm/pagetable.h`. -/
def PD_USER : Nat := 4

/-- What `pframe_lookup` hands to its caller: the return value and the frame stored through
the result pointer, given by its `pf_addr` (`none`: the pointer was left null). -/
structure LookupResult where
  retval : Int
  pf_addr : Option Nat
  deriving DecidableEq, Repr

/-- The calls `handle_pagefault` makes, in program order. -/
inductive PfEvent where
  | pframe_lookup (obj pagenum : Nat) (forwrite : Bool)
  | pt_map (vaddr pf_addr pdflags ptflags : Nat)
  | do_exit (status : Int)
  deriving DecidableEq, Repr

/-- The function `handle_pagefault(vaddr, cause)` in a process with address space `map`.
`pframe_lookup` stands for the memory-object layer. `do_exit` does not return (it ends in
`sched_switch` with the thread exited), so the trace stops there. -/
def handle_pagefault (map : vmmap_t) (pframe_lookup : Nat → Nat → Bool → LookupResult)
    (vaddr cause : Nat) : Except Fault (List PfEvent) :=
  let vfn := ADDR_TO_PN vaddr
  match vmmap_lookup map vfn with
  | none => .ok [PfEvent.do_exit EFAULT]
  | some vma =>
    if vma.vma_prot &&& PROT_READ = 0 ∨
        (cause &&& FAULT_WRITE ≠ 0 ∧ vma.vma_prot &&& PROT_WRITE = 0) then
      .ok [PfEvent.do_exit EFAULT]
    else
      let w : Bool := cause &&& FAULT_WRITE ≠ 0
      let pdflags := if w then PD_PRESENT ||| PD_USER ||| PD_WRITE else PD_PRESENT ||| PD_USER
      let ptflags := if w then PT_PRESENT ||| PT_USER ||| PT_WRITE else PT_PRESENT ||| PT_USER
      let pn := u32add (u32sub vfn vma.vma_start) vma.vma_off
      let r := pframe_lookup vma.vma_obj pn w
      if r.retval < 0 then
        .ok [PfEvent.pframe_lookup vma.vma_obj pn w, PfEvent.do_exit EFAULT]
      else
        match r.pf_addr with
        | none => .error .assertFailed
        | some a =>
          if a = 0 then .error .assertFailed
          else
            .ok [PfEvent.pframe_lookup vma.vma_obj pn w,
                 PfEvent.pt_map (vaddr / PAGE_SIZE * PAGE_SIZE) a pdflags ptflags]

/-! ## Scheduler queues and mutexes: `proc/sched.c`, `proc/sched_helper.c`, `proc/kmutex.c` -/

/-- The thread states of `proc/kthread.h`. -/
inductive kt_state_t where
  | KT_NO_STATE
  | KT_RUN
  | KT_SLEEP
  | KT_SLEEP_CANCELLABLE
  | KT_EXITED
  deriving DecidableEq, Repr

/-- The fields of `kthread_t` that the scheduler uses. `kt_wchan` is the queue the thread
is blocked on; `kt_qlink` is the queue in whose list the thread's link is (`none`: the
link is unlinked, its `l_next` and `l_prev` are null). -/
structure kthread_t where
  kt_state : kt_state_t
  kt_wchan : Option Nat
  kt_qlink : Option Nat
  kt_cancelled : Int
  kt_proc : Nat
  deriving DecidableEq, Repr

/-- A queue `ktqueue_t`: the threads in list order (`list_insert_head` puts a thread in
front, `l_prev` of the list head is the last one) and the counter `tq_size`. -/
structure ktqueue_t where
  tq_list : List Nat
  tq_size : Int
  deriving DecidableEq, Repr

/-- The scheduler's view of the kernel: threads and queues by address, and the globals
`curthr` and `curproc`. -/
structure sched_state where
  threads : Nat → kthread_t
  queues : Nat → ktqueue_t
  curthr : Option Nat
  curproc : Option Nat

/-- The address of the run queue `kt_runq`. -/
def kt_runq : Nat := 0

/-- Update of one thread. -/
def set_thread (s : sched_state) (t : Nat) (k : kthread_t) : sched_state :=
  { s with threads := fun u => if u = t then k else s.threads u }

/-- Update of one queue. -/
def set_queue (s : sched_state) (q : Nat) (k : ktqueue_t) : sched_state :=
  { s with queues := fun r => if r = q then k else s.queues r }

/-- The function `ktqueue_enqueue(q, thr)`. -/
def ktqueue_enqueue (s : sched_state) (q thr : Nat) : Except Fault sched_state :=
  if (s.threads thr).kt_wchan ≠ none then .error .assertFailed
  else
    let s1 := set_queue s q { (s.queues q) with tq_list := thr :: (s.queues q).tq_list }
    let s2 := set_thread s1 thr { (s1.threads thr) with kt_wchan := some q, kt_qlink := some q }
    .ok (set_queue s2 q { (s2.queues q) with tq_size := (s2.queues q).tq_size + 1 })

/-- The function `ktqueue_dequeue(q)`: the thread at the tail of the list, or null. -/
def ktqueue_dequeue (s : sched_state) (q : Nat) : Option Nat × sched_state :=
  match (s.queues q).tq_list.getLast? with
  | none => (none, s)
  | some thr =>
    let s1 := set_queue s q { (s.queues q) with tq_list := (s.queues q).tq_list.dropLast }
    let s2 := set_thread s1 thr { (s1.threads thr) with kt_wchan := none, kt_qlink := none }
    (some thr, set_queue s2 q { (s2.queues q) with tq_size := (s2.queues q).tq_size - 1 })

/-- The function `ktqueue_remove(q, thr)`; `q` is a pointer that may be null. -/
def ktqueue_remove (s : sched_state) (q : Option Nat) (thr : Nat) : Except Fault sched_state :=
  match (s.threads thr).kt_qlink with
  | none => .error .assertFailed
  | some l =>
    let s1 := set_queue s l { (s.queues l) with tq_list := (s.queues l).tq_list.erase thr }
    let s2 := set_thread s1 thr { (s1.threads thr) with kt_wchan := none, kt_qlink := none }
    match q with
    | none => .error .nullDeref
    | some q => .ok (set_queue s2 q { (s2.queues q) with tq_size := (s2.queues q).tq_size - 1 })

/-- The function `sched_queue_empty(q)`. -/
def sched_queue_empty (s : sched_state) (q : Nat) : Bool := (s.queues q).tq_list.isEmpty

/-- The function `sched_make_runnable(thr)`. -/
def sched_make_runnable (s : sched_state) (thr : Nat) : Except Fault sched_state :=
  if (s.threads thr).kt_wchan = some kt_runq then .error .assertFailed
  else
    let s1 := set_thread s thr { (s.threads thr) with kt_state := kt_state_t.KT_RUN }
    ktqueue_enqueue s1 kt_runq thr

/-- The function `sched_wakeup_on(q)`. -/
def sched_wakeup_on (s : sched_state) (q : Nat) : Except Fault (Option Nat × sched_state) :=
  match ktqueue_dequeue s q with
  | (none, s1) => .ok (none, s1)
  | (some thread_on_queue, s1) =>
    if (s1.threads thread_on_queue).kt_state = kt_state_t.KT_SLEEP ∨
        (s1.threads thread_on_queue).kt_state = kt_state_t.KT_SLEEP_CANCELLABLE then
      match sched_make_runnable s1 thread_on_queue with
      | .error f => .error f
      | .ok s2 => .ok (some thread_on_queue, s2)
    else .error .assertFailed

/-- The function `sched_cancel(kthr)`. -/
def sched_cancel (s : sched_state) (kthr : Nat) : Except Fault sched_state :=
  if (s.threads kthr).kt_state = kt_state_t.KT_SLEEP_CANCELLABLE then
    let s1 := set_thread s kthr { (s.threads kthr) with kt_cancelled := 1 }
    match ktqueue_remove s1 (s1.threads kthr).kt_wchan kthr with
    | .error f => .error f
    | .ok s2 => sched_make_runnable s2 kthr
  else
    .ok (set_thread s kthr { (s.threads kthr) with kt_cancelled := 1 })

/-- The function `sched_switch()` up to the context switch: `none` while the run queue is
empty (the loop waits for an interrupt), else the state in which the dequeued thread is
`curthr`. -/
def sched_switch (s : sched_state) : Option sched_state :=
  if sched_queue_empty s kt_runq then none
  else
    match ktqueue_dequeue s kt_runq with
    | (none, _) => none
    | (some thread_runq_top, s1) =>
      some { s1 with curproc := some (s1.threads thread_runq_top).kt_proc,
                     curthr := some thread_runq_top }

/-- The part of `sched_sleep_on(q)` before `sched_switch`: the current thread `thr` marks
itself asleep and enqueues itself. -/
def sched_sleep_on_enter (s : sched_state) (q thr : Nat) : Except Fault sched_state :=
  ktqueue_enqueue (set_thread s thr { (s.threads thr) with kt_state := kt_state_t.KT_SLEEP }) q thr

/-- How far a call that can block got: it returned a value, or it gave up the processor in
`sched_switch` and continues in its `wake` part when the thread runs again. -/
inductive Ctl (α : Type) where
  | returned (v : α) (s : sched_state)
  | blocked (s : sched_state)

/-- The part of `sched_cancellable_sleep_on(q)` before `sched_switch`, for the current
thread `thr`. -/
def sched_cancellable_sleep_on_enter (s : sched_state) (q thr : Nat) :
    Except Fault (Ctl Int) :=
  if (s.threads thr).kt_cancelled = 1 then .ok (Ctl.returned (-EINTR) s)
  else
    match ktqueue_enqueue s q thr with
    | .error f => .error f
    | .ok s1 =>
      .ok (Ctl.blocked (set_thread s1 thr
        { (s1.threads thr) with kt_state := kt_state_t.KT_SLEEP_CANCELLABLE }))

/-- The part of `sched_cancellable_sleep_on(q)` after `sched_switch` has returned in the
thread `thr`: the return value. -/
def sched_cancellable_sleep_on_wake (s : sched_state) (thr : Nat) : Int :=
  if (s.threads thr).kt_cancelled = 1 then -EINTR else 0

/-- A mutex `kmutex_t`: the holder and the address of its wait queue. -/
structure kmutex_t where
  km_holder : Option Nat
  km_waitq : Nat
  deriving DecidableEq, Repr

/-- The function `kmutex_unlock(mtx)`. -/
def kmutex_unlock (s : sched_state) (mtx : kmutex_t) : Except Fault (kmutex_t × sched_state) :=
  if ¬ (s.curthr ≠ none ∧ s.curthr = mtx.km_holder) then .error .assertFailed
  else
    let r : Except Fault (kmutex_t × sched_state) :=
      if sched_queue_empty s mtx.km_waitq then .ok ({ mtx with km_holder := none }, s)
      else
        match sched_wakeup_on s mtx.km_waitq with
        | .error f => .error f
        | .ok (t, s1) => .ok ({ mtx with km_holder := t }, s1)
    match r with
    | .error f => .error f
    | .ok (mtx1, s1) =>
      if s1.curthr ≠ mtx1.km_holder then .ok (mtx1, s1) else .error .assertFailed

/-- The function `kmutex_lock(mtx)` up to the point where it returns or blocks in
`sched_sleep_on`. -/
def kmutex_lock (s : sched_state) (mtx : kmutex_t) : Except Fault (kmutex_t × Ctl Unit) :=
  match s.curthr with
  | none => .error .assertFailed
  | some thr =>
    if s.curthr = mtx.km_holder then .error .assertFailed
    else if mtx.km_holder ≠ none then
      match sched_sleep_on_enter s mtx.km_waitq thr with
      | .error f => .error f
      | .ok s1 => .ok (mtx, Ctl.blocked s1)
    else .ok ({ mtx with km_holder := some thr }, Ctl.returned () s)

/-- The function `kmutex_lock_cancellable(mtx)` up to the point where it returns or blocks
in `sched_cancellable_sleep_on`. -/
def kmutex_lock_cancellable_enter (s : sched_state) (mtx : kmutex_t) :
    Except Fault (kmutex_t × Ctl Int) :=
  match s.curthr with
  | none => .error .assertFailed
  | some thr =>
    if s.curthr = mtx.km_holder then .error .assertFailed
    else if (s.threads thr).kt_cancelled ≠ 1 then
      if mtx.km_holder ≠ none then
        match sched_cancellable_sleep_on_enter s mtx.km_waitq thr with
        | .error f => .error f
        | .ok (Ctl.blocked s1) => .ok (mtx, Ctl.blocked s1)
        | .ok (Ctl.returned retval s1) =>
          if retval = -EINTR then
            match kmutex_unlock s1 mtx with
            | .error f => .error f
            | .ok (mtx1, s2) => .ok (mtx1, Ctl.returned retval s2)
          else .ok (mtx, Ctl.returned retval s1)
      else .ok ({ mtx with km_holder := some thr }, Ctl.returned 0 s)
    else .ok (mtx, Ctl.returned (-EINTR) s)

/-- The rest of `kmutex_lock_cancellable(mtx)` once the thread that blocked in it runs
again: `sched_cancellable_sleep_on` returns, and on `-EINTR` the mutex is unlocked. -/
def kmutex_lock_cancellable_wake (s : sched_state) (mtx : kmutex_t) :
    Except Fault (Int × kmutex_t × sched_state) :=
  match s.curthr with
  | none => .error .nullDeref
  | some thr =>
    let retval := sched_cancellable_sleep_on_wake s thr
    if retval = -EINTR then
      match kmutex_unlock s mtx with
      | .error f => .error f
      | .ok (mtx1, s1) => .ok (retval, mtx1, s1)
    else .ok (retval, mtx, s)

/-- A thread going to sleep on the queue `q`: it runs `sched_cancellable_sleep_on` (when
`cancellable`) or `sched_sleep_on` up to the `sched_switch` in it. -/
def sleep_step (q : Nat) (s : sched_state) (thr : Nat) (cancellable : Bool) :
    Except Fault sched_state :=
  if cancellable then
    match sched_cancellable_sleep_on_enter s q thr with
    | .error f => .error f
    | .ok (Ctl.returned _ s1) => .ok s1
    | .ok (Ctl.blocked s1) => .ok s1
  else
    sched_sleep_on_enter s q thr

/-- Threads going to sleep on the queue `q` one after the other; each pair is a thread and
whether its sleep is cancellable. -/
def sleep_seq (q : Nat) : sched_state → List (Nat × Bool) → Except Fault sched_state
  | s, [] => .ok s
  | s, (thr, cancellable) :: rest =>
    match sleep_step q s thr cancellable with
    | .error f => .error f
    | .ok s1 => sleep_seq q s1 rest

/-- The results of `n` successive calls of `sched_wakeup_on(q)`. -/
def wakeup_seq (q : Nat) : sched_state → Nat → Except Fault (List (Option Nat) × sched_state)
  | s, 0 => .ok ([], s)
  | s, n + 1 =>
    match sched_wakeup_on s q with
    | .error f => .error f
    | .ok (t, s1) =>
      match wakeup_seq q s1 n with
      | .error f => .error f
      | .ok (ts, s2) => .ok (t :: ts, s2)

/-- Threads made runnable one after the other with `sched_make_runnable`. -/
def runnable_seq : sched_state → List Nat → Except Fault sched_state
  | s, [] => .ok s
  | s, thr :: rest =>
    match sched_make_runnable s thr with
    | .error f => .error f
    | .ok s1 => runnable_seq s1 rest

/-- The threads that `n` successive calls of `sched_switch` make the current thread;
`none` overall when a call finds the run queue empty. -/
def switch_seq : sched_state → Nat → Option (List (Option Nat) × sched_state)
  | s, 0 => some ([], s)
  | s, n + 1 =>
    match sched_switch s with
    | none => none
    | some s1 =>
      match switch_seq s1 n with
      | none => none
      | some (ts, s2) => some (s1.curthr :: ts, s2)

/-- The fault was not resolved: the trace of `handle_pagefault` ends in `do_exit(EFAULT)`
and contains no `pt_map`. -/
def pf_killed (tr : List PfEvent) : Prop :=
  tr.getLast? = some (PfEvent.do_exit EFAULT) ∧ ∀ va a pd pt, PfEvent.pt_map va a pd pt ∉ tr

/-- The object page the fault handler looks up for page `vfn` of the area `vma`:
`vfn - vma_start + vma_off` in `uint32_t`. -/
def pf_pagenum (vfn : Nat) (vma : vmarea_t) : Nat := (vfn - vma.vma_start + vma.vma_off) % U32

/-- The conditions under which a fault cannot be resolved: no area contains the page, or
the area found lacks `PROT_READ`, or the fault is a write and the area lacks `PROT_WRITE`,
or `pframe_lookup` on the area's object returns an error. -/
def pf_unresolved (map : vmmap_t) (lk : Nat → Nat → Bool → LookupResult)
    (vaddr cause : Nat) : Prop :=
  (∀ v ∈ map.vmm_list, ¬ vma_covers v (ADDR_TO_PN vaddr)) ∨
  ∃ vma, vmmap_lookup map (ADDR_TO_PN vaddr) = some vma ∧
    (vma.vma_prot &&& PROT_READ = 0 ∨
     (cause &&& FAULT_WRITE ≠ 0 ∧ vma.vma_prot &&& PROT_WRITE = 0) ∨
     (lk vma.vma_obj (pf_pagenum (ADDR_TO_PN vaddr) vma)
        (decide (cause &&& FAULT_WRITE ≠ 0))).retval < 0)

/-- A memory-object layer in which every lookup succeeds with the frame at `0x1000`. -/
def lookup_ok : Nat → Nat → Bool → LookupResult := fun _ _ _ => ⟨0, some 0x1000⟩

/-! ## Memory objects and copy-on-write: `vm/shadow.c`, `vm/anon.c`, `proc/fork.c` -/

/-- The operations table `mmo_ops` of a memory object: anonymous (`anon.c`), shadow
(`shadow.c`), or the table of a vnode-backed object, which the file system supplies. -/
inductive mmobj_ops_t where
  | anon
  | shadow
  | vnode
  deriving DecidableEq, Repr

/-- A page frame `pframe_t` of an object: the bytes at `pf_addr` by offset, the pin count
and the dirty bit. A frame is identified by its object and page number. -/
structure pframe_t where
  pf_data : Nat → Nat
  pf_pincount : Nat
  pf_dirty : Bool

/-- A memory object `mmobj_t`. `mmo_respages` gives the resident frame of a page number,
`mmo_bottom_obj` is `mmo_un.mmo_bottom_obj`. -/
structure mmobj_t where
  mmo_ops : mmobj_ops_t
  mmo_refcount : Int
  mmo_nrespages : Int
  mmo_shadowed : Option Nat
  mmo_bottom_obj : Option Nat
  mmo_respages : Nat → Option pframe_t

/-- The memory objects of the kernel by address; addresses from `next` on are free, and
the allocators hand them out in ascending order. `fill` is what the `fillpage` operation
of a vnode-backed object produces for a page (an error code or the page's bytes), `uninit`
the bytes of a frame that was allocated and not filled. -/
structure vm_heap where
  objs : Nat → Option mmobj_t
  next : Nat
  fill : Nat → Nat → Except Int (Nat → Nat)
  uninit : Nat → Nat

/-- What a lookup hands back: the return value, the frame stored through the result
pointer (object and page number), and the heap afterwards. -/
structure LookupOut where
  retval : Int
  pf : Option (Nat × Nat)
  heap : vm_heap

/-- The type of `pframe_lookup`, given to the object operations that call it. -/
abbrev Lookup := vm_heap → Nat → Nat → Bool → Except Fault LookupOut

/-- Replace the object at address `o`. -/
def set_obj (h : vm_heap) (o : Nat) (x : Option mmobj_t) : vm_heap :=
  { h with objs := fun a => if a = o then x else h.objs a }

/-- Replace the frame of page `pagenum` of the object `x`. -/
def set_frame (x : mmobj_t) (pagenum : Nat) (pf : Option pframe_t) : mmobj_t :=
  { x with mmo_respages := fun n => if n = pagenum then pf else x.mmo_respages n }

/-- Modelled from the spec: `pframe_get_resident` of `mm/pframe.c`, which is not among the
sources: the resident frame of the page in this object, or null. -/
def pframe_get_resident (h : vm_heap) (o pagenum : Nat) : Option pframe_t :=
  (h.objs o).bind (fun x => x.mmo_respages pagenum)

/-- The object `x` with a fresh frame for page `pagenum` that is not filled and not pinned
(part of `pframe_get`). -/
def frame_alloc (x : mmobj_t) (pagenum : Nat) (uninit : Nat → Nat) : mmobj_t :=
  { set_frame x pagenum (some ⟨uninit, 0, false⟩) with mmo_nrespages := x.mmo_nrespages + 1 }

/-- The object `y` without its frame for page `pagenum` (part of `pframe_get`). -/
def frame_free (y : mmobj_t) (pagenum : Nat) : mmobj_t :=
  { set_frame y pagenum none with mmo_nrespages := y.mmo_nrespages - 1 }

/-- Modelled from the spec: `pframe_get` of `mm/pframe.c`, which is not among the sources:
the resident frame if there is one; else a fresh frame is allocated for the page and the
object's `fillpage` operation is called on it; when that returns a negative code the frame
is given back and the code returned. -/
def pframe_get (fillpage : vm_heap → Nat → Nat → Except Fault (Int × vm_heap))
    (h : vm_heap) (o pagenum : Nat) : Except Fault LookupOut :=
  match h.objs o with
  | none => .error .nullDeref
  | some x =>
    match x.mmo_respages pagenum with
    | some _ => .ok { retval := 0, pf := some (o, pagenum), heap := h }
    | none =>
      match fillpage (set_obj h o (some (frame_alloc x pagenum h.uninit))) o pagenum with
      | .error f => .error f
      | .ok (r, h2) =>
        if r < 0 then
          match h2.objs o with
          | none => .error .nullDeref
          | some y =>
            .ok { retval := r, pf := none, heap := set_obj h2 o (some (frame_free y pagenum)) }
        else .ok { retval := 0, pf := some (o, pagenum), heap := h2 }

/-- Fill the frame of page `pagenum` of object `o` with `data` and pin it: `memcpy` or
`memset` into `pf->pf_addr` and `pframe_pin`. -/
def fill_frame (h : vm_heap) (o pagenum : Nat) (data : Nat → Nat) : Except Fault vm_heap :=
  match h.objs o with
  | none => .error .nullDeref
  | some x =>
    match x.mmo_respages pagenum with
    | none => .error .nullDeref
    | some pf =>
      .ok (set_obj h o (some (set_frame x pagenum
        (some { pf with pf_data := data, pf_pincount := pf.pf_pincount + 1 }))))

/-- The assertions at the head of `anon_fillpage` and `shadow_fillpage`: the frame exists
(it is busy, being filled) and is not pinned. -/
def fillpage_asserts (h : vm_heap) (o pagenum : Nat) : Bool :=
  match pframe_get_resident h o pagenum with
  | none => false
  | some pf => pf.pf_pincount = 0

/-- The function `anon_fillpage(o, pf)`: zero the page and pin it. -/
def anon_fillpage (h : vm_heap) (o pagenum : Nat) : Except Fault (Int × vm_heap) :=
  if fillpage_asserts h o pagenum then
    match fill_frame h o pagenum (fun _ => 0) with
    | .error f => .error f
    | .ok h1 => .ok (0, h1)
  else .error .assertFailed

/-- The function `anon_lookuppage(o, pagenum, forwrite, pf)`. -/
def anon_lookuppage (h : vm_heap) (o pagenum : Nat) (_forwrite : Bool) : Except Fault LookupOut :=
  pframe_get anon_fillpage h o pagenum

/-- Modelled from the spec: the `fillpage` operation of a vnode-backed object, which the
file system supplies: the page is read from the vnode, or an error code returned. -/
def vnode_fillpage (h : vm_heap) (o pagenum : Nat) : Except Fault (Int × vm_heap) :=
  match h.fill o pagenum with
  | .error e => .ok (e, h)
  | .ok data =>
    match fill_frame h o pagenum data with
    | .error f => .error f
    | .ok h1 => .ok (0, h1)

/-- Modelled from the spec: the `lookuppage` operation of a vnode-backed object: pages are
filled lazily from the vnode through `pframe_get`. -/
def vnode_lookuppage (h : vm_heap) (o pagenum : Nat) (_forwrite : Bool) : Except Fault LookupOut :=
  pframe_get vnode_fillpage h o pagenum

/-- The loop of `shadow_fillpage`, entered with `curr_pf == NULL`: `curr_obj` is the object
to look at next (possibly null), `bottom` is `o->mmo_un.mmo_bottom_obj`. The result is the
frame found, if any, and `curr_obj` at loop exit. -/
def shadow_fillpage_walk (h : vm_heap) (pagenum : Nat) (bottom : Option Nat) :
    Nat → Option Nat → Except Fault (Option (Nat × Nat) × Option Nat)
  | 0, _ => .error .diverges
  | fuel + 1, curr_obj =>
    if bottom = curr_obj then .ok (none, curr_obj)
    else
      match curr_obj with
      | none => .error .nullDeref
      | some c =>
        match h.objs c with
        | none => .error .nullDeref
        | some y =>
          match y.mmo_respages pagenum with
          | some _ => .ok (some (c, pagenum), y.mmo_shadowed)
          | none => shadow_fillpage_walk h pagenum bottom fuel y.mmo_shadowed

/-- The function `shadow_fillpage(o, pf)` for the frame of page `pagenum` of `o`. `lookup`
is `pframe_lookup`, `fuel` bounds the iterations of the loop. -/
def shadow_fillpage (lookup : Lookup) (fuel : Nat) (h : vm_heap) (o pagenum : Nat) :
    Except Fault (Int × vm_heap) :=
  if fillpage_asserts h o pagenum then
    match h.objs o with
    | none => .error .nullDeref
    | some x =>
      match shadow_fillpage_walk h pagenum x.mmo_bottom_obj fuel x.mmo_shadowed with
      | .error f => .error f
      | .ok (some src, _) =>
        match pframe_get_resident h src.1 src.2 with
        | none => .error .nullDeref
        | some spf =>
          match fill_frame h o pagenum spf.pf_data with
          | .error f => .error f
          | .ok h1 => .ok (0, h1)
      | .ok (none, curr_obj) =>
        match curr_obj with
        | none => .error .nullDeref
        | some c =>
          match lookup h c pagenum true with
          | .error f => .error f
          | .ok r =>
            -- `retval = pframe_lookup(...) < 0`: the comparison is what is assigned
            let retval : Int := if r.retval < 0 then 1 else 0
            if retval ≠ 0 then .ok (retval, r.heap)
            else
              match r.pf.bind (fun k => pframe_get_resident r.heap k.1 k.2) with
              | none => .error .nullDeref
              | some spf =>
                match fill_frame r.heap o pagenum spf.pf_data with
                | .error f => .error f
                | .ok h1 => .ok (0, h1)
  else .error .assertFailed

/-- The loop of `shadow_lookuppage`, entered with `curr_pf == NULL` at `curr_obj`: the
frame found, if any, and `curr_obj` at loop exit. -/
def shadow_lookuppage_walk (h : vm_heap) (pagenum : Nat) :
    Nat → Nat → Except Fault (Option (Nat × Nat) × Option Nat)
  | 0, _ => .error .diverges
  | fuel + 1, curr_obj =>
    match h.objs curr_obj with
    | none => .error .nullDeref
    | some x =>
      match x.mmo_shadowed with
      | none => .ok (none, some curr_obj)
      | some nxt =>
        match x.mmo_respages pagenum with
        | some _ => .ok (some (curr_obj, pagenum), some nxt)
        | none => shadow_lookuppage_walk h pagenum fuel nxt

/-- The function `shadow_lookuppage(o, pagenum, forwrite, pf)`. -/
def shadow_lookuppage (lookup : Lookup) (fuel : Nat) (h : vm_heap) (o pagenum : Nat)
    (forwrite : Bool) : Except Fault LookupOut :=
  if forwrite then
    pframe_get (shadow_fillpage lookup fuel) h o pagenum
  else
    match shadow_lookuppage_walk h pagenum fuel o with
    | .error f => .error f
    | .ok (none, curr_obj) =>
      match curr_obj with
      | none => .error .nullDeref
      | some c => lookup h c pagenum forwrite
    | .ok (some curr_pf, _) =>
      .ok { retval := 0, pf := some curr_pf, heap := h }

/-- Modelled from the spec: `pframe_lookup` of `mm/pframe.c`, which is not among the
sources: the call of the object's `lookuppage` operation. `fuel` bounds the depth of the
calls and the iterations of the loops; the C code has no such bound and would not return. -/
def pframe_lookup : Nat → Lookup
  | 0 => fun _ _ _ _ => .error .diverges
  | fuel + 1 => fun h o pagenum forwrite =>
    match h.objs o with
    | none => .error .nullDeref
    | some x =>
      match x.mmo_ops with
      | .anon => anon_lookuppage h o pagenum forwrite
      | .vnode => vnode_lookuppage h o pagenum forwrite
      | .shadow => shadow_lookuppage (pframe_lookup fuel) fuel h o pagenum forwrite

/-- The function `shadow_create()`: a zeroed shadow object with reference count 1 at the
next free address. -/
def shadow_create (h : vm_heap) : Nat × vm_heap :=
  (h.next,
    { set_obj h h.next (some
        { mmo_ops := .shadow, mmo_refcount := 1, mmo_nrespages := 0, mmo_shadowed := none,
          mmo_bottom_obj := none, mmo_respages := fun _ => none }) with
      next := h.next + 1 })

/-- The call `o->mmo_ops->ref(o)`, as `anon_ref` and `shadow_ref` implement it. -/
def mmobj_ref (h : vm_heap) (o : Nat) : Except Fault vm_heap :=
  match h.objs o with
  | none => .error .nullDeref
  | some x =>
    if 0 < x.mmo_refcount then
      .ok (set_obj h o (some { x with mmo_refcount := x.mmo_refcount + 1 }))
    else .error .assertFailed

/-- Modelled from the spec: `mmobj_bottom_obj` of `mm/mmobj.h`, which is not among the
sources: the object itself when it shadows nothing, else its recorded bottom object. -/
def mmobj_bottom_obj (h : vm_heap) (o : Nat) : Except Fault (Option Nat) :=
  match h.objs o with
  | none => .error .nullDeref
  | some x =>
    match x.mmo_shadowed with
    | none => .ok (some o)
    | some _ => .ok x.mmo_bottom_obj

/-- The `MAP_PRIVATE` case in the loop of `do_fork` for an area whose object is `obj`: a
fresh shadow object over `obj` for the child, then one for the parent, each recording the
bottom object of `obj`. The result is the child's shadow, the parent's shadow and the
heap. -/
def fork_shadows (h1 : vm_heap) (obj : Nat) : Except Fault (Nat × Nat × vm_heap) :=
  match mmobj_bottom_obj (shadow_create h1).2 obj with
  | .error f => .error f
  | .ok bottom_obj =>
    let h3 := set_obj (shadow_create h1).2 (shadow_create h1).1
      (((shadow_create h1).2.objs (shadow_create h1).1).map (fun x =>
        { x with mmo_bottom_obj := bottom_obj, mmo_shadowed := some obj }))
    let h5 := set_obj (shadow_create h3).2 (shadow_create h3).1
      (((shadow_create h3).2.objs (shadow_create h3).1).map (fun x =>
        { x with mmo_bottom_obj := bottom_obj, mmo_shadowed := some obj }))
    .ok ((shadow_create h1).1, (shadow_create h3).1, h5)

/-- The loop of `do_fork` over the child's areas, `list_link_obj` walking the parent's list
alongside: the heap, the parent's areas and the child's areas afterwards. -/
def do_fork_loop : vm_heap → List vmarea_t → List vmarea_t →
    Except Fault (vm_heap × List vmarea_t × List vmarea_t)
  | h, ps, [] => .ok (h, ps, [])
  | _, [], _ :: _ => .error .outOfBounds
  | h, vma_p :: ps, vma_c :: cs =>
    match mmobj_ref h vma_p.vma_obj with
    | .error f => .error f
    | .ok h1 =>
      if vma_p.vma_flags &&& MAP_TYPE = MAP_PRIVATE then
        match fork_shadows h1 vma_p.vma_obj with
        | .error f => .error f
        | .ok (shad_c, shad_p, h5) =>
          match do_fork_loop h5 ps cs with
          | .error f => .error f
          | .ok (h6, ps1, cs1) =>
            .ok (h6, { vma_p with vma_obj := shad_p } :: ps1,
                 { vma_c with vma_obj := shad_c } :: cs1)
      else
        match do_fork_loop h1 ps cs with
        | .error f => .error f
        | .ok (h6, ps1, cs1) =>
          .ok (h6, vma_p :: ps1, { vma_c with vma_obj := vma_p.vma_obj } :: cs1)

/-- What the address-space part of `do_fork` produces. -/
structure ForkResult where
  heap : vm_heap
  parent : proc_vm
  child : proc_vm

/-- The address-space part of `do_fork`: `vmmap_clone`, the loop that shares or shadows the
memory objects, and the copy of the break; `newmap` is the address of the child's
`vmmap_t`. -/
def do_fork (h : vm_heap) (cur : proc_vm) (newmap : Nat) : Except Fault ForkResult :=
  match vmmap_clone cur.p_vmmap newmap with
  | .error f => .error f
  | .ok clone =>
    match do_fork_loop h cur.p_vmmap.vmm_list clone.vmm_list with
    | .error f => .error f
    | .ok (h1, ps, cs) =>
      .ok { heap := h1,
            parent := { cur with p_vmmap := { cur.p_vmmap with vmm_list := ps } },
            child := { p_brk := cur.p_brk, p_start_brk := cur.p_start_brk,
                       p_vmmap := { clone with vmm_list := cs } } }

/-- The first resident copy of page `pn` found walking down from `o` is in the object `k`,
`m` objects further down: in a shadow object of the chain, or else in the bottom object
`B`; the objects passed are shadow objects allocated below `N` that record `B` as their
bottom object and do not hold the page. -/
inductive Src (h : vm_heap) (N pn B : Nat) : Nat → Nat → Nat → Prop where
  | hit (o nxt : Nat) (x : mmobj_t) (pf : pframe_t) : B < N → o < N → o ≠ B →
      h.objs o = some x → x.mmo_ops = .shadow → x.mmo_shadowed = some nxt →
      x.mmo_bottom_obj = some B → x.mmo_respages pn = some pf → Src h N pn B o 0 o
  | bot (x : mmobj_t) (pf : pframe_t) : B < N → h.objs B = some x → x.mmo_ops ≠ .shadow →
      x.mmo_shadowed = none → x.mmo_respages pn = some pf → Src h N pn B B 0 B
  | step (o nxt m k : Nat) (x : mmobj_t) : o < N → o ≠ B → h.objs o = some x →
      x.mmo_ops = .shadow → x.mmo_shadowed = some nxt → x.mmo_bottom_obj = some B →
      x.mmo_respages pn = none → Src h N pn B nxt m k → Src h N pn B o (m + 1) k

/-- The object `b` is the object `a` up to its reference count and its count of resident
pages: same operations, same shadowed and bottom object, same resident frames. -/
def keeps_obj (a b : Option mmobj_t) : Prop :=
  ∀ x, a = some x → ∃ y, b = some y ∧ y.mmo_ops = x.mmo_ops ∧
    y.mmo_shadowed = x.mmo_shadowed ∧ y.mmo_bottom_obj = x.mmo_bottom_obj ∧
    y.mmo_respages = x.mmo_respages

/-- No shadow object on the way from `o` down to the bottom object `B` holds page `pn`:
`n` shadow objects allocated below `N` that record `B`, then `B`, which is not a shadow. -/
inductive Miss (h : vm_heap) (N pn B : Nat) : Nat → Nat → Prop where
  | bottom (x : mmobj_t) : B < N → h.objs B = some x → x.mmo_ops ≠ .shadow →
      x.mmo_shadowed = none → Miss h N pn B B 0
  | step (o nxt n : Nat) (x : mmobj_t) : o < N → o ≠ B → h.objs o = some x →
      x.mmo_ops = .shadow → x.mmo_shadowed = some nxt → x.mmo_bottom_obj = some B →
      x.mmo_respages pn = none → Miss h N pn B nxt n → Miss h N pn B o (n + 1)

/-- What `do_fork` gives a `MAP_PRIVATE` area: `s` is a shadow object with reference count
1 and no resident page, it shadows `X`, and its bottom object is the bottom object of `X`
(`X` itself when `X` shadows nothing). -/
def fresh_shadow (h : vm_heap) (X s : Nat) : Prop :=
  ∃ xs, h.objs s = some xs ∧ xs.mmo_ops = .shadow ∧ xs.mmo_shadowed = some X ∧
    xs.mmo_refcount = 1 ∧ (∀ n, xs.mmo_respages n = none) ∧
    ∀ x, h.objs X = some x →
      xs.mmo_bottom_obj = (match x.mmo_shadowed with
        | none => some X
        | some _ => x.mmo_bottom_obj)

/-- The twin that `vmmap_clone` makes of an area, once it is linked into the clone at
address `m`: same range, offset, protection and flags, a null object. -/
def clone_area (m : Nat) (v : vmarea_t) : vmarea_t :=
  { vma_start := v.vma_start, vma_end := v.vma_end, vma_off := v.vma_off,
    vma_prot := v.vma_prot, vma_flags := v.vma_flags, vma_obj := 0, vma_vmmap := some m }

/-! ## Processes: `proc/proc.c` -/

/-- Modelled from the spec: `ECHILD` of `errno.h`, which is not among the sources. -/
def ECHILD : Int := 10

/-- The states of a process. -/
inductive proc_state_t where
  | PROC_RUNNING
  | PROC_DEAD
  deriving DecidableEq, Repr

/-- The fields of `proc_t`. `p_children` and `p_threads` are the lists headed in the
process, in `l_next` order, as addresses of the processes and threads linked into them;
`p_wait` is the address of the wait queue. -/
structure proc_t where
  p_pid : Int
  p_comm : String
  p_threads : List Nat
  p_children : List Nat
  p_status : Int
  p_state : proc_state_t
  p_pproc : Option Nat
  p_pagedir : Option Nat
  p_wait : Nat
  p_files : List (Option Nat)
  p_cwd : Option Nat
  p_brk : Nat
  p_start_brk : Nat
  p_vmmap : Option Nat
  deriving DecidableEq, Repr

/-- What the process code hands to the allocators and to other subsystems. -/
inductive ProcEvent where
  | free_stack (stack : Nat)
  | kthread_free (t : Nat)
  | pt_destroy_pagedir (pd : Nat)
  | proc_free (p : Nat)
  | vget (vn : Nat)
  | vmmap_destroy (map : Nat)
  deriving DecidableEq, Repr

/-- The process table: the live `proc_t` objects by address, the global list `_proc_list`
in `l_next` order, `proc_initproc`, `next_pid`, the kernel stack of each thread
(`kt_kstack`, `none` for null), the scheduler state (which holds `curproc` and `curthr`)
and the calls made so far to allocators and other subsystems. -/
structure proc_world where
  procs : Nat → Option proc_t
  proc_list : List Nat
  proc_initproc : Option Nat
  next_pid : Int
  kt_kstack : Nat → Option Nat
  sched : sched_state
  events : List ProcEvent

/-- Update of one process object (`none` frees it). -/
def set_proc (w : proc_world) (a : Nat) (p : Option proc_t) : proc_world :=
  { w with procs := fun b => if b = a then p else w.procs b }

/-- The function `kthread_destroy(t)` for a thread `t` linked into the thread list of the
process at `owner`. -/
def kthread_destroy (w : proc_world) (owner t : Nat) : Except Fault proc_world :=
  match w.kt_kstack t with
  | none => .error .assertFailed
  | some stack =>
    let w1 := { w with events := w.events ++ [ProcEvent.free_stack stack] }
    let w2 :=
      match w1.procs owner with
      | none => w1
      | some p =>
        if t ∈ p.p_threads then set_proc w1 owner (some { p with p_threads := p.p_threads.erase t })
        else w1
    .ok { w2 with events := w2.events ++ [ProcEvent.kthread_free t] }

/-- How a call of `do_waitpid` ends: it returns a value, having stored `status` through the
status pointer when it stored one, or the caller goes to sleep on its wait queue in
`sched_sleep_on` and scans again when it runs next. -/
inductive WaitOut where
  | returned (retval : Int) (status : Option Int) (w : proc_world)
  | blocked (w : proc_world)

/-- The disposal of the dead child at `child` in `do_waitpid`, the current process being at
`cur`: the status is stored when the pointer `status` is not null, the thread at the head
of the child's thread list is destroyed, the child is unlinked from `_proc_list` and from
the child list, its page directory is destroyed and the process object freed. The branch
for `pid > 0` unlinks before it destroys the thread; the two steps touch different
objects. -/
def waitpid_dispose (w : proc_world) (cur child : Nat) (pid : Int) (status : Bool) :
    Except Fault WaitOut :=
  match w.procs child with
  | none => .error .nullDeref
  | some c =>
    if ¬ (-1 = pid ∨ c.p_pid = pid) then .error .assertFailed
    else
      match c.p_pagedir with
      | none => .error .assertFailed
      | some pagedir =>
        let st : Option Int := if status then some c.p_status else none
        let return_val := c.p_pid
        match c.p_threads.head? with
        | none => .error .outOfBounds
        | some kthread_process_dead =>
          match kthread_destroy w child kthread_process_dead with
          | .error f => .error f
          | .ok w1 =>
            let w2 := { w1 with proc_list := w1.proc_list.erase child }
            let w3 :=
              match w2.procs cur with
              | none => w2
              | some p => set_proc w2 cur (some { p with p_children := p.p_children.erase child })
            let w4 := { w3 with events := w3.events ++ [ProcEvent.pt_destroy_pagedir pagedir] }
            let w5 := set_proc w4 child none
            .ok (WaitOut.returned return_val st
              { w5 with events := w5.events ++ [ProcEvent.proc_free child] })

/-- The scan of the child list for `pid == -1`: the first child whose state is
`PROC_DEAD`. -/
def waitpid_first_dead (w : proc_world) : List Nat → Except Fault (Option Nat)
  | [] => .ok none
  | a :: rest =>
    match w.procs a with
    | none => .error .nullDeref
    | some c =>
      if c.p_state = proc_state_t.PROC_DEAD then .ok (some a) else waitpid_first_dead w rest

/-- The scan of the child list for `pid > 0`: the first child whose pid is `pid`. -/
def waitpid_find_pid (w : proc_world) (pid : Int) : List Nat → Except Fault (Option Nat)
  | [] => .ok none
  | a :: rest =>
    match w.procs a with
    | none => .error .nullDeref
    | some c => if c.p_pid = pid then .ok (some a) else waitpid_find_pid w pid rest

/-- The call `sched_sleep_on(&curproc->p_wait)` of `do_waitpid`, up to the switch. -/
def waitpid_sleep (w : proc_world) (cur : proc_t) : Except Fault WaitOut :=
  match w.sched.curthr with
  | none => .error .nullDeref
  | some thr =>
    match sched_sleep_on_enter w.sched cur.p_wait thr with
    | .error f => .error f
    | .ok s1 => .ok (WaitOut.blocked { w with sched := s1 })

/-- The function `do_waitpid(pid, options, status)` up to its first sleep; `status` says
whether the status pointer is non-null. -/
def do_waitpid (w : proc_world) (pid options : Int) (status : Bool) : Except Fault WaitOut :=
  if options ≠ 0 then .ok (WaitOut.returned (-EINVAL) none w)
  else if pid = -1 then
    match w.sched.curproc with
    | none => .error .nullDeref
    | some cur =>
      match w.procs cur with
      | none => .error .nullDeref
      | some p =>
        if p.p_children.isEmpty then .ok (WaitOut.returned (-ECHILD) none w)
        else
          match waitpid_first_dead w p.p_children with
          | .error f => .error f
          | .ok (some child) => waitpid_dispose w cur child pid status
          | .ok none => waitpid_sleep w p
  else if pid > 0 then
    match w.sched.curproc with
    | none => .error .nullDeref
    | some cur =>
      match w.procs cur with
      | none => .error .nullDeref
      | some p =>
        if p.p_children.isEmpty then .ok (WaitOut.returned (-ECHILD) none w)
        else
          match waitpid_find_pid w pid p.p_children with
          | .error f => .error f
          | .ok (some child) =>
            match w.procs child with
            | none => .error .nullDeref
            | some c =>
              if c.p_state = proc_state_t.PROC_DEAD then waitpid_dispose w cur child pid status
              else waitpid_sleep w p
          | .ok none => .ok (WaitOut.returned (-ECHILD) none w)
  else .ok (WaitOut.returned (-EINVAL) none w)

/-- The state that reaping the child at `a` leaves, for a caller at `cur` whose process
object was `p`: the child's object is freed, it is off `_proc_list` and off the caller's
child list, the caller is otherwise as before, every other process object is untouched,
and the scheduler state is the same (the caller did not sleep). -/
def waitpid_reaped (w w1 : proc_world) (cur a : Nat) (p : proc_t) : Prop :=
  w1.procs a = none ∧ w1.proc_list = w.proc_list.erase a ∧ a ∉ w1.proc_list ∧
  w1.procs cur = some { p with p_children := p.p_children.erase a } ∧
  a ∉ p.p_children.erase a ∧
  (∀ b, b ≠ a → b ≠ cur → w1.procs b = w.procs b) ∧
  w1.sched = w.sched ∧ w1.proc_initproc = w.proc_initproc ∧ w1.next_pid = w.next_pid

/-- The pid constants `PID_IDLE` and `PID_INIT`. -/
def PID_IDLE : Int := 0

/-- See `PID_IDLE`. -/
def PID_INIT : Int := 1

/-- The pids of the processes on `_proc_list`, in list order. -/
def proc_pids (w : proc_world) : List Int :=
  w.proc_list.filterMap (fun a => (w.procs a).map (fun p => p.p_pid))

/-- One pass of the `list_iterate` over `_proc_list` in `_proc_getid`: does some process
hold `pid`. -/
def proc_list_holds (w : proc_world) (pid : Int) : List Nat → Except Fault Bool
  | [] => .ok false
  | a :: rest =>
    match w.procs a with
    | none => .error .nullDeref
    | some p => if p.p_pid = pid then .ok true else proc_list_holds w pid rest

/-- The loop of `_proc_getid` from the label `failed` on, with the candidate `pid`; `fuel`
bounds the number of passes over the list. `PROC_MAX_COUNT` is a constant of `config.h`,
which is not among the sources, and is a parameter here. The result is the return value
and the state, in which `next_pid` has been advanced when a pid was found. -/
def proc_getid_loop (w : proc_world) (PROC_MAX_COUNT : Int) :
    Nat → Int → Except Fault (Int × proc_world)
  | 0, _ => .error .diverges
  | fuel + 1, pid =>
    match proc_list_holds w pid w.proc_list with
    | .error f => .error f
    | .ok true =>
      let pid1 := Int.tmod (pid + 1) PROC_MAX_COUNT
      if pid1 = w.next_pid then .ok (-1, w)
      else proc_getid_loop w PROC_MAX_COUNT fuel pid1
    | .ok false => .ok (pid, { w with next_pid := Int.tmod (pid + 1) PROC_MAX_COUNT })

/-- The function `_proc_getid()`. -/
def _proc_getid (w : proc_world) (PROC_MAX_COUNT : Int) (fuel : Nat) :
    Except Fault (Int × proc_world) :=
  proc_getid_loop w PROC_MAX_COUNT fuel w.next_pid

/-- The function `proc_create(name)`. The allocators' answers are arguments: `p` is the
object that `slab_obj_alloc` returns, `wq` the queue that is the new process's `p_wait`,
`pagedir` what `pt_create_pagedir` returns and `vmmap` what `vmmap_create` returns;
`vfs_root_vn` is the global of that name. -/
def proc_create (w : proc_world) (PROC_MAX_COUNT : Int) (fuel : Nat) (name : String)
    (p wq pagedir vmmap : Nat) (vfs_root_vn : Option Nat) : Except Fault (Nat × proc_world) :=
  match _proc_getid w PROC_MAX_COUNT fuel with
  | .error f => .error f
  | .ok (pid, w1) =>
    if ¬ (PID_IDLE ≠ pid ∨ w1.proc_list.isEmpty) then .error .assertFailed
    else
      let curproc_pid : Option Int := (w1.sched.curproc.bind w1.procs).map (fun c => c.p_pid)
      if PID_INIT = pid ∧ curproc_pid = none then .error .nullDeref
      else if ¬ (PID_INIT ≠ pid ∨ curproc_pid = some PID_IDLE) then .error .assertFailed
      else
        let w2 := if pid = 1 then { w1 with proc_initproc := some p } else w1
        -- `list_insert_head(&curproc->p_children, &p->p_child_link)`
        let inserted : Except Fault proc_world :=
          match w2.sched.curproc with
          | none => .ok w2
          | some cur =>
            match w2.procs cur with
            | none => .error .nullDeref
            | some c => .ok (set_proc w2 cur (some { c with p_children := p :: c.p_children }))
        match inserted with
        | .error f => .error f
        | .ok w3 =>
          let w4 := { w3 with sched := set_queue w3.sched wq ⟨[], 0⟩ }
          let w5 := { w4 with proc_list := p :: w4.proc_list }
          let has_cwd : Bool := decide (pid > 1) && vfs_root_vn.isSome
          let w6 :=
            match vfs_root_vn with
            | some root => if pid > 1 then { w5 with events := w5.events ++ [ProcEvent.vget root] }
                           else w5
            | none => w5
          let fields (brk start_brk : Nat) : proc_t :=
            { p_pid := pid, p_comm := name, p_threads := [], p_children := [], p_status := 0,
              p_state := proc_state_t.PROC_RUNNING, p_pproc := w2.sched.curproc,
              p_pagedir := some pagedir, p_wait := wq, p_files := List.replicate NFILES none,
              p_cwd := if has_cwd then vfs_root_vn else none,
              p_brk := brk, p_start_brk := start_brk, p_vmmap := some vmmap }
          if pid ≠ PID_IDLE then
            match w6.sched.curproc.bind w6.procs with
            | none => .error .nullDeref
            | some c => .ok (p, set_proc w6 p (some (fields c.p_brk c.p_start_brk)))
          else .ok (p, set_proc w6 p (some (fields 0 0)))

/-- The loop of `proc_cleanup` over the descriptor table, from slot `i` on: every file in
a slot gets one `fput`, every slot is set to null. -/
def proc_cleanup_files (fs : fs_state) : List Nat → fs_state
  | [] => fs
  | i :: rest =>
    let fs1 :=
      match fs.p_files.getD i none with
      | some f => fput fs f
      | none => fs
    proc_cleanup_files { fs1 with p_files := fs1.p_files.set i none } rest

/-- The loop of `proc_cleanup` over the children of the current process: each child is put
at the head of the child list of the init process, at `init`, and gets init as parent.
`list_insert_head` writes the links of the child, of init's list head and of init's
first child; nothing unlinks the child from the list it is in, and the head of the current
process's child list is not written, so that list is left as it was. -/
def proc_cleanup_reparent (w : proc_world) (init : Nat) : List Nat → Except Fault proc_world
  | [] => .ok w
  | child :: rest =>
    match w.procs init with
    | none => .error .nullDeref
    | some ip =>
      let w1 := set_proc w init (some { ip with p_children := child :: ip.p_children })
      match w1.procs child with
      | none => .error .nullDeref
      | some c =>
        proc_cleanup_reparent (set_proc w1 child (some { c with p_pproc := some init })) init rest

/-- The function `proc_cleanup(status)`. `fs` holds the descriptor table of the current
process and the file objects; the table is stored back into the process object at the
end. -/
def proc_cleanup (w : proc_world) (fs : fs_state) (status : Int) :
    Except Fault (proc_world × fs_state) :=
  match w.proc_initproc with
  | none => .error .assertFailed
  | some init =>
    match w.sched.curproc, w.sched.curthr with
    | none, _ => .error .nullDeref
    | _, none => .error .nullDeref
    | some cur, some thr =>
      match w.procs cur with
      | none => .error .nullDeref
      | some p =>
        if ¬ (1 ≤ p.p_pid) then .error .assertFailed
        else if p.p_pproc = none then .error .assertFailed
        else
          match (w.procs (w.sched.threads thr).kt_proc).bind (fun q => q.p_pproc) with
          | none => .error .nullDeref
          | some parent_process =>
            match w.procs parent_process with
            | none => .error .nullDeref
            | some pp =>
              let woken : Except Fault sched_state :=
                if ¬ sched_queue_empty w.sched pp.p_wait then
                  match sched_wakeup_on w.sched pp.p_wait with
                  | .error f => .error f
                  | .ok (_, s1) => .ok s1
                else .ok w.sched
              match woken with
              | .error f => .error f
              | .ok s1 =>
                match proc_cleanup_reparent { w with sched := s1 } init p.p_children with
                | .error f => .error f
                | .ok w2 =>
                  match w2.procs cur with
                  | none => .error .nullDeref
                  | some p2 =>
                    let fs1 := proc_cleanup_files fs (List.range NFILES)
                    let fs2 :=
                      match p2.p_cwd with
                      | some cwd => { fs1 with vputs := fs1.vputs ++ [cwd] }
                      | none => fs1
                    let dead : proc_t :=
                      { p2 with p_status := status, p_state := proc_state_t.PROC_DEAD,
                                p_files := fs2.p_files }
                    let w3 := set_proc w2 cur (some dead)
                    let w4 :=
                      match p2.p_vmmap with
                      | some m => { w3 with events := w3.events ++ [ProcEvent.vmmap_destroy m] }
                      | none => w3
                    if dead.p_pproc = none then .error .assertFailed
                    else if (w4.sched.threads thr).kt_state = kt_state_t.KT_EXITED then
                      .ok (w4, fs2)
                    else .error .assertFailed

/-! ## Files and vnodes: `fs/vfs_syscall.c`, `fs/open.c`, `fs/namev.c` -/

/-- Modelled from the spec: error numbers of `errno.h`, which is not among the sources. -/
def ENOENT : Int := 2

/-- See `ENOENT`. -/
def ENOTDIR : Int := 20

/-- See `ENOENT`. -/
def EISDIR : Int := 21

/-- See `ENOENT`. -/
def EMFILE : Int := 24

/-- See `ENOENT`. -/
def ENAMETOOLONG : Int := 36

/-- Modelled from the spec: the mode bits of `fs/file.h`, which is not among the sources
(`FMODE_WRITE` is above). -/
def FMODE_READ : Nat := 1

/-- See `FMODE_READ`. -/
def FMODE_APPEND : Nat := 4

/-- Modelled from the spec: the `whence` values of `fs/lseek.h`, which is not among the
sources. -/
def SEEK_SET : Int := 0

/-- See `SEEK_SET`. -/
def SEEK_CUR : Int := 1

/-- See `SEEK_SET`. -/
def SEEK_END : Int := 2

/-- Modelled from the spec: the open flags of `fs/fcntl.h`, which is not among the
sources. -/
def O_RDONLY : Nat := 0

/-- See `O_RDONLY`. -/
def O_WRONLY : Nat := 1

/-- See `O_RDONLY`. -/
def O_RDWR : Nat := 2

/-- See `O_RDONLY`. -/
def O_CREAT : Nat := 0x100

/-- See `O_RDONLY`. -/
def O_APPEND : Nat := 0x400

/-- Modelled from the spec: the file types of `fs/stat.h`, which is not among the sources,
and the macros that test them. -/
def S_IFCHR : Nat := 0x0100

/-- See `S_IFCHR`. -/
def S_IFDIR : Nat := 0x0200

/-- See `S_IFCHR`. -/
def S_IFBLK : Nat := 0x0400

/-- See `S_IFCHR`. -/
def S_IFREG : Nat := 0x0800

/-- See `S_IFCHR`. -/
def _S_TYPE (m : Nat) : Nat := m &&& 0xFF00

/-- See `S_IFCHR`. -/
def S_ISCHR (m : Nat) : Bool := _S_TYPE m == S_IFCHR

/-- See `S_IFCHR`. -/
def S_ISDIR (m : Nat) : Bool := _S_TYPE m == S_IFDIR

/-- See `S_IFCHR`. -/
def S_ISBLK (m : Nat) : Bool := _S_TYPE m == S_IFBLK

/-- See `S_IFCHR`. -/
def S_ISREG (m : Nat) : Bool := _S_TYPE m == S_IFREG

/-- Modelled from the spec: `NAME_LEN` of `config.h`, the longest component name. -/
def NAME_LEN : Nat := 28

/-- Modelled from the spec: `sizeof(dirent_t)` for the `dirent_t` of `fs/dirent.h`, which is
not among the sources: an inode number, an offset and a name of `NAME_LEN + 1` bytes,
padded to a multiple of four. -/
def sizeof_dirent_t : Int := 40

/-- The value of a 32-bit `int` expression whose mathematical value is `x`. -/
def i32 (x : Int) : Int := (x + 2 ^ 31) % 2 ^ 32 - 2 ^ 31

/-- The fields of `vnode_t` that the system calls read: mode, length, and whether the
`lookup`, `readdir` and `create` entries of its operations table are set. -/
structure vnode_t where
  vn_mode : Nat
  vn_len : Int
  has_lookup : Bool
  has_readdir : Bool
  has_create : Bool
  deriving DecidableEq, Repr

/-- What the operations of the file system underneath answer: `read`, `write` and
`readdir` give their return value for a vnode and an offset (`write` also the length of
the vnode afterwards); `lookup` and `create` give their return value for a directory
and a name, and the vnode they store through the result pointer when they store one. -/
structure vn_ops_t where
  read : Nat → Int → Nat → Int
  write : Nat → Int → Nat → Int × Int
  readdir : Nat → Int → Int
  lookup : Nat → List Char → Int × Option Nat
  create : Nat → List Char → Int × Option Nat

/-- A call of a vnode operation. -/
inductive VnCall where
  | read (vn : Nat) (off : Int) (nbytes : Nat)
  | write (vn : Nat) (off : Int) (nbytes : Nat)
  | readdir (vn : Nat) (off : Int)
  | lookup (dir : Nat) (name : List Char)
  | create (dir : Nat) (name : List Char)
  | mknod (dir : Nat) (name : List Char) (mode devid : Nat)
  | stat (vn : Nat)
  | link (oldvnode dir : Nat) (name : List Char)
  deriving DecidableEq, Repr

/-- The file-system side of the kernel: the descriptor table and file objects `fs`, the
vnodes by address, the references taken on vnodes so far (`vref`, `vget`, and the one a
successful `lookup` or `create` hands out; `fs.vputs` lists the releases) and the vnode
operations called so far. -/
structure vfs_state where
  fs : fs_state
  vnodes : Nat → Option vnode_t
  vrefs : List Nat
  calls : List VnCall

/-- The reference count of the vnode `v`, given its count `base` before any reference
logged in the state was taken. -/
def vn_refcount (base : Int) (s : vfs_state) (v : Nat) : Int :=
  base + s.vrefs.count v - s.fs.vputs.count v

/-- Update of `f_pos` of the file at `f`. -/
def set_f_pos (fs : fs_state) (f : Nat) (pos : Int) : fs_state :=
  { fs with files := fun g =>
      if g = f then (fs.files f).map (fun x => { x with f_pos := pos }) else fs.files g }

/-- The function `do_lseek(fd, offset, whence)`. -/
def do_lseek (s : vfs_state) (fd offset whence : Int) : Except Fault (Int × vfs_state) :=
  if whence ≠ SEEK_SET ∧ whence ≠ SEEK_CUR ∧ whence ≠ SEEK_END then .ok (-EINVAL, s)
  else
    match fget s.fs fd with
    | (none, fs1) => .ok (-EBADF, { s with fs := fs1 })
    | (some op_file, fs1) =>
      match fs1.files op_file with
      | none => .error .nullDeref
      | some file =>
        if file.f_mode = 0 then .ok (-EBADF, { s with fs := fput fs1 op_file })
        else
          -- the new position after the `SEEK_SET` / `SEEK_CUR` tests, or the error
          let step1 : Except Int Int :=
            if whence = SEEK_SET then
              if offset ≥ 0 then .ok offset else .error (-EINVAL)
            else if whence = SEEK_CUR then
              if i32 (file.f_pos + offset) ≥ 0 then .ok (i32 (file.f_pos + offset))
              else .error (-EINVAL)
            else .ok file.f_pos
          match step1 with
          | .error e => .ok (e, { s with fs := fput fs1 op_file })
          | .ok pos1 =>
            if whence = SEEK_END then
              match s.vnodes file.f_vnode with
              | none => .error .nullDeref
              | some vn =>
                if i32 (vn.vn_len + offset) ≥ 0 then
                  .ok (i32 (vn.vn_len + offset),
                    { s with fs := fput (set_f_pos fs1 op_file (i32 (vn.vn_len + offset))) op_file })
                else .ok (-EINVAL, { s with fs := fput fs1 op_file })
            else .ok (pos1, { s with fs := fput (set_f_pos fs1 op_file pos1) op_file })

/-- The function `do_read(fd, buf, nbytes)`. -/
def do_read (ops : vn_ops_t) (s : vfs_state) (fd : Int) (nbytes : Nat) :
    Except Fault (Int × vfs_state) :=
  match fget s.fs fd with
  | (none, fs1) => .ok (-EBADF, { s with fs := fs1 })
  | (some file_to_read, fs1) =>
    match fs1.files file_to_read with
    | none => .error .nullDeref
    | some file =>
      if file.f_mode = 0 then .ok (-EBADF, { s with fs := fput fs1 file_to_read })
      else if file.f_mode = FMODE_WRITE ∨ file.f_mode = (FMODE_WRITE &&& FMODE_APPEND) then
        .ok (-EBADF, { s with fs := fput fs1 file_to_read })
      else
        match s.vnodes file.f_vnode with
        | none => .error .nullDeref
        | some vn =>
          if S_ISDIR vn.vn_mode then .ok (-EISDIR, { s with fs := fput fs1 file_to_read })
          else
            let res := ops.read file.f_vnode file.f_pos nbytes
            let calls := s.calls ++ [VnCall.read file.f_vnode file.f_pos nbytes]
            let fs2 := if res > 0 then set_f_pos fs1 file_to_read (i32 (file.f_pos + res)) else fs1
            .ok (res, { s with fs := fput fs2 file_to_read, calls := calls })

/-- The function `do_write(fd, buf, nbytes)`. -/
def do_write (ops : vn_ops_t) (s : vfs_state) (fd : Int) (nbytes : Nat) :
    Except Fault (Int × vfs_state) :=
  match fget s.fs fd with
  | (none, fs1) => .ok (-EBADF, { s with fs := fs1 })
  | (some file_to_write, fs1) =>
    match fs1.files file_to_write with
    | none => .error .nullDeref
    | some file =>
      if file.f_mode = 0 then .ok (-EBADF, { s with fs := fput fs1 file_to_write })
      else
        let sought : Except Fault (Option vfs_state) :=
          if file.f_mode &&& FMODE_APPEND ≠ 0 then
            (do_lseek { s with fs := fs1 } fd 0 SEEK_END).map (fun r => some r.2)
          else if file.f_mode &&& FMODE_WRITE ≠ 0 then
            (do_lseek { s with fs := fs1 } fd 0 SEEK_CUR).map (fun r => some r.2)
          else .ok none
        match sought with
        | .error f => .error f
        | .ok none => .ok (-EBADF, { s with fs := fput fs1 file_to_write })
        | .ok (some s1) =>
          match s1.fs.files file_to_write with
          | none => .error .nullDeref
          | some file1 =>
            let (res, len) := ops.write file1.f_vnode file1.f_pos nbytes
            let calls := s1.calls ++ [VnCall.write file1.f_vnode file1.f_pos nbytes]
            match s1.vnodes file1.f_vnode with
            | none => .error .nullDeref
            | some vn =>
              let vnodes := fun v => if v = file1.f_vnode then some { vn with vn_len := len }
                                     else s1.vnodes v
              if res > 0 then
                let pos := i32 (file1.f_pos + res)
                if S_ISCHR vn.vn_mode ∨ S_ISBLK vn.vn_mode ∨ (S_ISREG vn.vn_mode ∧ pos ≤ len) then
                  .ok (res, { s1 with fs := fput (set_f_pos s1.fs file_to_write pos) file_to_write,
                                      vnodes := vnodes, calls := calls })
                else .error .assertFailed
              else
                .ok (res, { s1 with fs := fput s1.fs file_to_write, vnodes := vnodes,
                                    calls := calls })

/-- The function `do_getdent(fd, dirp)`. -/
def do_getdent (ops : vn_ops_t) (s : vfs_state) (fd : Int) : Except Fault (Int × vfs_state) :=
  match fget s.fs fd with
  | (none, fs1) => .ok (-EBADF, { s with fs := fs1 })
  | (some f, fs1) =>
    match fs1.files f with
    | none => .error .nullDeref
    | some file =>
      if file.f_mode = 0 then .ok (-EBADF, { s with fs := fput fs1 f })
      else
        match s.vnodes file.f_vnode with
        | none => .error .nullDeref
        | some vn =>
          if vn.has_readdir = false then .ok (-ENOTDIR, { s with fs := fput fs1 f })
          else
            let retval := ops.readdir file.f_vnode file.f_pos
            let calls := s.calls ++ [VnCall.readdir file.f_vnode file.f_pos]
            if retval ≠ 0 then
              .ok (sizeof_dirent_t,
                { s with fs := fput (set_f_pos fs1 f (i32 (file.f_pos + retval))) f,
                         calls := calls })
            else .ok (0, { s with fs := fput fs1 f, calls := calls })

/-! ### Path resolution: `fs/namev.c` -/

/-- The call `vput(vn)`. -/
def vput (s : vfs_state) (vn : Nat) : vfs_state :=
  { s with fs := { s.fs with vputs := s.fs.vputs ++ [vn] } }

/-- The call `vref(vn)`. -/
def vref (s : vfs_state) (vn : Nat) : vfs_state :=
  { s with vrefs := s.vrefs ++ [vn] }

/-- What a name lookup hands back: the return value, the vnode stored through the result
pointer when one was stored, and the state afterwards. -/
structure LookupNameOut where
  retval : Int
  result : Option Nat
  state : vfs_state

/-- The function `lookup(dir, name, len, result)`; `name` is the `len` characters at the
pointer. A vnode that the operation stores comes with a reference of its own. -/
def lookup (ops : vn_ops_t) (s : vfs_state) (dir : Option Nat) (name : List Char) :
    Except Fault LookupNameOut :=
  match dir with
  | none => .error .assertFailed
  | some d =>
    match s.vnodes d with
    | none => .error .nullDeref
    | some vn =>
      if vn.has_lookup = false then .ok ⟨-ENOTDIR, none, s⟩
      else
        let r := ops.lookup d name
        let s1 := { s with calls := s.calls ++ [VnCall.lookup d name] }
        match r.2 with
        | none => .ok ⟨r.1, none, s1⟩
        | some v => .ok ⟨r.1, some v, vref s1 v⟩

/-- The pieces into which the separator loop of `dir_namev` cuts the characters after the
first one: a new piece starts after every `/`. -/
def cut_at_slashes : List Char → List (List Char)
  | [] => [[]]
  | c :: cs =>
    if c = '/' then [] :: cut_at_slashes cs
    else
      match cut_at_slashes cs with
      | [] => [[c]]
      | x :: xs => (c :: x) :: xs

/-- The array `components` that `dir_namev` builds from `path_to_resolve`: the loop starts
at index 1, so the first character belongs to the first component whatever it is. -/
def path_components : List Char → List (List Char)
  | [] => [[]]
  | c :: cs =>
    match cut_at_slashes cs with
    | [] => [[c]]
    | x :: xs => (c :: x) :: xs

/-- Is `needle` an initial segment of `hay`. -/
def starts_with : List Char → List Char → Bool
  | _, [] => true
  | [], _ :: _ => false
  | h :: hs, n :: ns => h == n && starts_with hs ns

/-- The function `strstr(hay, needle)` from position `i` of the original string on: the
index of the first occurrence, `none` for a null result. -/
def strstr_from : List Char → List Char → Nat → Option Nat
  | [], needle, i => if needle.isEmpty then some i else none
  | h :: hs, needle, i =>
    if starts_with (h :: hs) needle then some i else strstr_from hs needle (i + 1)

/-- The function `strstr(hay, needle)`. -/
def strstr (hay needle : List Char) : Option Nat := strstr_from hay needle 0

/-- The statement `if (prev != NULL) vput(prev);`. -/
def vput_prev (s : vfs_state) (prev : Option Nat) : vfs_state :=
  match prev with
  | some p => vput s p
  | none => s

/-- The lookup loop of `dir_namev` over the components before the last one, with the
current `curr_base` and `prev`. The result is the return value (0 when the loop ran to
its end), `curr_base` and `prev` at that point, and the state. -/
def dir_namev_loop (ops : vn_ops_t) :
    vfs_state → List (List Char) → Option Nat → Option Nat →
      Except Fault (Int × Option Nat × Option Nat × vfs_state)
  | s, [], curr_base, prev => .ok (0, curr_base, prev, s)
  | s, component :: rest, curr_base, prev =>
    if component.length = 0 then dir_namev_loop ops s rest curr_base prev
    else
      match lookup ops s curr_base component with
      | .error f => .error f
      | .ok r =>
        let s1 := vput_prev r.state prev
        if r.retval < 0 then .ok (r.retval, curr_base, prev, s1)
        else
          match r.result with
          | none => .error .nullDeref
          | some result =>
            match s1.vnodes result with
            | none => .error .nullDeref
            | some vn =>
              if ¬ S_ISDIR vn.vn_mode then .ok (-ENOTDIR, curr_base, prev, vput s1 result)
              else dir_namev_loop ops s1 rest (some result) (some result)

/-- What `dir_namev` hands back: the return value and, on success, `name` as an index into
`pathname` with `namelen`, and `res_vnode`. -/
structure DirNamevOut where
  retval : Int
  name : Nat
  namelen : Nat
  res_vnode : Option Nat
  state : vfs_state

/-- The part of `dir_namev` after the choice of the starting directory `curr_base` and of
`path_to_resolve`, the copy of the path without its leading `/`. The copy has
`strlen + 1` bytes, so the separator loop, which starts reading at index 1, reads past the
copy when `path_to_resolve` is empty; the array `components` has 50 entries. -/
def dir_namev_from (ops : vn_ops_t) (s : vfs_state) (pathname path_to_resolve : List Char)
    (curr_base : Option Nat) : Except Fault DirNamevOut :=
  match curr_base with
  | none => .error .assertFailed
  | some b =>
    if path_to_resolve.length = 0 then .error .outOfBounds
    else
      let components := path_components path_to_resolve
      let component_idx := components.length - 1
      if component_idx ≥ 50 then .error .outOfBounds
      else
        let last := components.getLast?.getD []
        if component_idx = 0 then
          match strstr pathname last with
          | some name => .ok ⟨0, name, last.length, curr_base, vref s b⟩
          | none => .error .nullDeref
        else
          match dir_namev_loop ops s components.dropLast curr_base none with
          | .error f => .error f
          | .ok (ret, curr, _, s1) =>
            if ret ≠ 0 then .ok ⟨ret, 0, 0, none, s1⟩
            else
              match strstr pathname last with
              | some name => .ok ⟨0, name, last.length, curr, s1⟩
              | none => .error .nullDeref

/-- The function `dir_namev(pathname, &namelen, &name, base, &res_vnode)`. `root` is
`vfs_root_vn`, `cwd` is `curproc->p_cwd`. -/
def dir_namev (ops : vn_ops_t) (root cwd : Option Nat) (s : vfs_state) (pathname : List Char)
    (base : Option Nat) : Except Fault DirNamevOut :=
  if pathname.head? = some '/' then dir_namev_from ops s pathname (pathname.drop 1) root
  else if base ≠ none then dir_namev_from ops s pathname pathname base
  else dir_namev_from ops s pathname pathname cwd

/-- What `open_namev` hands back. -/
structure OpenNamevOut where
  retval : Int
  res_vnode : Option Nat
  state : vfs_state

/-- The function `open_namev(pathname, flag, res_vnode, base)`; `res_vnode` is null on
entry, as in `do_open`. -/
def open_namev (ops : vn_ops_t) (root cwd : Option Nat) (s : vfs_state) (pathname : List Char)
    (flag : Nat) (base : Option Nat) : Except Fault OpenNamevOut :=
  match dir_namev ops root cwd s pathname base with
  | .error f => .error f
  | .ok d =>
    if d.retval ≠ 0 then .ok ⟨d.retval, none, d.state⟩
    else if d.namelen = 0 ∨ pathname[d.name]? = none then .ok ⟨0, d.res_vnode, d.state⟩
    else
      let file_name := (pathname.drop d.name).take d.namelen
      match lookup ops d.state d.res_vnode file_name, d.res_vnode with
      | .error f, _ => .error f
      | .ok _, none => .error .nullDeref
      | .ok r, some dir_vnode =>
        if r.retval ≠ 0 then
          if flag &&& O_CREAT ≠ 0 ∧ r.retval = -ENOENT then
            match r.state.vnodes dir_vnode with
            | none => .error .nullDeref
            | some dv =>
              if dv.has_create = false then .error .assertFailed
              else
                let c := ops.create dir_vnode file_name
                let s1 := { r.state with calls := r.state.calls ++ [VnCall.create dir_vnode file_name] }
                let s2 := match c.2 with
                  | some v => vref s1 v
                  | none => s1
                let res := if c.2.isSome then c.2 else r.result
                let s3 := vput s2 dir_vnode
                if c.1 ≠ 0 then .ok ⟨c.1, none, s3⟩ else .ok ⟨0, res, s3⟩
          else .ok ⟨r.retval, r.result, vput r.state dir_vnode⟩
        else
          let slash : Bool := pathname[d.name + d.namelen]? == some '/'
          if slash then
            match r.result.bind r.state.vnodes, r.result with
            | some vn, some v =>
              if ¬ S_ISDIR vn.vn_mode then
                .ok ⟨-ENOTDIR, r.result, vput (vput r.state dir_vnode) v⟩
              else .ok ⟨0, r.result, vput r.state dir_vnode⟩
            | _, _ => .error .nullDeref
          else .ok ⟨0, r.result, vput r.state dir_vnode⟩
/-! ### Opening files: `fs/open.c` -/

/-- The loop of `get_empty_fd` from descriptor `fd` on, over the slots from there. -/
def get_empty_fd_from : List (Option Nat) → Nat → Option Nat
  | [], _ => none
  | slot :: rest, fd => if slot = none then some fd else get_empty_fd_from rest (fd + 1)

/-- The function `get_empty_fd(p)` on the descriptor table of `p`: the first null slot
among the first `NFILES`, or `-EMFILE`. -/
def get_empty_fd (p_files : List (Option Nat)) : Int :=
  match get_empty_fd_from (p_files.take NFILES) 0 with
  | some fd => fd
  | none => -EMFILE

/-- Modelled from the spec: `fget(-1)` of `fs/file.c`, which is not among the sources: a
fresh file object, zeroed, with one reference; `fresh` is the address the allocator
returns, `none` when it has no memory. -/
def fget_new (fs : fs_state) (fresh : Option Nat) : Option Nat × fs_state :=
  match fresh with
  | none => (none, fs)
  | some f => (some f, { fs with files := fun g => if g = f then some ⟨1, 0, 0, 0⟩ else fs.files g })

/-- Update of the file object at `f`. -/
def set_file (fs : fs_state) (f : Nat) (x : file_t) : fs_state :=
  { fs with files := fun g => if g = f then some x else fs.files g }

/-- Step 4 of `do_open`: `f_mode` as set from `oflags`. -/
def open_mode (oflags : Nat) : Nat :=
  let m0 : Nat := 0
  let m1 := if oflags &&& 0x3 = O_RDONLY then m0 ||| FMODE_READ else m0
  let m2 := if oflags &&& 0x3 = O_WRONLY then m1 ||| FMODE_WRITE else m1
  let m3 := if oflags &&& 0x3 = O_RDWR then m2 ||| FMODE_READ ||| FMODE_WRITE else m2
  if oflags &&& O_APPEND ≠ 0 then m3 ||| FMODE_APPEND else m3

/-- The function `do_open(filename, oflags)`; `fresh` is what the allocator answers to
`fget(-1)`. -/
def do_open (ops : vn_ops_t) (root cwd : Option Nat) (s : vfs_state) (filename : List Char)
    (oflags : Nat) (fresh : Option Nat) : Except Fault (Int × vfs_state) :=
  if oflags &&& O_WRONLY ≠ 0 ∧ oflags &&& O_RDWR ≠ 0 then .ok (-EINVAL, s)
  else if filename.length > NAME_LEN then .ok (-ENAMETOOLONG, s)
  else
    let fd := get_empty_fd s.fs.p_files
    match fget_new s.fs fresh with
    | (file, fs1) =>
      if fd < 0 ∨ fd ≥ fs1.p_files.length then .error .outOfBounds
      else
        let fs2 := { fs1 with p_files := fs1.p_files.set fd.toNat file }
        match file with
        | none => .error .nullDeref
        | some f =>
          let m4 := open_mode oflags
          let fs3 := set_file fs2 f ⟨1, m4, 0, 0⟩
          match open_namev ops root cwd { s with fs := fs3 } filename oflags none with
          | .error e => .error e
          | .ok r =>
            if r.retval ≠ 0 then
              let fs4 := fput r.state.fs f
              .ok (r.retval, { r.state with fs := { fs4 with p_files := fs4.p_files.set fd.toNat none } })
            else
              match r.res_vnode with
              | none => .error .nullDeref
              | some file_vnode =>
                let fs4 := set_file r.state.fs f ⟨1, m4, 0, file_vnode⟩
                match r.state.vnodes file_vnode with
                | none => .error .nullDeref
                | some vn =>
                  if S_ISDIR vn.vn_mode ∧ (oflags &&& 0x3 = O_WRONLY ∨ oflags &&& 0x3 = O_RDWR) then
                    let fs5 := fput fs4 f
                    .ok (-EISDIR,
                      { r.state with fs := { fs5 with p_files := fs5.p_files.set fd.toNat none } })
                  else .ok (fd, { r.state with fs := fs4 })
/-- References taken on the vnode `u` minus references released, over the calls logged in
the state. -/
def vn_net (s : vfs_state) (u : Nat) : Int := (s.vrefs.count u : Int) - s.fs.vputs.count u

/-- One when `p` is the vnode `u`, else zero. -/
def held (p : Option Nat) (u : Nat) : Int := if p = some u then 1 else 0

/-! ### System calls on paths: `fs/vfs_syscall.c` -/

/-- The function `do_mknod(path, mode, devid)`. `has_mknod v` says whether the `mknod`
entry of the operations table of vnode `v` is set, `mknod` is what that operation answers.
The result of `dir_namev` is not tested, so `res_vnode` is still null when it failed. -/
def do_mknod (ops : vn_ops_t) (mknod : Nat → List Char → Nat → Nat → Int)
    (has_mknod : Nat → Bool) (root cwd : Option Nat) (s : vfs_state) (path : List Char)
    (mode devid : Nat) : Except Fault (Int × vfs_state) :=
  match dir_namev ops root cwd s path none with
  | .error f => .error f
  | .ok d =>
    match d.res_vnode with
    | none => .error .nullDeref
    | some res_vnode =>
      if has_mknod res_vnode = false then .error .assertFailed
      else
        let name := (path.drop d.name).take d.namelen
        match lookup ops d.state (some res_vnode) name with
        | .error f => .error f
        | .ok r =>
          if r.retval = -ENOENT then
            let s1 := { r.state with
              calls := r.state.calls ++ [VnCall.mknod res_vnode name mode devid] }
            .ok (mknod res_vnode name mode devid, vput s1 res_vnode)
          else .error .kernelPanic

/-- What `do_chdir` hands back: the return value, `curproc->p_cwd` afterwards, and the state. -/
structure ChdirOut where
  retval : Int
  p_cwd : Option Nat
  state : vfs_state

/-- The function `do_chdir(path)`. The result of `dir_namev` is not tested, so `lookup`
is called with a null `res_vnode` when it failed. -/
def do_chdir (ops : vn_ops_t) (root cwd : Option Nat) (s : vfs_state) (path : List Char) :
    Except Fault ChdirOut :=
  match dir_namev ops root cwd s path none with
  | .error f => .error f
  | .ok d =>
    let name := (path.drop d.name).take d.namelen
    match lookup ops d.state d.res_vnode name, d.res_vnode with
    | .error f, _ => .error f
    | .ok _, none => .error .nullDeref
    | .ok r, some res_vnode =>
      if r.retval < 0 then .ok ⟨r.retval, cwd, vput r.state res_vnode⟩
      else
        match r.result with
        | none => .error .nullDeref
        | some lookup_result =>
          match r.state.vnodes lookup_result with
          | none => .error .nullDeref
          | some vn =>
            if ¬ S_ISDIR vn.vn_mode then
              .ok ⟨-ENOTDIR, cwd, vput (vput r.state lookup_result) res_vnode⟩
            else
              match cwd with
              | none => .error .nullDeref
              | some old => .ok ⟨0, some lookup_result, vput (vput r.state res_vnode) old⟩

/-- The function `do_stat(path, buf)` for a non-null `path`. `has_stat v` says whether the
`stat` entry of the operations table of vnode `v` is set; what the operation writes to
`buf` is not modelled, the call is logged. After a lookup that failed with another error
than `-ENOTDIR` and `-ENOENT` the code uses `file_vnode` without its having been set. -/
def do_stat (ops : vn_ops_t) (has_stat : Nat → Bool) (root cwd : Option Nat) (s : vfs_state)
    (path : List Char) : Except Fault (Int × vfs_state) :=
  if path.length = 0 then .ok (-EINVAL, s)
  else
    match dir_namev ops root cwd s path none with
    | .error f => .error f
    | .ok d =>
      if d.retval < 0 then .ok (d.retval, d.state)
      else
        let name := if d.namelen = 0 then ['.'] else (path.drop d.name).take d.namelen
        match lookup ops d.state d.res_vnode name, d.res_vnode with
        | .error f, _ => .error f
        | .ok _, none => .error .nullDeref
        | .ok r, some parent_directory =>
          if r.retval = -ENOTDIR ∨ r.retval = -ENOENT then
            .ok (r.retval, vput r.state parent_directory)
          else
            match r.result with
            | none => .error .nullDeref
            | some file_vnode =>
              if has_stat file_vnode = false then .error .assertFailed
              else
                let s1 := { r.state with calls := r.state.calls ++ [VnCall.stat file_vnode] }
                .ok (0, vput (vput s1 parent_directory) file_vnode)

/-- Modelled from the spec: `PAGE_OFFSET` of `mm/page.h`, the offset of an address in its
page. -/
def PAGE_OFFSET (addr : Nat) : Nat := addr % PAGE_SIZE

/-- The loop of `vmmap_read`: `addr_s` and `read_bytes` are the C locals, `buf` the bytes
copied so far; `vfn` is `ADDR_TO_PN(addr_s)` at the head of every iteration. The return
value of `pframe_lookup` is not tested. `fuel` bounds the iterations; each one copies at
least one byte, so `count` of them are never needed. -/
def vmmap_read_loop (lookup : Lookup) (map : vmmap_t) (count : Nat) :
    Nat → vm_heap → Nat → Nat → List Nat → Except Fault (List Nat × vm_heap)
  | 0, _, _, _, _ => .error .diverges
  | fuel + 1, h, addr_s, read_bytes, buf =>
    if ¬ read_bytes < count then .ok (buf, h)
    else
      let vfn := ADDR_TO_PN addr_s
      match vmmap_lookup map vfn with
      | none => .error .nullDeref
      | some vma =>
        let pagenum := u32sub vfn (u32add vma.vma_start vma.vma_off)
        let start_pg_off := PAGE_OFFSET addr_s
        match lookup h vma.vma_obj pagenum false with
        | .error f => .error f
        | .ok r =>
          match r.pf.bind (fun k => pframe_get_resident r.heap k.1 k.2) with
          | none => .error .nullDeref
          | some pf =>
            let read_size := min (count - read_bytes) (PAGE_SIZE - start_pg_off)
            vmmap_read_loop lookup map count fuel r.heap (u32add addr_s read_size)
              (read_bytes + read_size)
              (buf ++ (List.range read_size).map (fun i => pf.pf_data (start_pg_off + i)))

/-- The function `vmmap_read(map, vaddr, buf, count)`: the bytes copied to `buf` and the
heap afterwards; the C function always returns 0. -/
def vmmap_read (lookup : Lookup) (map : vmmap_t) (h : vm_heap) (vaddr count : Nat) :
    Except Fault (List Nat × vm_heap) :=
  vmmap_read_loop lookup map count (count + 1) h vaddr 0 []

/-- The bytes of the frame `pf` after `memcpy` of `src` to offset `off`, and the frame
marked dirty (`pframe_dirty`, of `mm/pframe.c`, modelled from the spec). -/
def frame_store (pf : pframe_t) (off : Nat) (src : List Nat) : pframe_t :=
  { pf with
    pf_data := fun i => if off ≤ i ∧ i < off + src.length then src.getD (i - off) 0
      else pf.pf_data i,
    pf_dirty := true }

/-- The loop of `vmmap_write`: `addr_s` and `write_bytes_done` are the C locals, `buf` the
source bytes. The return value of `pframe_lookup` is not tested. -/
def vmmap_write_loop (lookup : Lookup) (map : vmmap_t) (buf : List Nat) :
    Nat → vm_heap → Nat → Nat → Except Fault vm_heap
  | 0, _, _, _ => .error .diverges
  | fuel + 1, h, addr_s, write_bytes_done =>
    if ¬ write_bytes_done < buf.length then .ok h
    else
      let vfn := ADDR_TO_PN addr_s
      match vmmap_lookup map vfn with
      | none => .error .nullDeref
      | some vma =>
        let pagenum := u32add (u32sub vfn vma.vma_start) vma.vma_off
        let start_pg_off := PAGE_OFFSET addr_s
        match lookup h vma.vma_obj pagenum true with
        | .error f => .error f
        | .ok r =>
          match r.pf with
          | none => .error .nullDeref
          | some k =>
            match r.heap.objs k.1 with
            | none => .error .nullDeref
            | some x =>
              match x.mmo_respages k.2 with
              | none => .error .nullDeref
              | some pf =>
                let write_size0 := buf.length - write_bytes_done
                let write_size :=
                  if write_size0 > PAGE_SIZE - start_pg_off then PAGE_SIZE - start_pg_off
                  else write_size0
                let h1 := set_obj r.heap k.1 (some (set_frame x k.2
                  (some (frame_store pf start_pg_off
                    ((buf.drop write_bytes_done).take write_size)))))
                vmmap_write_loop lookup map buf fuel h1 (u32add addr_s write_size)
                  (write_bytes_done + write_size)

/-- The function `vmmap_write(map, vaddr, buf, count)` with `count` the length of `buf`:
the heap afterwards; the C function always returns 0. -/
def vmmap_write (lookup : Lookup) (map : vmmap_t) (h : vm_heap) (vaddr : Nat) (buf : List Nat) :
    Except Fault vm_heap :=
  vmmap_write_loop lookup map buf (buf.length + 1) h vaddr 0

/-! ## Releasing memory objects: `vm/anon.c`, `vm/shadow.c` -/

/-- What the `put` operations do to an object and its frames, in program order: the calls
`pframe_unpin`, `pframe_free`, the `put` forwarded to another object, `slab_obj_free`, and
the store `o->mmo_refcount--`. -/
inductive PutEvent where
  | pframe_unpin (o pagenum : Nat)
  | pframe_free (o pagenum : Nat)
  | put (o : Nat)
  | slab_obj_free (o : Nat)
  | store_refcount (o : Nat)
  deriving DecidableEq, Repr

/-- The loop over `o->mmo_respages` in both `put` operations; `pages` are the page numbers
of the frames on that list in list order. Modelled from the spec: `pframe_unpin` and
`pframe_free` of `mm/pframe.c`, which is not among the sources, lower the pin count and
give the frame back, taking it off the object's list. -/
def put_free_pages (o : Nat) : vm_heap → List Nat → vm_heap × List PutEvent
  | h, [] => (h, [])
  | h, pagenum :: rest =>
    let h1 := match h.objs o with
      | none => h
      | some x =>
        set_obj h o (some (frame_free (set_frame x pagenum
          ((x.mmo_respages pagenum).map (fun pf =>
            { pf with pf_pincount := pf.pf_pincount - 1 }))) pagenum))
    let r := put_free_pages o h1 rest
    (r.1, [PutEvent.pframe_unpin o pagenum, PutEvent.pframe_free o pagenum] ++ r.2)

/-- The function `anon_put(o)`; `pages` are the page numbers on `o->mmo_respages`. -/
def anon_put (h : vm_heap) (o : Nat) (pages : List Nat) :
    Except Fault (vm_heap × List PutEvent) :=
  match h.objs o with
  | none => .error .assertFailed
  | some x =>
    if ¬ (0 < x.mmo_refcount ∧ x.mmo_ops = .anon) then .error .assertFailed
    else if x.mmo_refcount - 1 = x.mmo_nrespages then
      let r := put_free_pages o h pages
      .ok (set_obj r.1 o none, r.2 ++ [PutEvent.slab_obj_free o])
    else
      .ok (set_obj h o (some { x with mmo_refcount := x.mmo_refcount - 1 }),
        [PutEvent.store_refcount o])

/-- The function `shadow_put(o)`; `pages` are the page numbers on `o->mmo_respages`. The
`put` of the shadowed object is logged, not carried out. After `slab_obj_free` the object
is no longer in the heap, and the store `o->mmo_refcount--` that follows goes to the freed
memory: it is logged and changes no object. -/
def shadow_put (h : vm_heap) (o : Nat) (pages : List Nat) :
    Except Fault (vm_heap × List PutEvent) :=
  match h.objs o with
  | none => .error .assertFailed
  | some x =>
    if ¬ (0 < x.mmo_refcount ∧ x.mmo_ops = .shadow) then .error .assertFailed
    else if x.mmo_refcount - 1 = x.mmo_nrespages then
      let r := put_free_pages o h pages
      match x.mmo_shadowed with
      | none => .error .nullDeref
      | some shadowed =>
        .ok (set_obj r.1 o none,
          r.2 ++ [PutEvent.put shadowed, PutEvent.slab_obj_free o, PutEvent.store_refcount o])
    else
      .ok (set_obj h o (some { x with mmo_refcount := x.mmo_refcount - 1 }),
        [PutEvent.store_refcount o])

/-- Is there, in the log `ev`, a store to the reference count of `o` after `o` was freed. -/
def stored_after_free (ev : List PutEvent) (o : Nat) : Bool :=
  (ev.dropWhile (fun e => e != PutEvent.slab_obj_free o)).contains (PutEvent.store_refcount o)

/-- The range, offset, protection and flags of an area. -/
def vma_shape (v : vmarea_t) : Nat × Nat × Nat × Nat × Nat :=
  (v.vma_start, v.vma_end, v.vma_off, v.vma_prot, v.vma_flags)

/-- Two open files: descriptor 3 on file object 100 (vnode 10, `/a`), descriptor 4 on file
object 200 (vnode 20, `/b`), both open for reading with one reference. -/
def dup2_state : fs_state :=
  { p_files := [none, none, none, some 100, some 200] ++ List.replicate 27 none,
    files := fun g =>
      if g = 100 then some ⟨1, 1, 0, 10⟩ else if g = 200 then some ⟨1, 1, 0, 20⟩ else none,
    vputs := [] }

/-- A process whose data segment is pages `[0x8048, 0x804a)`, whose heap area is the page
`[0x804a, 0x804b)` and whose break `0x0804a800` lies in the middle of that page: the state
`do_brk(0x0804a800)` leaves when called with the break at `p_start_brk = 0x0804a000`. -/
def heap_proc : proc_vm :=
  { p_start_brk := 0x0804a000, p_brk := 0x0804a800,
    p_vmmap := ⟨7, [⟨0x8048, 0x804a, 0, 3, 2, 1, some 7⟩, ⟨0x804a, 0x804b, 0, 3, 2, 11, some 7⟩]⟩ }

/-- The process of `heap_proc` before its first `brk` call. -/
def fresh_proc : proc_vm :=
  { p_start_brk := 0x0804a000, p_brk := 0x0804a000,
    p_vmmap := ⟨7, [⟨0x8048, 0x804a, 0, 3, 2, 1, some 7⟩]⟩ }

/-- Thread 1 runs and holds a mutex whose wait queue (queue 5) holds thread 3 and, enqueued
before it, thread 2; both sleep. -/
def handoff_state : sched_state :=
  { threads := fun u =>
      if u = 1 then ⟨kt_state_t.KT_RUN, none, none, 0, 1⟩
      else ⟨kt_state_t.KT_SLEEP, some 5, some 5, 0, u⟩,
    queues := fun q => if q = 5 then ⟨[3, 2], 2⟩ else ⟨[], 0⟩,
    curthr := some 1, curproc := some 1 }

/-- Thread 2 runs and is about to lock a mutex that thread 1, waiting on the run queue,
holds; the wait queue of the mutex is queue 5. -/
def cancel_state : sched_state :=
  { threads := fun u =>
      if u = 1 then ⟨kt_state_t.KT_RUN, some kt_runq, some kt_runq, 0, 1⟩
      else ⟨kt_state_t.KT_RUN, none, none, 0, u⟩,
    queues := fun q => if q = kt_runq then ⟨[1], 1⟩ else ⟨[], 0⟩,
    curthr := some 2, curproc := some 2 }

/-- No thread is on a queue, all queues are empty, thread 9 runs. -/
def idle_state : sched_state :=
  { threads := fun u => ⟨kt_state_t.KT_RUN, none, none, 0, u⟩,
    queues := fun _ => ⟨[], 0⟩,
    curthr := some 9, curproc := some 9 }

/-- A process object with the given pid, state, exit status, parent, children and thread;
its page directory is at `0x9000 + pid`, its wait queue is queue `10 + pid`. -/
def mk_proc (pid : Nat) (st : proc_state_t) (status : Int) (parent : Option Nat)
    (children threads : List Nat) : proc_t :=
  { p_pid := pid, p_comm := "p", p_threads := threads, p_children := children,
    p_status := status, p_state := st, p_pproc := parent, p_pagedir := some (0x9000 + pid),
    p_wait := 10 + pid, p_files := List.replicate 32 none, p_cwd := none, p_brk := 0,
    p_start_brk := 0, p_vmmap := some (0x7000 + pid) }

/-- Idle (pid 0, at 100), init (pid 1, at 101) and two children of init: pid 2 (at 102),
which has exited with status 7, and pid 3 (at 103), which runs. Init is the current
process; thread `200 + pid` belongs to the process `pid`. -/
def wait_world : proc_world :=
  { procs := fun a =>
      if a = 100 then some (mk_proc 0 proc_state_t.PROC_RUNNING 0 none [101] [200])
      else if a = 101 then some (mk_proc 1 proc_state_t.PROC_RUNNING 0 (some 100) [103, 102] [201])
      else if a = 102 then some (mk_proc 2 proc_state_t.PROC_DEAD 7 (some 101) [] [202])
      else if a = 103 then some (mk_proc 3 proc_state_t.PROC_RUNNING 0 (some 101) [] [203])
      else none,
    proc_list := [103, 102, 101, 100],
    proc_initproc := some 101,
    next_pid := 4,
    kt_kstack := fun t => some (0x8000 + t),
    sched :=
      { threads := fun u =>
          ⟨if u = 202 then kt_state_t.KT_EXITED else kt_state_t.KT_RUN, none, none, 0, u - 100⟩,
        queues := fun _ => ⟨[], 0⟩, curthr := some 201, curproc := some 101 },
    events := [] }

/-- The processes of `wait_world` once pid 3 (at 103) has a child of its own, pid 4 (at
104), and is the current process, its thread 203 having set its state to `KT_EXITED`
in `kthread_exit`; thread 201 of init sleeps on init's wait queue, queue 11. -/
def cleanup_world : proc_world :=
  { procs := fun a =>
      if a = 100 then some (mk_proc 0 proc_state_t.PROC_RUNNING 0 none [101] [200])
      else if a = 101 then some (mk_proc 1 proc_state_t.PROC_RUNNING 0 (some 100) [103] [201])
      else if a = 103 then some (mk_proc 3 proc_state_t.PROC_RUNNING 0 (some 101) [104] [203])
      else if a = 104 then some (mk_proc 4 proc_state_t.PROC_RUNNING 0 (some 103) [] [204])
      else none,
    proc_list := [104, 103, 101, 100],
    proc_initproc := some 101,
    next_pid := 5,
    kt_kstack := fun t => some (0x8000 + t),
    sched :=
      { threads := fun u =>
          if u = 203 then ⟨kt_state_t.KT_EXITED, none, none, 0, 103⟩
          else if u = 201 then ⟨kt_state_t.KT_SLEEP, some 11, some 11, 0, 101⟩
          else ⟨kt_state_t.KT_RUN, none, none, 0, u - 100⟩,
        queues := fun q => if q = 11 then ⟨[201], 1⟩ else ⟨[], 0⟩,
        curthr := some 203, curproc := some 103 },
    events := [] }

/-- A regular file `/log` (vnode 10, 100 bytes long) and a directory (vnode 30) whose
`readdir` fails; descriptor 3 is open on `/log` with `O_WRONLY | O_APPEND` (file object
100), descriptor 4 on `/log` with `O_RDONLY | O_APPEND` (file object 200), descriptor 5 on
the directory with `O_RDONLY` (file object 300), each with one reference. -/
def vfs_example : vfs_state :=
  { fs :=
      { p_files := [none, none, none, some 100, some 200, some 300] ++ List.replicate 26 none,
        files := fun g =>
          if g = 100 then some ⟨1, FMODE_WRITE ||| FMODE_APPEND, 0, 10⟩
          else if g = 200 then some ⟨1, FMODE_READ ||| FMODE_APPEND, 0, 10⟩
          else if g = 300 then some ⟨1, FMODE_READ, 64, 30⟩
          else none,
        vputs := [] },
    vnodes := fun v =>
      if v = 10 then some ⟨S_IFREG, 100, false, false, false⟩
      else if v = 30 then some ⟨S_IFDIR, 128, true, true, true⟩
      else none,
    vrefs := [], calls := [] }

/-- A file system whose `read` and `write` transfer all the bytes asked for (a write
extends the file to the end of what was written), whose `readdir` fails with `-EFAULT` on
vnode 30 and is at the end of every other directory, and in which no name is found. -/
def example_ops : vn_ops_t :=
  { read := fun _ _ n => n,
    write := fun _ off n => (n, off + n),
    readdir := fun v _ => if v = 30 then -EFAULT else 0,
    lookup := fun _ _ => (-ENOENT, none),
    create := fun _ _ => (-ENOMEM, none) }

/-- A process with all `NFILES` descriptors open, slot `i` on file object `100 + i`, all on
the regular file of vnode 10. -/
def full_table : vfs_state :=
  { fs :=
      { p_files := (List.range 32).map (fun i => some (100 + i)),
        files := fun g => if 100 ≤ g ∧ g < 132 then some ⟨1, FMODE_READ, 0, 10⟩ else none,
        vputs := [] },
    vnodes := fun v => if v = 10 then some ⟨S_IFREG, 100, false, false, false⟩ else none,
    vrefs := [], calls := [] }

/-- A file system with the directories `/` (vnode 1) and `/a` (vnode 2) and the regular
file `/a/b` (vnode 3). -/
def tree_ops : vn_ops_t :=
  { read := fun _ _ n => n,
    write := fun _ off n => (n, off + n),
    readdir := fun _ _ => 0,
    lookup := fun d n =>
      if d = 1 ∧ n = ['a'] then (0, some 2)
      else if d = 2 ∧ n = ['b'] then (0, some 3)
      else (-ENOENT, none),
    create := fun _ _ => (-ENOMEM, none) }

/-- A process without open files over the file system of `tree_ops`. -/
def tree_state : vfs_state :=
  { fs := { p_files := List.replicate 32 none, files := fun _ => none, vputs := [] },
    vnodes := fun v =>
      if v = 1 ∨ v = 2 then some ⟨S_IFDIR, 0, true, true, true⟩
      else if v = 3 then some ⟨S_IFREG, 10, false, false, false⟩
      else none,
    vrefs := [], calls := [] }

/-- The state `tree_state` after `do_open("/a/b", O_RDONLY)`, the new file object being at
address 500. -/
def tree_opened : vfs_state :=
  match do_open tree_ops (some 1) (some 1) tree_state ['/', 'a', '/', 'b'] O_RDONLY (some 500) with
  | .ok (_, s) => s
  | .error _ => tree_state

/-- A process whose data and bss occupy pages `[0x8048, 0x804a)` and end in the middle of
page `0x8049`: `p_start_brk = 0x08049800`; no `brk` call was made yet. -/
def bss_proc : proc_vm :=
  { p_start_brk := 0x08049800, p_brk := 0x08049800,
    p_vmmap := ⟨7, [⟨0x8048, 0x804a, 0, 3, 2, 1, some 7⟩]⟩ }

/-- The process `bss_proc` after `do_brk(0x0804b800)`: the heap area is pages
`[0x804a, 0x804c)` and the break lies in the middle of page `0x804b`. -/
def bss_grown : proc_vm :=
  { p_start_brk := 0x08049800, p_brk := 0x0804b800,
    p_vmmap := ⟨7, [⟨0x8048, 0x804a, 0, 3, 2, 1, some 7⟩, ⟨0x804a, 0x804c, 0, 3, 2, 11, some 7⟩]⟩ }

/-- A file system with the directories `/` (vnode 1) and `/ab` (vnode 2) and the regular
file `/ab/b` (vnode 3); the vnodes are those of `tree_state`. -/
def ab_ops : vn_ops_t :=
  { read := fun _ _ n => n,
    write := fun _ off n => (n, off + n),
    readdir := fun _ _ => 0,
    lookup := fun d n =>
      if d = 1 ∧ n = ['a', 'b'] then (0, some 2)
      else if d = 2 ∧ n = ['b'] then (0, some 3)
      else (-ENOENT, none),
    create := fun _ _ => (-ENOMEM, none) }

/-- A file system with the directories `/` (vnode 1) and `/aaaaaaaaaaaaaaa` (vnode 2, a
name of 15 characters) and the regular file `bbbbbbbbbbbbbbb` (vnode 3, 15 characters) in
the latter; the vnodes are those of `tree_state`. -/
def long_ops : vn_ops_t :=
  { read := fun _ _ n => n,
    write := fun _ off n => (n, off + n),
    readdir := fun _ _ => 0,
    lookup := fun d n =>
      if d = 1 ∧ n = List.replicate 15 'a' then (0, some 2)
      else if d = 2 ∧ n = List.replicate 15 'b' then (0, some 3)
      else (-ENOENT, none),
    create := fun _ _ => (-ENOMEM, none) }

/-- The path `/aaaaaaaaaaaaaaa/bbbbbbbbbbbbbbb` of 32 characters. -/
def long_path : List Char :=
  '/' :: List.replicate 15 'a' ++ '/' :: List.replicate 15 'b'

/-- An anonymous object (address 1) without resident pages, mapped shared at pages
`[0x500, 0x502)` with `vma_off = 1`, as `do_mmap` with `MAP_SHARED | MAP_ANON` and
`off = 4096` sets it up. -/
def off_heap : vm_heap :=
  { objs := fun a => if a = 1 then some ⟨.anon, 1, 0, none, none, fun _ => none⟩ else none,
    next := 2, fill := fun _ _ => .error (-EFAULT), uninit := fun _ => 0xAA }

/-- The address space over `off_heap`. -/
def off_map : vmmap_t := ⟨7, [⟨0x500, 0x502, 1, 3, 9, 1, some 7⟩]⟩

/-- A vnode-backed object (address 1) whose pages cannot be read (`fillpage` fails with
`-ENOMEM`) and a shadow object over it (address 2) for whose page 0 `pframe_get` has just
allocated a frame: busy, not pinned, not filled. -/
def fail_heap : vm_heap :=
  { objs := fun a =>
      if a = 1 then some ⟨.vnode, 1, 0, none, none, fun _ => none⟩
      else if a = 2 then
        some ⟨.shadow, 1, 1, some 1, some 1,
          fun n => if n = 0 then some ⟨fun _ => 0xAA, 0, false⟩ else none⟩
      else none,
    next := 3, fill := fun _ _ => .error (-ENOMEM), uninit := fun _ => 0xAA }

/-- An anonymous object (address 1) and a shadow object over it (address 2) with reference
count 2 and one resident page, page 5, pinned once; and an anonymous object (address 3)
with reference count 2 and one resident page. -/
def put_heap : vm_heap :=
  { objs := fun a =>
      if a = 1 then some ⟨.anon, 1, 0, none, none, fun _ => none⟩
      else if a = 2 then
        some ⟨.shadow, 2, 1, some 1, some 1,
          fun n => if n = 5 then some ⟨fun _ => 0, 1, false⟩ else none⟩
      else if a = 3 then
        some ⟨.anon, 2, 1, none, none,
          fun n => if n = 5 then some ⟨fun _ => 0, 1, false⟩ else none⟩
      else none,
    next := 4, fill := fun _ _ => .error (-EFAULT), uninit := fun _ => 0 }

/-- The address space of `heap_proc` after an anonymous private mapping of three pages,
`[0xbfffd, 0xc0000)` on the shadow object 51, and the unmapping of its middle page: the
two pieces that `vmmap_remove` leaves share the object 51. -/
def split_proc : proc_vm :=
  { p_start_brk := 0x0804a000, p_brk := 0x0804a800,
    p_vmmap := ⟨7, [⟨0x8048, 0x804a, 0, 3, 2, 1, some 7⟩, ⟨0x804a, 0x804b, 0, 3, 2, 11, some 7⟩,
      ⟨0xbfffd, 0xbfffe, 0, 3, 10, 51, some 7⟩, ⟨0xbffff, 0xc0000, 2, 3, 10, 51, some 7⟩]⟩ }

/-- The memory objects of `split_proc`: the objects 1 and 11 of the data and heap areas,
the anonymous object 50 and the shadow object 51 over it, which has one reference from
each of the two areas that share it. -/
def split_heap : vm_heap :=
  { objs := fun a =>
      if a = 1 ∨ a = 11 ∨ a = 50 then some ⟨.anon, 1, 0, none, none, fun _ => none⟩
      else if a = 51 then some ⟨.shadow, 2, 0, some 50, some 50, fun _ => none⟩
      else none,
    next := 52, fill := fun _ _ => .error (-EFAULT), uninit := fun _ => 0 }

/-- The processes of `wait_world` with `next_pid` back at 0: with a pid space of 4 every
pid is held. -/
def full_world : proc_world := { wait_world with next_pid := 0 }

/-- The relative path `a/a/.../a` of 51 components, 50 separators. -/
def deep_path : List Char := 'a' :: (List.replicate 50 ['/', 'a']).flatten

/-! # Theorems -/

theorem vmmap_ordered_iff_chain (map : List vmarea_t) : vmmap_ordered map ↔ vmmap_chain map := by
  unfold vmmap_ordered vmmap_chain
  constructor
  · rintro ⟨hs, hd, hv⟩
    refine ⟨?_, hv⟩
    refine List.Pairwise.imp_of_mem ?_ (hs.and hd)
    intro a b _ hb hab
    have := (hv b hb).1
    omega
  · rintro ⟨hc, hv⟩
    refine ⟨?_, ?_, hv⟩
    · refine List.Pairwise.imp_of_mem ?_ hc
      intro a b ha _ hab
      have := (hv a ha).1
      omega
    · exact hc.imp (fun h => Or.inl h)

theorem drop_if_empty_mem (vma w : vmarea_t) (h : w ∈ (drop_if_empty vma).1) :
    w = vma ∧ vma.vma_start ≠ vma.vma_end := by
  unfold drop_if_empty at h
  split_ifs at h with he
  · simp at h
  · simp at h
    exact ⟨h, he⟩

/-- Every area that `vmmap_remove` leaves is non-empty, is a sub-range of an area that was
there before, and does not meet the removed range. -/
theorem vmmap_remove_loop_mem (m s e : Nat) (l : List vmarea_t)
    (hc : l.Pairwise (fun a b => a.vma_end ≤ b.vma_start))
    (hv : ∀ v ∈ l, v.vma_start < v.vma_end) :
    ∀ w ∈ (vmmap_remove_loop m s s e l).1,
      w.vma_start < w.vma_end ∧ (w.vma_end ≤ s ∨ e ≤ w.vma_start) ∧
      ∃ w0 ∈ l, w0.vma_start ≤ w.vma_start ∧ w.vma_end ≤ w0.vma_end := by
  induction l with
  | nil => intro w hw; simp [vmmap_remove_loop] at hw
  | cons a rest ih =>
    have hrest := ih (List.Pairwise.of_cons hc) (fun v hvm => hv v (List.mem_cons_of_mem _ hvm))
    have ha := hv a (List.mem_cons_self _ _)
    have hlater : ∀ b ∈ rest, a.vma_end ≤ b.vma_start := (List.pairwise_cons.1 hc).1
    have lift : ∀ w, w ∈ (vmmap_remove_loop m s s e rest).1 →
        w.vma_start < w.vma_end ∧ (w.vma_end ≤ s ∨ e ≤ w.vma_start) ∧
        ∃ w0 ∈ a :: rest, w0.vma_start ≤ w.vma_start ∧ w.vma_end ≤ w0.vma_end := by
      intro w hw
      obtain ⟨h1, h2, w0, hw0, h3⟩ := hrest w hw
      exact ⟨h1, h2, w0, List.mem_cons_of_mem _ hw0, h3⟩
    intro w hw
    simp only [vmmap_remove_loop] at hw
    split_ifs at hw with h1 h2 h3 h4
    · simp only [decide_eq_false_iff_not, not_or, not_lt, ge_iff_le] at h1
      simp only [List.mem_append] at hw
      rcases hw with (hw | hw) | hw
      · obtain ⟨hw, hne⟩ := drop_if_empty_mem _ _ hw
        subst hw
        dsimp only at hne ⊢
        refine ⟨by omega, by omega, a, List.mem_cons_self _ _, ?_, ?_⟩ <;> dsimp only <;> omega
      · obtain ⟨hw, hne⟩ := drop_if_empty_mem _ _ hw
        subst hw
        dsimp only at hne ⊢
        refine ⟨by omega, by omega, a, List.mem_cons_self _ _, ?_, ?_⟩ <;> dsimp only <;> omega
      · have := hlater w hw
        have := hv w (List.mem_cons_of_mem _ hw)
        exact ⟨by omega, by omega, w, List.mem_cons_of_mem _ hw, le_refl _, le_refl _⟩
    · simp only [decide_eq_false_iff_not, not_or, not_lt, ge_iff_le] at h2
      simp only [List.mem_append] at hw
      rcases hw with hw | hw
      · obtain ⟨hw, hne⟩ := drop_if_empty_mem _ _ hw
        subst hw
        dsimp only at hne ⊢
        refine ⟨by omega, by omega, a, List.mem_cons_self _ _, ?_, ?_⟩ <;> dsimp only <;> omega
      · exact lift w hw
    · simp only [decide_eq_false_iff_not, not_or, not_lt, ge_iff_le] at h3
      simp only [List.mem_append] at hw
      rcases hw with hw | hw
      · obtain ⟨hw, hne⟩ := drop_if_empty_mem _ _ hw
        subst hw
        dsimp only at hne ⊢
        refine ⟨by omega, by omega, a, List.mem_cons_self _ _, ?_, ?_⟩ <;> dsimp only <;> omega
      · exact lift w hw
    · exact lift w hw
    · simp only [decide_eq_false_iff_not, not_or, not_lt, ge_iff_le, not_and, not_le,
        List.mem_cons] at h1 h2 h3 h4 hw
      rcases hw with hw | hw
      · subst hw
        refine ⟨ha, ?_, w, List.mem_cons_self _ _, le_refl _, le_refl _⟩
        by_contra hcon
        push_neg at hcon
        by_cases hsa : w.vma_start ≤ s <;> by_cases hea : e ≤ w.vma_end
        · exact absurd (h1 hsa (by omega)) (by omega)
        · exact absurd (h2 (by omega) hsa) (by omega)
        · exact absurd (h3 (by omega) hea) (by omega)
        · exact absurd (h4 (by omega) (by omega)) (by omega)
      · exact lift w hw

theorem drop_if_empty_pairwise (R : vmarea_t → vmarea_t → Prop) (vma : vmarea_t) :
    (drop_if_empty vma).1.Pairwise R := by
  unfold drop_if_empty
  split_ifs <;> simp

/-- The loop of `vmmap_remove` keeps the areas in ascending, non-overlapping order. -/
theorem vmmap_remove_loop_pairwise (m s e : Nat) (hse : s ≤ e) (l : List vmarea_t)
    (hc : l.Pairwise (fun a b => a.vma_end ≤ b.vma_start))
    (hv : ∀ v ∈ l, v.vma_start < v.vma_end) :
    (vmmap_remove_loop m s s e l).1.Pairwise (fun a b => a.vma_end ≤ b.vma_start) := by
  induction l with
  | nil => simp [vmmap_remove_loop]
  | cons a rest ih =>
    have hc' := List.Pairwise.of_cons hc
    have hv' : ∀ v ∈ rest, v.vma_start < v.vma_end := fun v hvm => hv v (List.mem_cons_of_mem _ hvm)
    have hrest := ih hc' hv'
    have hlater : ∀ b ∈ rest, a.vma_end ≤ b.vma_start := (List.pairwise_cons.1 hc).1
    have hafter : ∀ w ∈ (vmmap_remove_loop m s s e rest).1, a.vma_end ≤ w.vma_start := by
      intro w hw
      obtain ⟨_, _, w0, hw0, h3, _⟩ := vmmap_remove_loop_mem m s e rest hc' hv' w hw
      exact le_trans (hlater w0 hw0) h3
    simp only [vmmap_remove_loop]
    split_ifs with h1 h2 h3 h4
    · simp only [decide_eq_false_iff_not, not_or, not_lt, ge_iff_le] at h1
      refine List.pairwise_append.2 ⟨List.pairwise_append.2
        ⟨drop_if_empty_pairwise _ _, drop_if_empty_pairwise _ _, ?_⟩, hc', ?_⟩
      · intro x hx y hy
        obtain ⟨hx, -⟩ := drop_if_empty_mem _ _ hx
        obtain ⟨hy, -⟩ := drop_if_empty_mem _ _ hy
        subst hx; subst hy
        exact hse
      · intro x hx y hy
        have := hlater y hy
        rcases List.mem_append.1 hx with hx | hx <;>
          obtain ⟨hx, -⟩ := drop_if_empty_mem _ _ hx <;> subst hx <;> dsimp only <;> omega
    · simp only [decide_eq_false_iff_not, not_or, not_lt, ge_iff_le] at h2
      refine List.pairwise_append.2 ⟨drop_if_empty_pairwise _ _, hrest, ?_⟩
      intro x hx y hy
      obtain ⟨hx, -⟩ := drop_if_empty_mem _ _ hx
      have := hafter y hy
      subst hx; dsimp only; omega
    · simp only [decide_eq_false_iff_not, not_or, not_lt, ge_iff_le] at h3
      refine List.pairwise_append.2 ⟨drop_if_empty_pairwise _ _, hrest, ?_⟩
      intro x hx y hy
      obtain ⟨hx, -⟩ := drop_if_empty_mem _ _ hx
      have := hafter y hy
      subst hx; dsimp only; omega
    · exact hrest
    · exact List.pairwise_cons.2 ⟨hafter, hrest⟩

/-- Claim C3. For every address space that satisfies the ordering invariant and every
`lopage`, `npages` whose sum does not overflow `uint32_t`, after
`vmmap_remove(map, lopage, npages)` no area contains a page of `[lopage, lopage+npages)`,
no empty area is left in the list, and the list satisfies the ordering invariant again. -/
theorem vmmap_remove_keeps_ordering (map : vmmap_t) (lopage npages : Nat)
    (hinv : vmmap_ordered map.vmm_list) (hsum : lopage + npages < U32) :
    (∀ v ∈ (vmmap_remove map lopage npages).1.vmm_list, ∀ p, lopage ≤ p → p < lopage + npages →
        ¬ vma_covers v p) ∧
    (∀ v ∈ (vmmap_remove map lopage npages).1.vmm_list, v.vma_start ≠ v.vma_end) ∧
    vmmap_ordered (vmmap_remove map lopage npages).1.vmm_list := by
  obtain ⟨hc, hv⟩ := (vmmap_ordered_iff_chain _).1 hinv
  have hv1 : ∀ v ∈ map.vmm_list, v.vma_start < v.vma_end := fun v h => (hv v h).1
  have hend : u32add lopage npages = lopage + npages := Nat.mod_eq_of_lt hsum
  have hmem := vmmap_remove_loop_mem map.self lopage (lopage + npages) map.vmm_list hc hv1
  have hpw := vmmap_remove_loop_pairwise map.self lopage (lopage + npages)
    (Nat.le_add_right _ _) map.vmm_list hc hv1
  unfold vmmap_remove
  rw [hend]
  refine ⟨?_, ?_, (vmmap_ordered_iff_chain _).2 ⟨hpw, ?_⟩⟩
  · intro v hvm p hp1 hp2 hcov
    obtain ⟨_, h2, _⟩ := hmem v hvm
    unfold vma_covers at hcov
    omega
  · intro v hvm
    exact Nat.ne_of_lt (hmem v hvm).1
  · intro v hvm
    obtain ⟨h1, _, w0, hw0, h3, h4⟩ := hmem v hvm
    have := hv w0 hw0
    exact ⟨h1, by omega, by omega⟩

/-- Witness for C3: an address space of two areas, the removed range cutting into both. -/
theorem vmmap_remove_keeps_ordering_witness :
    (∀ v ∈ (vmmap_remove ⟨7, [⟨0x500, 0x510, 0, 3, 2, 1, some 7⟩,
        ⟨0x520, 0x530, 0, 3, 2, 2, some 7⟩]⟩ 0x508 0x20).1.vmm_list,
        ∀ p, 0x508 ≤ p → p < 0x508 + 0x20 → ¬ vma_covers v p) ∧
    (∀ v ∈ (vmmap_remove ⟨7, [⟨0x500, 0x510, 0, 3, 2, 1, some 7⟩,
        ⟨0x520, 0x530, 0, 3, 2, 2, some 7⟩]⟩ 0x508 0x20).1.vmm_list,
        v.vma_start ≠ v.vma_end) ∧
    vmmap_ordered (vmmap_remove ⟨7, [⟨0x500, 0x510, 0, 3, 2, 1, some 7⟩,
        ⟨0x520, 0x530, 0, 3, 2, 2, some 7⟩]⟩ 0x508 0x20).1.vmm_list :=
  vmmap_remove_keeps_ordering _ 0x508 0x20
    (by simp [vmmap_ordered, ADDR_TO_PN, USER_MEM_LOW, USER_MEM_HIGH, PAGE_SIZE, PAGE_SHIFT])
    (by norm_num [U32])

/-! ## Descriptors -/

/-- Claim C2, evaluated on the code. With descriptor 3 open on one file and descriptor 4
open on another, `do_dup2(3, 4)` returns 4 but leaves slot 4 on its old file: the table is
unchanged, nothing is closed, and the reference taken on the file of descriptor 3 by `fget`
is kept. -/
theorem do_dup2_leaves_open_target :
    ∃ s1, do_dup2 dup2_state 3 4 = .ok (4, s1) ∧
      s1.p_files = dup2_state.p_files ∧
      s1.p_files[3]? = some (some 100) ∧ s1.p_files[4]? = some (some 200) ∧
      (s1.files 100).map (fun f => f.f_refcount) = some 2 ∧
      (s1.files 200).map (fun f => f.f_refcount) = some 1 ∧ s1.vputs = [] :=
  ⟨_, rfl, rfl, by decide, by decide, by decide, by decide, rfl⟩

/-! ## Address spaces -/

/-- Claim C4, evaluated on the code. On an address space without areas `vmmap_find_range`
with `VMMAP_DIR_HILO` dereferences the null `vma` after its loop, whatever `npages` is. -/
theorem vmmap_find_range_empty_map (self npages : Nat) :
    vmmap_find_range ⟨self, []⟩ npages VMMAP_DIR_HILO = .error .nullDeref := rfl

/-- Claim C5, evaluated on the code. A `do_mmap` call without `MAP_FIXED` and with the
non-null hint `addr = 0x01000000` passes `lopage = ADDR_TO_PN(addr)` to `vmmap_map`, and
the area that was mapped at pages `[0x1000, 0x1002)` loses its first page to the new
mapping. -/
theorem do_mmap_hint_unmaps :
    ∃ r, do_mmap ⟨7, [⟨0x1000, 0x1002, 0, 3, 2, 1, some 7⟩]⟩ dup2_state id
        0x01000000 4096 3 (MAP_PRIVATE ||| MAP_ANON) (-1) 0 50 = .ok r ∧
      (MAP_PRIVATE ||| MAP_ANON) &&& MAP_FIXED = 0 ∧
      r.retval = 0 ∧ r.called = some (ADDR_TO_PN 0x01000000, 1) ∧ ADDR_TO_PN 0x01000000 ≠ 0 ∧
      r.map.vmm_list.map (fun v => (v.vma_start, v.vma_end, v.vma_obj)) =
        [(0x1000, 0x1001, 51), (0x1001, 0x1002, 1)] :=
  ⟨_, rfl, by decide, by decide, by decide, by decide, by decide⟩

/-- Claim C6, evaluated on the code. The break `0x0804a800` is not page-aligned, the heap
area ends at page `0x804b`, and page `0x804b`, the only page needed to move the break to
`0x0804c000`, is unmapped; `do_brk(0x0804c000)` returns `-ENOMEM` and changes nothing.
The state is the one a first call `do_brk(0x0804a800)` produces. -/
theorem do_brk_unaligned_break_enomem :
    do_brk fresh_proc 0x0804a800 10 = .ok ⟨0, some 0x0804a800, heap_proc⟩ ∧
    vmmap_lookup heap_proc.p_vmmap 0x804b = none ∧
    vmmap_is_range_empty heap_proc.p_vmmap 0x804b 1 = .ok 1 ∧
    do_brk heap_proc 0x0804c000 20 = .ok ⟨-ENOMEM, none, heap_proc⟩ := by
  exact ⟨rfl, rfl, rfl, rfl⟩


/-! ## Page faults -/

theorem vmmap_lookup_idx_none (vfn : Nat) (l : List vmarea_t) :
    vmmap_lookup_idx vfn l = none ↔ ∀ v ∈ l, ¬ vma_covers v vfn := by
  induction l with
  | nil => simp [vmmap_lookup_idx]
  | cons a rest ih =>
    simp only [vmmap_lookup_idx, List.mem_cons, forall_eq_or_imp]
    split_ifs with h
    · simp only [false_iff, not_and, reduceCtorEq]
      intro h1
      exact absurd ⟨h.2, h.1⟩ h1
    · rw [Option.map_eq_none', ih]
      constructor
      · intro h2
        refine ⟨?_, h2⟩
        intro hc
        exact h ⟨hc.2, hc.1⟩
      · intro h2
        exact h2.2

theorem vmmap_lookup_idx_some (vfn : Nat) (l : List vmarea_t) (i : Nat)
    (h : vmmap_lookup_idx vfn l = some i) :
    ∃ v, l[i]? = some v ∧ vma_covers v vfn := by
  induction l generalizing i with
  | nil => simp [vmmap_lookup_idx] at h
  | cons a rest ih =>
    simp only [vmmap_lookup_idx] at h
    split_ifs at h with hc
    · simp only [Option.some.injEq] at h
      subst h
      exact ⟨a, by simp, hc.2, hc.1⟩
    · rw [Option.map_eq_some'] at h
      obtain ⟨j, hj, rfl⟩ := h
      obtain ⟨v, hv, hcov⟩ := ih j hj
      exact ⟨v, by simpa using hv, hcov⟩

/-- The function `vmmap_lookup` returns null exactly when no area of the map contains the
page. -/
theorem vmmap_lookup_none (map : vmmap_t) (vfn : Nat) :
    vmmap_lookup map vfn = none ↔ ∀ v ∈ map.vmm_list, ¬ vma_covers v vfn := by
  unfold vmmap_lookup
  rw [← vmmap_lookup_idx_none]
  constructor
  · intro h
    cases hi : vmmap_lookup_idx vfn map.vmm_list with
    | none => rfl
    | some i =>
      obtain ⟨v, hv, _⟩ := vmmap_lookup_idx_some vfn _ i hi
      rw [hi] at h
      simp [hv] at h
  · intro h
    simp [h]

/-- An area that `vmmap_lookup` returns is in the map and contains the page. -/
theorem vmmap_lookup_some (map : vmmap_t) (vfn : Nat) (vma : vmarea_t)
    (h : vmmap_lookup map vfn = some vma) : vma ∈ map.vmm_list ∧ vma_covers vma vfn := by
  unfold vmmap_lookup at h
  cases hi : vmmap_lookup_idx vfn map.vmm_list with
  | none => simp [hi] at h
  | some i =>
    obtain ⟨v, hv, hcov⟩ := vmmap_lookup_idx_some vfn _ i hi
    rw [hi] at h
    simp only [Option.some_bind] at h
    rw [hv] at h
    cases h
    exact ⟨(List.getElem?_eq_some.1 hv).2 ▸ List.getElem_mem _, hcov⟩

/-- For a page inside the area, the `uint32_t` expression `vfn - vma_start + vma_off` of
the fault handler is the plain difference and sum reduced modulo `2^32`. -/
theorem pf_pagenum_eq (vfn : Nat) (vma : vmarea_t) (hlo : vma.vma_start ≤ vfn) (hv : vfn < U32) :
    u32add (u32sub vfn vma.vma_start) vma.vma_off = pf_pagenum vfn vma := by
  unfold u32add u32sub pf_pagenum
  have h1 : vma.vma_start % U32 = vma.vma_start := Nat.mod_eq_of_lt (lt_of_le_of_lt hlo hv)
  have h2 : vfn + (U32 - vma.vma_start) = (vfn - vma.vma_start) + U32 := by omega
  rw [h1, h2, Nat.add_mod_right, Nat.mod_eq_of_lt (by omega : vfn - vma.vma_start < U32)]

/-- Claim C7. For a fault address `vaddr` (a 32-bit address) and a memory-object layer that
on a non-negative return has stored a frame with a non-null `pf_addr`:
`handle_pagefault(vaddr, cause)` ends the process with `do_exit(EFAULT)` and calls no
`pt_map` if and only if no area contains `ADDR_TO_PN(vaddr)`, or the area lacks
`PROT_READ`, or `cause` has `FAULT_WRITE` and the area lacks `PROT_WRITE`, or
`pframe_lookup` on the area's object returns an error; in every other case it makes exactly
the calls `pframe_lookup(vma_obj, vfn - vma_start + vma_off, forwrite)`, with `forwrite`
set exactly when `cause` has `FAULT_WRITE`, and then one `pt_map` for the page of `vaddr`
with the frame found. -/
theorem handle_pagefault_outcome (map : vmmap_t) (lk : Nat → Nat → Bool → LookupResult)
    (vaddr cause : Nat) (hva : vaddr < U32)
    (hlk : ∀ o pn w, 0 ≤ (lk o pn w).retval → ∃ a, (lk o pn w).pf_addr = some a ∧ a ≠ 0) :
    ∃ tr, handle_pagefault map lk vaddr cause = .ok tr ∧
      (pf_killed tr ↔ pf_unresolved map lk vaddr cause) ∧
      (¬ pf_killed tr →
        ∃ vma a pd pt, vmmap_lookup map (ADDR_TO_PN vaddr) = some vma ∧
          (lk vma.vma_obj (pf_pagenum (ADDR_TO_PN vaddr) vma)
            (decide (cause &&& FAULT_WRITE ≠ 0))).pf_addr = some a ∧
          tr = [PfEvent.pframe_lookup vma.vma_obj (pf_pagenum (ADDR_TO_PN vaddr) vma)
                  (decide (cause &&& FAULT_WRITE ≠ 0)),
                PfEvent.pt_map (vaddr / PAGE_SIZE * PAGE_SIZE) a pd pt]) := by
  unfold pf_killed pf_unresolved
  cases hl : vmmap_lookup map (ADDR_TO_PN vaddr) with
  | none =>
    simp only [handle_pagefault, hl]
    refine ⟨_, rfl, ?_, ?_⟩
    · have := (vmmap_lookup_none _ _).1 hl
      exact ⟨fun _ => Or.inl this, fun _ => by simp⟩
    · simp
  | some vma =>
    have hcov := vmmap_lookup_some _ _ _ hl
    have hnot : ¬ ∀ v ∈ map.vmm_list, ¬ vma_covers v (ADDR_TO_PN vaddr) := by
      intro h; exact h vma hcov.1 hcov.2
    have hvfn : ADDR_TO_PN vaddr < U32 := lt_of_le_of_lt (Nat.div_le_self _ _) hva
    simp only [handle_pagefault, hl, pf_pagenum_eq _ vma hcov.2.1 hvfn]
    by_cases h1 : vma.vma_prot &&& PROT_READ = 0 ∨
        (cause &&& FAULT_WRITE ≠ 0 ∧ vma.vma_prot &&& PROT_WRITE = 0)
    · rw [if_pos h1]
      refine ⟨_, rfl, ?_, ?_⟩
      · simp only [hnot, false_or]
        constructor
        · intro _
          refine ⟨vma, rfl, ?_⟩
          rcases h1 with h1 | h1
          · exact Or.inl h1
          · exact Or.inr (Or.inl h1)
        · intro _
          simp
      · simp
    · rw [if_neg h1]
      by_cases h2 : (lk vma.vma_obj (pf_pagenum (ADDR_TO_PN vaddr) vma)
          (decide (cause &&& FAULT_WRITE ≠ 0))).retval < 0
      · rw [if_pos h2]
        refine ⟨_, rfl, ?_, ?_⟩
        · simp only [hnot, false_or]
          constructor
          · intro _
            exact ⟨vma, rfl, Or.inr (Or.inr h2)⟩
          · intro _
            simp
        · simp
      · rw [if_neg h2]
        obtain ⟨a, ha, ha0⟩ := hlk _ _ _ (not_lt.1 h2)
        simp only [ha, ha0, if_false]
        refine ⟨_, rfl, ?_, ?_⟩
        · simp only [hnot, false_or]
          constructor
          · intro h
            simp at h
          · rintro ⟨v, hv, hbad⟩
            cases hv
            push_neg at h1
            rcases hbad with hb | hb | hb
            · exact absurd hb h1.1
            · exact absurd hb.2 (h1.2 hb.1)
            · exact absurd hb h2
        · intro _
          exact ⟨vma, a, _, _, rfl, ha, rfl⟩

/-- Witness for C7: a write fault at `0x0804a123` in the heap of `heap_proc`, with a
memory-object layer whose lookups succeed. -/
theorem handle_pagefault_outcome_witness :
    (0x0804a123 < U32 ∧
      ∀ o pn w, 0 ≤ (lookup_ok o pn w).retval → ∃ a, (lookup_ok o pn w).pf_addr = some a ∧ a ≠ 0) ∧
    ∃ tr, handle_pagefault heap_proc.p_vmmap lookup_ok 0x0804a123 FAULT_WRITE = .ok tr ∧
      (pf_killed tr ↔ pf_unresolved heap_proc.p_vmmap lookup_ok 0x0804a123 FAULT_WRITE) ∧
      (¬ pf_killed tr →
        ∃ vma a pd pt, vmmap_lookup heap_proc.p_vmmap (ADDR_TO_PN 0x0804a123) = some vma ∧
          (lookup_ok vma.vma_obj (pf_pagenum (ADDR_TO_PN 0x0804a123) vma)
            (decide (FAULT_WRITE &&& FAULT_WRITE ≠ 0))).pf_addr = some a ∧
          tr = [PfEvent.pframe_lookup vma.vma_obj (pf_pagenum (ADDR_TO_PN 0x0804a123) vma)
                  (decide (FAULT_WRITE &&& FAULT_WRITE ≠ 0)),
                PfEvent.pt_map (0x0804a123 / PAGE_SIZE * PAGE_SIZE) a pd pt]) :=
  ⟨⟨by norm_num [U32], fun _ _ _ _ => ⟨0x1000, rfl, by decide⟩⟩,
   handle_pagefault_outcome heap_proc.p_vmmap lookup_ok 0x0804a123 FAULT_WRITE
    (by norm_num [U32]) (fun _ _ _ _ => ⟨0x1000, rfl, by decide⟩)⟩

/-! ## Mutexes -/

/-- Claim C8. For a mutex held by the current thread, with the data-model invariants that
the current thread is in state `KT_RUN` and every thread on the mutex's wait queue sleeps:
`kmutex_unlock` returns; if the wait queue is empty the holder becomes null and nothing
else changes; otherwise the thread at the tail of the queue list (the waiter that was
enqueued first, `ktqueue_enqueue` inserting at the head) is taken off the wait queue,
becomes the holder, is put at the head of the run queue in state `KT_RUN`, and no other
thread or queue changes; in both cases the unlocking thread is not the holder afterwards. -/
theorem kmutex_unlock_handoff (s : sched_state) (mtx : kmutex_t) (cur : Nat)
    (hcur : s.curthr = some cur) (hholder : mtx.km_holder = some cur)
    (hq : mtx.km_waitq ≠ kt_runq)
    (hrun : (s.threads cur).kt_state = kt_state_t.KT_RUN)
    (hsleep : ∀ w ∈ (s.queues mtx.km_waitq).tq_list,
      (s.threads w).kt_state = kt_state_t.KT_SLEEP ∨
      (s.threads w).kt_state = kt_state_t.KT_SLEEP_CANCELLABLE) :
    ((s.queues mtx.km_waitq).tq_list = [] →
      kmutex_unlock s mtx = .ok ({ mtx with km_holder := none }, s)) ∧
    (∀ rest w, (s.queues mtx.km_waitq).tq_list = rest ++ [w] →
      ∃ s1, kmutex_unlock s mtx = .ok ({ mtx with km_holder := some w }, s1) ∧
        (s1.queues mtx.km_waitq).tq_list = rest ∧
        (s1.queues kt_runq).tq_list = w :: (s.queues kt_runq).tq_list ∧
        (s1.threads w).kt_state = kt_state_t.KT_RUN ∧
        (s1.threads w).kt_wchan = some kt_runq ∧
        (∀ u, u ≠ w → s1.threads u = s.threads u) ∧
        (∀ q, q ≠ mtx.km_waitq → q ≠ kt_runq → s1.queues q = s.queues q) ∧
        s1.curthr = some cur ∧ w ≠ cur) := by
  constructor
  · intro hemp
    simp [kmutex_unlock, hcur, hholder, sched_queue_empty, hemp]
  · intro rest w hl
    have hw : (s.threads w).kt_state = kt_state_t.KT_SLEEP ∨
        (s.threads w).kt_state = kt_state_t.KT_SLEEP_CANCELLABLE := hsleep w (by simp [hl])
    have hne : w ≠ cur := by
      rintro rfl
      rw [hrun] at hw
      simp at hw
    have hne' : ¬ cur = w := fun h => hne h.symm
    have hq' : kt_runq ≠ mtx.km_waitq := fun h => hq h.symm
    simp [kmutex_unlock, hcur, hholder, sched_queue_empty, hl, sched_wakeup_on, ktqueue_dequeue,
      set_queue, set_thread, sched_make_runnable, ktqueue_enqueue, hw, hq, hq', hne, hne']
    constructor
    · intro u hu
      simp [hu]
    · intro q h1 h2
      simp [h1, h2]

/-- Witness for C8: thread 1 unlocks a mutex on whose wait queue thread 2 was enqueued
before thread 3. -/
theorem kmutex_unlock_handoff_witness :
    (handoff_state.queues 5).tq_list = [3] ++ [2] ∧
    ∃ s1, kmutex_unlock handoff_state ⟨some 1, 5⟩ = .ok (⟨some 2, 5⟩, s1) ∧
      (s1.queues 5).tq_list = [3] ∧
      (s1.queues kt_runq).tq_list = 2 :: (handoff_state.queues kt_runq).tq_list ∧
      (s1.threads 2).kt_state = kt_state_t.KT_RUN ∧
      (s1.threads 2).kt_wchan = some kt_runq ∧
      (∀ u, u ≠ 2 → s1.threads u = handoff_state.threads u) ∧
      (∀ q, q ≠ 5 → q ≠ kt_runq → s1.queues q = handoff_state.queues q) ∧
      s1.curthr = some 1 ∧ 2 ≠ 1 :=
  ⟨rfl, (kmutex_unlock_handoff handoff_state ⟨some 1, 5⟩ 1 rfl rfl (by decide) rfl
    (by decide)).2 [3] 2 rfl⟩

/-- Claim C9, evaluated on the code. Thread 2 calls `kmutex_lock_cancellable` on a mutex
held by thread 1 and blocks; thread 1 runs, cancels thread 2 with `sched_cancel` and goes
to sleep on another queue; thread 2 runs again with the mutex still held by thread 1, and
the rest of `kmutex_lock_cancellable` fails the assertion of `kmutex_unlock` instead of
returning `-EINTR`. -/
theorem kmutex_lock_cancellable_cancel_asserts :
    ∃ s1 s2 s3 s4 s5,
      kmutex_lock_cancellable_enter cancel_state ⟨some 1, 5⟩ = .ok (⟨some 1, 5⟩, Ctl.blocked s1) ∧
      (s1.queues 5).tq_list = [2] ∧
      sched_switch s1 = some s2 ∧ s2.curthr = some 1 ∧
      sched_cancel s2 2 = .ok s3 ∧ (s3.queues 5).tq_list = [] ∧
      sched_sleep_on_enter s3 9 1 = .ok s4 ∧
      sched_switch s4 = some s5 ∧ s5.curthr = some 2 ∧
      sched_cancellable_sleep_on_wake s5 2 = -EINTR ∧
      kmutex_lock_cancellable_wake s5 ⟨some 1, 5⟩ = .error .assertFailed :=
  ⟨_, _, _, _, _, rfl, rfl, rfl, rfl, rfl, rfl, rfl, rfl, rfl, rfl, rfl⟩


/-! ## Scheduler queues -/

theorem sleep_step_effect (q : Nat) (s : sched_state) (t : Nat) (c : Bool)
    (hw : (s.threads t).kt_wchan = none) (hc : (s.threads t).kt_cancelled ≠ 1) :
    ∃ s1, sleep_step q s t c = .ok s1 ∧
      (s1.queues q).tq_list = t :: (s.queues q).tq_list ∧
      (∀ r, r ≠ q → s1.queues r = s.queues r) ∧
      (∀ u, u ≠ t → s1.threads u = s.threads u) ∧
      (s1.threads t).kt_state =
          (if c then kt_state_t.KT_SLEEP_CANCELLABLE else kt_state_t.KT_SLEEP) ∧
      (s1.threads t).kt_wchan = some q ∧ (s1.threads t).kt_qlink = some q ∧
      (s1.threads t).kt_cancelled = (s.threads t).kt_cancelled := by
  cases c with
  | true =>
    simp [sleep_step, sched_cancellable_sleep_on_enter, ktqueue_enqueue, set_queue, set_thread,
      hw, hc]
    constructor
    · intro r hr; simp [hr]
    · intro u hu; simp [hu]
  | false =>
    simp [sleep_step, sched_sleep_on_enter, ktqueue_enqueue, set_queue, set_thread, hw]
    constructor
    · intro r hr; simp [hr]
    · intro u hu; simp [hu]

theorem sleep_seq_effect (q : Nat) (ts : List (Nat × Bool)) :
    ∀ s : sched_state, (ts.map Prod.fst).Nodup →
      (∀ t ∈ ts.map Prod.fst, (s.threads t).kt_wchan = none ∧ (s.threads t).kt_cancelled ≠ 1) →
      ∃ s1, sleep_seq q s ts = .ok s1 ∧
        (s1.queues q).tq_list = (ts.map Prod.fst).reverse ++ (s.queues q).tq_list ∧
        (∀ r, r ≠ q → s1.queues r = s.queues r) ∧
        (∀ u, u ∉ ts.map Prod.fst → s1.threads u = s.threads u) ∧
        (∀ p ∈ ts, (s1.threads p.1).kt_state =
            (if p.2 then kt_state_t.KT_SLEEP_CANCELLABLE else kt_state_t.KT_SLEEP) ∧
          (s1.threads p.1).kt_wchan = some q ∧ (s1.threads p.1).kt_qlink = some q ∧
          (s1.threads p.1).kt_cancelled = (s.threads p.1).kt_cancelled) := by
  induction ts with
  | nil => intro s _ _; exact ⟨s, rfl, by simp, fun _ _ => rfl, fun _ _ => rfl, by simp⟩
  | cons p rest ih =>
    obtain ⟨t, c⟩ := p
    intro s hnd hfree
    simp only [List.map_cons, List.nodup_cons] at hnd
    have ht := hfree t (by simp)
    obtain ⟨s1, hs1, hq1, hqo1, hto1, hst1⟩ := sleep_step_effect q s t c ht.1 ht.2
    have hfree1 : ∀ u ∈ rest.map Prod.fst,
        (s1.threads u).kt_wchan = none ∧ (s1.threads u).kt_cancelled ≠ 1 := by
      intro u hu
      have hut : u ≠ t := by rintro rfl; exact hnd.1 hu
      rw [hto1 u hut]
      exact hfree u (List.mem_cons_of_mem _ hu)
    obtain ⟨s2, hs2, hq2, hqo2, hto2, hst2⟩ := ih s1 hnd.2 hfree1
    refine ⟨s2, by simp only [sleep_seq, hs1, hs2], ?_, ?_, ?_, ?_⟩
    · rw [hq2, hq1]; simp
    · intro r hr; rw [hqo2 r hr, hqo1 r hr]
    · intro u hu
      simp only [List.map_cons, List.mem_cons, not_or] at hu
      rw [hto2 u hu.2, hto1 u hu.1]
    · intro p hp
      rcases List.mem_cons.1 hp with hp | hp
      · subst hp
        rw [hto2 t hnd.1]
        exact hst1
      · have hpt : p.1 ≠ t := by
          rintro h
          exact hnd.1 (h ▸ List.mem_map_of_mem Prod.fst hp)
        have := hst2 p hp
        rw [hto1 p.1 hpt] at this
        exact this

theorem sched_wakeup_on_effect (q : Nat) (s : sched_state) (rest : List Nat) (w : Nat)
    (hq : q ≠ kt_runq) (hl : (s.queues q).tq_list = rest ++ [w])
    (hw : (s.threads w).kt_state = kt_state_t.KT_SLEEP ∨
      (s.threads w).kt_state = kt_state_t.KT_SLEEP_CANCELLABLE) :
    ∃ s1, sched_wakeup_on s q = .ok (some w, s1) ∧
      (s1.queues q).tq_list = rest ∧
      (s1.queues kt_runq).tq_list = w :: (s.queues kt_runq).tq_list ∧
      (∀ r, r ≠ q → r ≠ kt_runq → s1.queues r = s.queues r) ∧
      (∀ u, u ≠ w → s1.threads u = s.threads u) ∧
      (s1.threads w).kt_state = kt_state_t.KT_RUN ∧
      (s1.threads w).kt_wchan = some kt_runq := by
  have hq' : kt_runq ≠ q := fun h => hq h.symm
  simp [sched_wakeup_on, ktqueue_dequeue, hl, set_queue, set_thread, sched_make_runnable,
    ktqueue_enqueue, hw, hq, hq']
  constructor
  · intro r h1 h2; simp [h1, h2]
  · intro u hu; simp [hu]

theorem wakeup_seq_effect (q : Nat) (hq : q ≠ kt_runq) (ts : List Nat) :
    ∀ s : sched_state, ts.Nodup → (s.queues q).tq_list = ts.reverse →
      (∀ t ∈ ts, (s.threads t).kt_state = kt_state_t.KT_SLEEP ∨
        (s.threads t).kt_state = kt_state_t.KT_SLEEP_CANCELLABLE) →
      ∃ s2, wakeup_seq q s ts.length = .ok (ts.map some, s2) ∧ (s2.queues q).tq_list = [] := by
  induction ts with
  | nil => intro s _ hl _; exact ⟨s, rfl, by simpa using hl⟩
  | cons t rest ih =>
    intro s hnd hl hsl
    rw [List.nodup_cons] at hnd
    rw [List.reverse_cons] at hl
    obtain ⟨s1, hs1, hq1, -, -, hto1, -⟩ :=
      sched_wakeup_on_effect q s rest.reverse t hq hl (hsl t (List.mem_cons_self _ _))
    have hsl1 : ∀ u ∈ rest, (s1.threads u).kt_state = kt_state_t.KT_SLEEP ∨
        (s1.threads u).kt_state = kt_state_t.KT_SLEEP_CANCELLABLE := by
      intro u hu
      have hut : u ≠ t := by rintro rfl; exact hnd.1 hu
      rw [hto1 u hut]
      exact hsl u (List.mem_cons_of_mem _ hu)
    obtain ⟨s2, hs2, hq2⟩ := ih s1 hnd.2 hq1 hsl1
    exact ⟨s2, by simp only [wakeup_seq, List.length_cons, hs1, hs2, List.map_cons], hq2⟩

theorem sched_cancel_effect (q : Nat) (s : sched_state) (t : Nat) (hq : q ≠ kt_runq)
    (hst : (s.threads t).kt_state = kt_state_t.KT_SLEEP_CANCELLABLE)
    (hw : (s.threads t).kt_wchan = some q) (hl : (s.threads t).kt_qlink = some q) :
    ∃ s1, sched_cancel s t = .ok s1 ∧
      (s1.queues q).tq_list = (s.queues q).tq_list.erase t ∧
      (∀ u, u ≠ t → s1.threads u = s.threads u) ∧
      (s1.threads t).kt_cancelled = 1 ∧
      (s1.queues kt_runq).tq_list = t :: (s.queues kt_runq).tq_list := by
  have hq' : kt_runq ≠ q := fun h => hq h.symm
  simp [sched_cancel, hst, ktqueue_remove, set_thread, set_queue, hw, hl, sched_make_runnable,
    ktqueue_enqueue, hq, hq']
  intro u hu; simp [hu]

theorem erase_reverse_of_nodup (l : List Nat) (t : Nat) (h : l.Nodup) :
    l.reverse.erase t = (l.erase t).reverse := by
  rw [List.Nodup.erase_eq_filter (List.nodup_reverse.2 h), List.Nodup.erase_eq_filter h,
    List.filter_reverse]

theorem sched_make_runnable_effect (s : sched_state) (t : Nat)
    (hw : (s.threads t).kt_wchan = none) :
    ∃ s1, sched_make_runnable s t = .ok s1 ∧
      (s1.queues kt_runq).tq_list = t :: (s.queues kt_runq).tq_list ∧
      (∀ u, u ≠ t → s1.threads u = s.threads u) := by
  simp [sched_make_runnable, ktqueue_enqueue, set_thread, set_queue, hw]
  intro u hu; simp [hu]

theorem runnable_seq_effect (ts : List Nat) :
    ∀ s : sched_state, ts.Nodup → (∀ t ∈ ts, (s.threads t).kt_wchan = none) →
      ∃ s1, runnable_seq s ts = .ok s1 ∧
        (s1.queues kt_runq).tq_list = ts.reverse ++ (s.queues kt_runq).tq_list := by
  induction ts with
  | nil => intro s _ _; exact ⟨s, rfl, by simp⟩
  | cons t rest ih =>
    intro s hnd hfree
    rw [List.nodup_cons] at hnd
    obtain ⟨s1, hs1, hq1, hto1⟩ := sched_make_runnable_effect s t (hfree t (List.mem_cons_self _ _))
    have hfree1 : ∀ u ∈ rest, (s1.threads u).kt_wchan = none := by
      intro u hu
      have hut : u ≠ t := by rintro rfl; exact hnd.1 hu
      rw [hto1 u hut]
      exact hfree u (List.mem_cons_of_mem _ hu)
    obtain ⟨s2, hs2, hq2⟩ := ih s1 hnd.2 hfree1
    exact ⟨s2, by simp only [runnable_seq, hs1, hs2], by rw [hq2, hq1]; simp⟩

theorem sched_switch_effect (s : sched_state) (rest : List Nat) (w : Nat)
    (hl : (s.queues kt_runq).tq_list = rest ++ [w]) :
    ∃ s1, sched_switch s = some s1 ∧ s1.curthr = some w ∧
      (s1.queues kt_runq).tq_list = rest := by
  simp [sched_switch, sched_queue_empty, ktqueue_dequeue, hl, set_queue, set_thread]

theorem switch_seq_effect (ts : List Nat) :
    ∀ s : sched_state, (s.queues kt_runq).tq_list = ts.reverse →
      ∃ s2, switch_seq s ts.length = some (ts.map some, s2) ∧
        (s2.queues kt_runq).tq_list = [] := by
  induction ts with
  | nil => intro s hl; exact ⟨s, rfl, by simpa using hl⟩
  | cons t rest ih =>
    intro s hl
    rw [List.reverse_cons] at hl
    obtain ⟨s1, hs1, hc1, hq1⟩ := sched_switch_effect s rest.reverse t hl
    obtain ⟨s2, hs2, hq2⟩ := ih s1 hq1
    exact ⟨s2, by simp only [switch_seq, List.length_cons, hs1, hs2, hc1, List.map_cons], hq2⟩

/-- Claim C10. Wait queues and the run queue are first-in first-out. For a wait queue
`q` that is empty and distinct threads `t1 … tn` that are on no queue and not cancelled,
going to sleep on `q` in that order (each by `sched_sleep_on` or, where its flag says so,
by `sched_cancellable_sleep_on`): `n` successive `sched_wakeup_on(q)` return `t1, …, tn`
in that order and a further one returns null; and after `sched_cancel` of one cancellable
sleeper the successive wake-ups return the other threads in their unchanged order. For
the empty run queue and distinct threads made runnable by `sched_make_runnable` in some
order, successive `sched_switch` calls make them the current thread in that order, and the
run queue is empty afterwards. -/
theorem queues_are_fifo (s : sched_state) (q : Nat) (ts : List (Nat × Bool)) (rs : List Nat)
    (hq : q ≠ kt_runq)
    (hempty : (s.queues q).tq_list = []) (hrunq : (s.queues kt_runq).tq_list = [])
    (hnd : (ts.map Prod.fst).Nodup)
    (hfree : ∀ t ∈ ts.map Prod.fst,
      (s.threads t).kt_wchan = none ∧ (s.threads t).kt_cancelled ≠ 1)
    (hnd2 : rs.Nodup) (hfree2 : ∀ t ∈ rs, (s.threads t).kt_wchan = none) :
    (∃ s1, sleep_seq q s ts = .ok s1 ∧
      (∃ s2, wakeup_seq q s1 ts.length = .ok ((ts.map Prod.fst).map some, s2) ∧
        sched_wakeup_on s2 q = .ok (none, s2)) ∧
      (∀ t, (t, true) ∈ ts → ∃ s3, sched_cancel s1 t = .ok s3 ∧
        ∃ s4, wakeup_seq q s3 (ts.length - 1) =
            .ok (((ts.map Prod.fst).erase t).map some, s4) ∧
          sched_wakeup_on s4 q = .ok (none, s4))) ∧
    (∃ r1, runnable_seq s rs = .ok r1 ∧
      ∃ r2, switch_seq r1 rs.length = some (rs.map some, r2) ∧ sched_switch r2 = none) := by
  constructor
  · obtain ⟨s1, hs1, hq1, -, -, hst1⟩ := sleep_seq_effect q ts s hnd hfree
    rw [hempty, List.append_nil] at hq1
    have hsleep : ∀ t ∈ ts.map Prod.fst, (s1.threads t).kt_state = kt_state_t.KT_SLEEP ∨
        (s1.threads t).kt_state = kt_state_t.KT_SLEEP_CANCELLABLE := by
      intro t ht
      obtain ⟨p, hp, rfl⟩ := List.mem_map.1 ht
      have := (hst1 p hp).1
      cases hc : p.2 <;> simp [hc] at this <;> simp [this]
    refine ⟨s1, hs1, ?_, ?_⟩
    · obtain ⟨s2, hs2, hq2⟩ := wakeup_seq_effect q hq (ts.map Prod.fst) s1 hnd hq1 hsleep
      rw [List.length_map] at hs2
      exact ⟨s2, hs2, by simp [sched_wakeup_on, ktqueue_dequeue, hq2]⟩
    · intro t ht
      have hst := hst1 (t, true) ht
      simp only [if_true] at hst
      have htm : t ∈ ts.map Prod.fst := List.mem_map.2 ⟨(t, true), ht, rfl⟩
      obtain ⟨s3, hs3, hq3, hto3, -, -⟩ := sched_cancel_effect q s1 t hq hst.1 hst.2.1 hst.2.2.1
      rw [hq1, erase_reverse_of_nodup _ _ hnd] at hq3
      have hsleep3 : ∀ u ∈ (ts.map Prod.fst).erase t,
          (s3.threads u).kt_state = kt_state_t.KT_SLEEP ∨
          (s3.threads u).kt_state = kt_state_t.KT_SLEEP_CANCELLABLE := by
        intro u hu
        have hut : u ≠ t := fun h => (List.Nodup.mem_erase_iff hnd).1 hu |>.1 h
        rw [hto3 u hut]
        exact hsleep u (List.mem_of_mem_erase hu)
      obtain ⟨s4, hs4, hq4⟩ := wakeup_seq_effect q hq ((ts.map Prod.fst).erase t) s3
        (List.Nodup.erase _ hnd) hq3 hsleep3
      rw [List.length_erase_of_mem htm, List.length_map] at hs4
      exact ⟨s3, hs3, s4, hs4, by simp [sched_wakeup_on, ktqueue_dequeue, hq4]⟩
  · obtain ⟨r1, hr1, hl1⟩ := runnable_seq_effect rs s hnd2 hfree2
    rw [hrunq, List.append_nil] at hl1
    obtain ⟨r2, hr2, hl2⟩ := switch_seq_effect rs r1 hl1
    exact ⟨r1, hr1, r2, hr2, by simp [sched_switch, sched_queue_empty, hl2]⟩

/-- Witness for C10: threads 1, 2 (cancellable), 3 sleep on queue 5; threads 4, 5 are made
runnable. -/
theorem queues_are_fifo_witness :
    (∃ s1, sleep_seq 5 idle_state [(1, false), (2, true), (3, false)] = .ok s1 ∧
      (∃ s2, wakeup_seq 5 s1 3 = .ok ([some 1, some 2, some 3], s2) ∧
        sched_wakeup_on s2 5 = .ok (none, s2)) ∧
      (∀ t, (t, true) ∈ [(1, false), (2, true), (3, false)] →
        ∃ s3, sched_cancel s1 t = .ok s3 ∧
        ∃ s4, wakeup_seq 5 s3 (3 - 1) = .ok (([1, 2, 3].erase t).map some, s4) ∧
          sched_wakeup_on s4 5 = .ok (none, s4))) ∧
    (∃ r1, runnable_seq idle_state [4, 5] = .ok r1 ∧
      ∃ r2, switch_seq r1 2 = some ([some 4, some 5], r2) ∧ sched_switch r2 = none) :=
  queues_are_fifo idle_state 5 [(1, false), (2, true), (3, false)] [4, 5]
    (by decide) rfl rfl (by decide) (by decide) (by decide) (by decide)

/-! ## Copy-on-write after fork -/

theorem Src.resident {h : vm_heap} {N pn B o m k : Nat} (hs : Src h N pn B o m k) :
    ∃ pf, pframe_get_resident h k pn = some pf := by
  induction hs with
  | hit o nxt x pf _ _ _ h3 _ _ _ h7 => exact ⟨pf, by simp [pframe_get_resident, h3, h7]⟩
  | bot x pf _ h2 _ _ h5 => exact ⟨pf, by simp [pframe_get_resident, h2, h5]⟩
  | step o nxt m k x _ _ _ _ _ _ _ _ ih => exact ih

theorem Miss.bottom_obj {h : vm_heap} {N pn B o n : Nat} (hm : Miss h N pn B o n) :
    B < N ∧ ∃ x, h.objs B = some x ∧ x.mmo_ops ≠ .shadow ∧ x.mmo_shadowed = none := by
  induction hm with
  | bottom x h1 h2 h3 h4 => exact ⟨h1, x, h2, h3, h4⟩
  | step o nxt n x _ _ _ _ _ _ _ _ ih => exact ih

theorem fork_shadows_spec (h1 : vm_heap) (X : Nat) (x1 : mmobj_t)
    (hX : h1.objs X = some x1) (hlt : X < h1.next)
    (hbelow : ∀ a, h1.next ≤ a → h1.objs a = none) :
    ∃ h5, fork_shadows h1 X = .ok (h1.next, h1.next + 1, h5) ∧
      h5.next = h1.next + 2 ∧ h5.fill = h1.fill ∧ h5.uninit = h1.uninit ∧
      (∀ a, a < h1.next → h5.objs a = h1.objs a) ∧
      (∀ a, h1.next + 2 ≤ a → h5.objs a = none) ∧
      fresh_shadow h5 X h1.next ∧ fresh_shadow h5 X (h1.next + 1) := by
  have hne : X ≠ h1.next := by omega
  have hne1 : X ≠ h1.next + 1 := by omega
  have hb : mmobj_bottom_obj (shadow_create h1).2 X =
      .ok (match x1.mmo_shadowed with
        | none => some X
        | some _ => x1.mmo_bottom_obj) := by
    simp only [mmobj_bottom_obj, shadow_create, set_obj, hne, if_false, hX]
    cases x1.mmo_shadowed <;> rfl
  simp only [fork_shadows, hb]
  refine ⟨_, rfl, rfl, rfl, rfl, ?_, ?_, ?_, ?_⟩
  · intro a ha
    have h1' : a ≠ h1.next := by omega
    have h2' : a ≠ h1.next + 1 := by omega
    simp [shadow_create, set_obj, h1', h2']
  · intro a ha
    have h1' : a ≠ h1.next := by omega
    have h2' : a ≠ h1.next + 1 := by omega
    simp [shadow_create, set_obj, h1', h2']
    exact hbelow a (by omega)
  · refine ⟨_, by simp [shadow_create, set_obj]; rfl, rfl, rfl, rfl, fun _ => rfl, ?_⟩
    intro x hx
    simp [shadow_create, set_obj, hne, hne1, hX] at hx
    subst hx
    rfl
  · refine ⟨_, by simp [shadow_create, set_obj]; rfl, rfl, rfl, rfl, fun _ => rfl, ?_⟩
    intro x hx
    simp [shadow_create, set_obj, hne, hne1, hX] at hx
    subst hx
    rfl

theorem fresh_shadow_keeps {h g : vm_heap} {N0 X s : Nat} (hf : fresh_shadow h X s)
    (hX : X < N0) (hs : g.objs s = h.objs s)
    (hk : ∀ a, a < N0 → keeps_obj (h.objs a) (g.objs a))
    (hex : ∃ x, h.objs X = some x) : fresh_shadow g X s := by
  obtain ⟨xs, h1, h2, h3, h4, h5, h6⟩ := hf
  obtain ⟨x, hx⟩ := hex
  obtain ⟨y, hy, _, e2, e3, _⟩ := hk X hX x hx
  refine ⟨xs, hs.trans h1, h2, h3, h4, h5, ?_⟩
  intro x' hx'
  rw [hy] at hx'
  cases hx'
  rw [h6 x hx, e2, e3]

/-- The loop of `do_fork` returns; it leaves every object that existed as it was up to its
reference count, allocates only fresh objects, keeps the ranges of the areas, and gives
the parent and the child of every `MAP_PRIVATE` area two distinct fresh shadow objects over
the object the parent's area had. -/
theorem do_fork_loop_spec (N0 : Nat) : ∀ (ps cs : List vmarea_t) (h : vm_heap),
    cs.length = ps.length → N0 ≤ h.next → (∀ a, h.next ≤ a → h.objs a = none) →
    (∀ v ∈ ps, v.vma_obj < N0 ∧ ∃ x, h.objs v.vma_obj = some x ∧ 0 < x.mmo_refcount) →
    ∃ h' ps' cs', do_fork_loop h ps cs = .ok (h', ps', cs') ∧
      h.next ≤ h'.next ∧ (∀ a, h'.next ≤ a → h'.objs a = none) ∧
      h'.fill = h.fill ∧ h'.uninit = h.uninit ∧
      (∀ a, a < N0 → keeps_obj (h.objs a) (h'.objs a)) ∧
      (∀ a, N0 ≤ a → a < h.next → h'.objs a = h.objs a) ∧
      (∀ vfn, vmmap_lookup_idx vfn ps' = vmmap_lookup_idx vfn ps) ∧
      (∀ vfn, vmmap_lookup_idx vfn cs' = vmmap_lookup_idx vfn cs) ∧
      ∀ (i : Nat) (vp vc : vmarea_t), ps[i]? = some vp → cs[i]? = some vc →
        vp.vma_flags &&& MAP_TYPE = MAP_PRIVATE →
        ∃ P C, ps'[i]? = some { vp with vma_obj := P } ∧
          cs'[i]? = some { vc with vma_obj := C } ∧
          h.next ≤ P ∧ h.next ≤ C ∧ P < h'.next ∧ C < h'.next ∧ P ≠ C ∧
          fresh_shadow h' vp.vma_obj P ∧ fresh_shadow h' vp.vma_obj C := by
  intro ps
  induction ps with
  | nil =>
    intro cs h hlen hN hbelow hobj
    have : cs = [] := List.length_eq_zero.1 hlen
    subst this
    exact ⟨h, [], [], rfl, le_refl _, hbelow, rfl, rfl, fun a _ x hx => ⟨x, hx, rfl, rfl, rfl, rfl⟩,
      fun _ _ _ => rfl, fun _ => rfl, fun _ => rfl, by simp⟩
  | cons vp0 ps0 ih =>
    intro cs h hlen hN hbelow hobj
    cases cs with
    | nil => simp at hlen
    | cons vc0 cs0 =>
      simp only [List.length_cons, add_left_inj] at hlen
      obtain ⟨hXlt, x, hX, hpos⟩ := hobj vp0 (List.mem_cons_self _ _)
      -- the heap after the reference was taken
      have href : mmobj_ref h vp0.vma_obj = .ok (set_obj h vp0.vma_obj
          (some { x with mmo_refcount := x.mmo_refcount + 1 })) := by
        simp [mmobj_ref, hX, hpos]
      have h1next : (set_obj h vp0.vma_obj
          (some { x with mmo_refcount := x.mmo_refcount + 1 })).next = h.next := rfl
      have h1fill : (set_obj h vp0.vma_obj
          (some { x with mmo_refcount := x.mmo_refcount + 1 })).fill = h.fill := rfl
      have h1un : (set_obj h vp0.vma_obj
          (some { x with mmo_refcount := x.mmo_refcount + 1 })).uninit = h.uninit := rfl
      have h1keep : ∀ a, keeps_obj (h.objs a) ((set_obj h vp0.vma_obj
          (some { x with mmo_refcount := x.mmo_refcount + 1 })).objs a) := by
        intro a y hy
        by_cases ha : a = vp0.vma_obj
        · subst ha
          rw [hX] at hy
          cases hy
          exact ⟨{ x with mmo_refcount := x.mmo_refcount + 1 }, by simp [set_obj],
            rfl, rfl, rfl, rfl⟩
        · exact ⟨y, by simp [set_obj, ha, hy], rfl, rfl, rfl, rfl⟩
      have h1below : ∀ a, h.next ≤ a → (set_obj h vp0.vma_obj
          (some { x with mmo_refcount := x.mmo_refcount + 1 })).objs a = none := by
        intro a ha
        have : a ≠ vp0.vma_obj := by omega
        simp [set_obj, this, hbelow a ha]
      have h1new : ∀ a, N0 ≤ a → (set_obj h vp0.vma_obj
          (some { x with mmo_refcount := x.mmo_refcount + 1 })).objs a = h.objs a := by
        intro a ha
        have : a ≠ vp0.vma_obj := by omega
        simp [set_obj, this]
      have h1obj : ∀ v ∈ ps0, v.vma_obj < N0 ∧ ∃ y, (set_obj h vp0.vma_obj
          (some { x with mmo_refcount := x.mmo_refcount + 1 })).objs v.vma_obj = some y ∧
          0 < y.mmo_refcount := by
        intro v hv
        obtain ⟨hvlt, y, hy, hypos⟩ := hobj v (List.mem_cons_of_mem _ hv)
        refine ⟨hvlt, ?_⟩
        by_cases ha : v.vma_obj = vp0.vma_obj
        · rw [ha]
          exact ⟨{ x with mmo_refcount := x.mmo_refcount + 1 }, by simp [set_obj],
            by simp; omega⟩
        · exact ⟨y, by simp [set_obj, ha, hy], hypos⟩
      generalize hh1 : set_obj h vp0.vma_obj
          (some { x with mmo_refcount := x.mmo_refcount + 1 }) = h1 at *
      have hX1 : ∃ x1, h1.objs vp0.vma_obj = some x1 := by
        obtain ⟨y, hy, _⟩ := h1keep vp0.vma_obj x hX
        exact ⟨y, hy⟩
      by_cases hpriv : vp0.vma_flags &&& MAP_TYPE = MAP_PRIVATE
      · obtain ⟨x1, hx1⟩ := hX1
        obtain ⟨h5, hfs, h5next, h5fill, h5un, h5old, h5below, hfc, hfp⟩ :=
          fork_shadows_spec h1 vp0.vma_obj x1 hx1 (by omega) (by rw [h1next]; exact h1below)
        have h5obj : ∀ v ∈ ps0, v.vma_obj < N0 ∧
            ∃ y, h5.objs v.vma_obj = some y ∧ 0 < y.mmo_refcount := by
          intro v hv
          obtain ⟨hvlt, y, hy, hypos⟩ := h1obj v hv
          exact ⟨hvlt, y, by rw [h5old _ (by omega), hy], hypos⟩
        obtain ⟨h', ps', cs', hloop, e1, e2, e3, e4, e5, e6, e7, e8, e9⟩ :=
          ih cs0 h5 hlen (by omega) (by intro a ha; exact h5below a (by omega)) h5obj
        refine ⟨h', { vp0 with vma_obj := h1.next + 1 } :: ps',
          { vc0 with vma_obj := h1.next } :: cs',
          by simp only [do_fork_loop, href, hpriv, if_true, hfs, hloop],
          by omega, e2, by rw [e3, h5fill, h1fill], by rw [e4, h5un, h1un], ?_, ?_, ?_, ?_, ?_⟩
        · intro a ha y hy
          obtain ⟨y1, hy1, a1, a2, a3, a4⟩ := h1keep a y hy
          obtain ⟨y2, hy2, b1, b2, b3, b4⟩ := e5 a ha y1 (by rw [h5old a (by omega), hy1])
          exact ⟨y2, hy2, b1.trans a1, b2.trans a2, b3.trans a3, b4.trans a4⟩
        · intro a ha1 ha2
          rw [e6 a ha1 (by omega), h5old a (by omega), h1new a ha1]
        · intro vfn
          simp only [vmmap_lookup_idx, e7]
        · intro vfn
          simp only [vmmap_lookup_idx, e8]
        · intro i vp vc hpi hci hpr
          cases i with
          | zero =>
            simp only [List.getElem?_cons_zero, Option.some.injEq] at hpi hci
            subst hpi; subst hci
            refine ⟨h1.next + 1, h1.next, by simp, by simp, by omega, by omega, by omega,
              by omega, by omega, ?_, ?_⟩
            · exact fresh_shadow_keeps hfp hXlt (e6 _ (by omega) (by omega)) e5
                ⟨x1, by rw [h5old _ (by omega), hx1]⟩
            · exact fresh_shadow_keeps hfc hXlt (e6 _ (by omega) (by omega)) e5
                ⟨x1, by rw [h5old _ (by omega), hx1]⟩
          | succ j =>
            simp only [List.getElem?_cons_succ] at hpi hci
            obtain ⟨P, C, f1, f2, f3, f4, f5, f6, f7, f8, f9⟩ := e9 j vp vc hpi hci hpr
            exact ⟨P, C, by simpa using f1, by simpa using f2, by omega, by omega, f5, f6, f7,
              f8, f9⟩
      · obtain ⟨h', ps', cs', hloop, e1, e2, e3, e4, e5, e6, e7, e8, e9⟩ :=
          ih cs0 h1 hlen (by omega) (by rw [h1next]; exact h1below) h1obj
        refine ⟨h', vp0 :: ps', { vc0 with vma_obj := vp0.vma_obj } :: cs',
          by simp only [do_fork_loop, href, hpriv, if_false, hloop],
          by omega, e2, by rw [e3, h1fill], by rw [e4, h1un], ?_, ?_, ?_, ?_, ?_⟩
        · intro a ha y hy
          obtain ⟨y1, hy1, a1, a2, a3, a4⟩ := h1keep a y hy
          obtain ⟨y2, hy2, b1, b2, b3, b4⟩ := e5 a ha y1 hy1
          exact ⟨y2, hy2, b1.trans a1, b2.trans a2, b3.trans a3, b4.trans a4⟩
        · intro a ha1 ha2
          rw [e6 a ha1 (by omega), h1new a ha1]
        · intro vfn
          simp only [vmmap_lookup_idx, e7]
        · intro vfn
          simp only [vmmap_lookup_idx, e8]
        · intro i vp vc hpi hci hpr
          cases i with
          | zero =>
            simp only [List.getElem?_cons_zero, Option.some.injEq] at hpi
            subst hpi
            exact absurd hpr hpriv
          | succ j =>
            simp only [List.getElem?_cons_succ] at hpi hci
            obtain ⟨P, C, f1, f2, f3, f4, f5, f6, f7, f8, f9⟩ := e9 j vp vc hpi hci hpr
            exact ⟨P, C, by simpa using f1, by simpa using f2, by omega, by omega, f5, f6, f7,
              f8, f9⟩

theorem vmmap_insert_loop_append (newvma : vmarea_t) (acc : List vmarea_t)
    (h : ∀ a ∈ acc, a.vma_start < newvma.vma_end) :
    vmmap_insert_loop newvma acc = acc ++ [newvma] := by
  induction acc with
  | nil => rfl
  | cons a rest ih =>
    have ha := h a (List.mem_cons_self _ _)
    simp only [vmmap_insert_loop, ge_iff_le, not_le.2 ha, if_false, List.cons_append]
    rw [ih (fun b hb => h b (List.mem_cons_of_mem _ hb))]

theorem vmmap_clone_loop_chain (m : Nat) : ∀ (rest acc : List vmarea_t),
    vmmap_chain rest → (∀ a ∈ acc, ∀ v ∈ rest, a.vma_start < v.vma_end) →
    vmmap_clone_loop ⟨m, acc⟩ rest = .ok ⟨m, acc ++ rest.map (clone_area m)⟩ := by
  intro rest
  induction rest with
  | nil => intro acc _ _; simp [vmmap_clone_loop]
  | cons v r ih =>
    intro acc hc hacc
    obtain ⟨hpw, hval⟩ := hc
    have hv := hval v (List.mem_cons_self _ _)
    have hins : vmmap_insert ⟨m, acc⟩
        { vma_start := v.vma_start, vma_end := v.vma_end, vma_off := v.vma_off,
          vma_prot := v.vma_prot, vma_flags := v.vma_flags, vma_obj := 0, vma_vmmap := none }
        = .ok ⟨m, acc ++ [clone_area m v]⟩ := by
      simp only [vmmap_insert, ne_eq, not_true_eq_false, if_false, hv.1, hv.2.1, hv.2.2,
        ge_iff_le, and_self, not_false_eq_true]
      have := vmmap_insert_loop_append (clone_area m v) acc
        (fun a ha => hacc a ha v (List.mem_cons_self _ _))
      simp only [clone_area] at this ⊢
      rw [this]
    simp only [vmmap_clone_loop, hins]
    rw [ih (acc ++ [clone_area m v]) ⟨(List.pairwise_cons.1 hpw).2,
      fun w hw => hval w (List.mem_cons_of_mem _ hw)⟩ ?_]
    · simp
    · intro a ha w hw
      have hw' := hval w (List.mem_cons_of_mem _ hw)
      rcases List.mem_append.1 ha with ha | ha
      · exact hacc a ha w (List.mem_cons_of_mem _ hw)
      · simp only [List.mem_singleton] at ha
        subst ha
        have := (List.pairwise_cons.1 hpw).1 w hw
        simp only [clone_area]
        omega

/-- On an address space that satisfies the ordering invariant `vmmap_clone` returns the
twins of the areas in the same order. -/
theorem vmmap_clone_ordered (map : vmmap_t) (m : Nat) (hord : vmmap_ordered map.vmm_list) :
    vmmap_clone map m = .ok ⟨m, map.vmm_list.map (clone_area m)⟩ := by
  have := vmmap_clone_loop_chain m map.vmm_list [] ((vmmap_ordered_iff_chain _).1 hord)
    (by simp)
  simpa [vmmap_clone] using this

theorem waitpid_first_dead_spec (w : proc_world) :
    ∀ l : List Nat, (∀ a ∈ l, ∃ c, w.procs a = some c) →
      (∃ d ∈ l, ∃ c, w.procs d = some c ∧ c.p_state = proc_state_t.PROC_DEAD) →
      ∃ a ∈ l, ∃ c, w.procs a = some c ∧ c.p_state = proc_state_t.PROC_DEAD ∧
        waitpid_first_dead w l = .ok (some a) := by
  intro l
  induction l with
  | nil => rintro _ ⟨d, hd, _⟩; simp at hd
  | cons a rest ih =>
    intro hall hex
    obtain ⟨c, hc⟩ := hall a (List.mem_cons_self _ _)
    by_cases hdead : c.p_state = proc_state_t.PROC_DEAD
    · exact ⟨a, List.mem_cons_self _ _, c, hc, hdead, by simp [waitpid_first_dead, hc, hdead]⟩
    · have hex1 : ∃ d ∈ rest, ∃ c, w.procs d = some c ∧ c.p_state = proc_state_t.PROC_DEAD := by
        obtain ⟨d, hd, cd, hcd, hdd⟩ := hex
        rcases List.mem_cons.1 hd with rfl | hd1
        · rw [hc] at hcd
          cases hcd
          exact absurd hdd hdead
        · exact ⟨d, hd1, cd, hcd, hdd⟩
      obtain ⟨b, hb, cb, hcb, hbd, hres⟩ :=
        ih (fun x hx => hall x (List.mem_cons_of_mem _ hx)) hex1
      exact ⟨b, List.mem_cons_of_mem _ hb, cb, hcb, hbd,
        by simp [waitpid_first_dead, hc, hdead, hres]⟩

theorem waitpid_find_pid_none (w : proc_world) (pid : Int) :
    ∀ l : List Nat, (∀ a ∈ l, ∃ c, w.procs a = some c ∧ c.p_pid ≠ pid) →
      waitpid_find_pid w pid l = .ok none := by
  intro l
  induction l with
  | nil => intro _; rfl
  | cons a rest ih =>
    intro hall
    obtain ⟨c, hc, hne⟩ := hall a (List.mem_cons_self _ _)
    simp [waitpid_find_pid, hc, hne, ih (fun x hx => hall x (List.mem_cons_of_mem _ hx))]

theorem waitpid_find_pid_spec (w : proc_world) (d : Nat) (cd : proc_t) (hcd : w.procs d = some cd) :
    ∀ l : List Nat, (∀ a ∈ l, ∃ c, w.procs a = some c ∧ (c.p_pid = cd.p_pid → a = d)) →
      d ∈ l → waitpid_find_pid w cd.p_pid l = .ok (some d) := by
  intro l
  induction l with
  | nil => intro _ hd; simp at hd
  | cons a rest ih =>
    intro hall hd
    obtain ⟨c, hc, hinj⟩ := hall a (List.mem_cons_self _ _)
    by_cases hpid : c.p_pid = cd.p_pid
    · have := hinj hpid
      subst this
      simp [waitpid_find_pid, hc, hpid]
    · have hd1 : d ∈ rest := by
        rcases List.mem_cons.1 hd with rfl | h
        · rw [hcd] at hc
          cases hc
          exact absurd rfl hpid
        · exact h
      simp [waitpid_find_pid, hc, hpid, ih (fun x hx => hall x (List.mem_cons_of_mem _ hx)) hd1]

theorem waitpid_dispose_spec (w : proc_world) (cur a : Nat) (p c : proc_t) (pid : Int)
    (status : Bool) (pagedir t stack : Nat)
    (hp : w.procs cur = some p) (hc : w.procs a = some c) (hne : a ≠ cur)
    (hpid : pid = -1 ∨ c.p_pid = pid) (hpd : c.p_pagedir = some pagedir)
    (ht : c.p_threads.head? = some t) (hst : w.kt_kstack t = some stack)
    (hnd : p.p_children.Nodup) (hnd2 : w.proc_list.Nodup) :
    ∃ w1, waitpid_dispose w cur a pid status =
        .ok (WaitOut.returned c.p_pid (if status then some c.p_status else none) w1) ∧
      waitpid_reaped w w1 cur a p := by
  have hpid1 : (-1 = pid ∨ c.p_pid = pid) := by
    rcases hpid with h | h
    · exact Or.inl h.symm
    · exact Or.inr h
  have hmem : t ∈ c.p_threads := by
    cases hl : c.p_threads with
    | nil => simp [hl] at ht
    | cons x xs =>
      simp [hl] at ht
      simp [ht]
  have hcur1 : cur ≠ a := fun h => hne h.symm
  simp only [waitpid_dispose, hc, hpid1, not_true_eq_false, if_false, hpd, ht, kthread_destroy,
    hst, hmem, if_true, set_proc, hp, hcur1]
  refine ⟨_, rfl, ?_⟩
  refine ⟨by simp, rfl, ?_, by simp [hcur1, hp],
    fun h => (List.Nodup.mem_erase_iff hnd).1 h |>.1 rfl, ?_, rfl, rfl, rfl⟩
  · exact fun h => (List.Nodup.mem_erase_iff hnd2).1 h |>.1 rfl
  · intro b hb hbc
    simp [hb, hbc]

theorem do_waitpid_after_reap (w w1 : proc_world) (cur a : Nat) (p c : proc_t)
    (hcur : w.sched.curproc = some cur) (hc : w.procs a = some c) (ha : a ∈ p.p_children)
    (hall : ∀ b ∈ p.p_children, ∃ cb, w.procs b = some cb)
    (hself : cur ∉ p.p_children) (hnd : p.p_children.Nodup)
    (hpids : ∀ x ∈ p.p_children, ∀ y ∈ p.p_children, ∀ cx cy, w.procs x = some cx →
      w.procs y = some cy → cx.p_pid = cy.p_pid → x = y)
    (hr : waitpid_reaped w w1 cur a p) (hpos : 0 < c.p_pid) (st : Bool) :
    do_waitpid w1 c.p_pid 0 st = .ok (WaitOut.returned (-ECHILD) none w1) := by
  obtain ⟨_, _, _, hcur1, _, hkeep, hs, _, _⟩ := hr
  have hne : c.p_pid ≠ -1 := by omega
  have hfind : waitpid_find_pid w1 c.p_pid (p.p_children.erase a) = .ok none := by
    apply waitpid_find_pid_none
    intro b hb
    obtain ⟨hba, hbm⟩ := (List.Nodup.mem_erase_iff hnd).1 hb
    obtain ⟨cb, hcb⟩ := hall b hbm
    have hbc : b ≠ cur := fun h => hself (h ▸ hbm)
    refine ⟨cb, by rw [hkeep b hba hbc, hcb], ?_⟩
    intro hpid
    exact hba (hpids b hbm a ha cb c hcb hc hpid)
  simp only [do_waitpid, ne_eq, not_true_eq_false, if_false, hne, hpos, if_true, hs, hcur, hcur1,
    hfind]
  split_ifs <;> rfl

/-- Claim C11. The current process, at `cur`, has well-formed child and process lists, its
children have pairwise distinct pids, and every dead child is a zombie as `proc_cleanup`
leaves it (page directory and exited thread still there); one child, at `d`, is dead.
Then `do_waitpid(-1, 0, status)` returns, without sleeping, the pid of a dead child and
stores that child's exit status when `status` is not null; exactly that child is freed
and removed from the caller's child list and from `_proc_list`, every other process
object is untouched; and a later `do_waitpid` on the reaped pid returns `-ECHILD`. The
same holds for `do_waitpid(pid, 0, status)` with `pid > 0` the pid of the dead child at
`d`, which reaps that child. -/
theorem do_waitpid_reaps_dead_child (w : proc_world) (cur : Nat) (p : proc_t) (status : Bool)
    (d : Nat) (cd : proc_t)
    (hcur : w.sched.curproc = some cur) (hp : w.procs cur = some p)
    (hall : ∀ b ∈ p.p_children, ∃ cb, w.procs b = some cb)
    (hself : cur ∉ p.p_children) (hnd : p.p_children.Nodup) (hnd2 : w.proc_list.Nodup)
    (hpids : ∀ x ∈ p.p_children, ∀ y ∈ p.p_children, ∀ cx cy, w.procs x = some cx →
      w.procs y = some cy → cx.p_pid = cy.p_pid → x = y)
    (hzombie : ∀ a ∈ p.p_children, ∀ c, w.procs a = some c →
      c.p_state = proc_state_t.PROC_DEAD →
      (∃ pd, c.p_pagedir = some pd) ∧
      ∃ t stack, c.p_threads.head? = some t ∧ w.kt_kstack t = some stack)
    (hd : d ∈ p.p_children) (hcd : w.procs d = some cd)
    (hdead : cd.p_state = proc_state_t.PROC_DEAD) :
    (∃ a c w1, a ∈ p.p_children ∧ w.procs a = some c ∧ c.p_state = proc_state_t.PROC_DEAD ∧
      do_waitpid w (-1) 0 status =
        .ok (WaitOut.returned c.p_pid (if status then some c.p_status else none) w1) ∧
      waitpid_reaped w w1 cur a p ∧
      (0 < c.p_pid → ∀ st, do_waitpid w1 c.p_pid 0 st =
        .ok (WaitOut.returned (-ECHILD) none w1))) ∧
    (0 < cd.p_pid → ∃ w1,
      do_waitpid w cd.p_pid 0 status =
        .ok (WaitOut.returned cd.p_pid (if status then some cd.p_status else none) w1) ∧
      waitpid_reaped w w1 cur d p ∧
      ∀ st, do_waitpid w1 cd.p_pid 0 st = .ok (WaitOut.returned (-ECHILD) none w1)) := by
  have hnonempty : p.p_children.isEmpty = false := by
    cases hl : p.p_children with
    | nil => simp [hl] at hd
    | cons x xs => rfl
  constructor
  · obtain ⟨a, ha, c, hc, hcdead, hscan⟩ :=
      waitpid_first_dead_spec w p.p_children hall ⟨d, hd, cd, hcd, hdead⟩
    obtain ⟨⟨pd, hpd⟩, t, stack, ht, hst⟩ := hzombie a ha c hc hcdead
    obtain ⟨w1, hdis, hr⟩ := waitpid_dispose_spec w cur a p c (-1) status pd t stack hp hc
      (fun h => hself (h ▸ ha)) (Or.inl rfl) hpd ht hst hnd hnd2
    refine ⟨a, c, w1, ha, hc, hcdead, ?_, hr, ?_⟩
    · simp [do_waitpid, hcur, hp, hnonempty, hscan, hdis]
    · intro hpos st
      exact do_waitpid_after_reap w w1 cur a p c hcur hc ha hall hself hnd hpids hr hpos st
  · intro hpos
    obtain ⟨⟨pd, hpd⟩, t, stack, ht, hst⟩ := hzombie d hd cd hcd hdead
    obtain ⟨w1, hdis, hr⟩ := waitpid_dispose_spec w cur d p cd cd.p_pid status pd t stack hp hcd
      (fun h => hself (h ▸ hd)) (Or.inr rfl) hpd ht hst hnd hnd2
    have hfind : waitpid_find_pid w cd.p_pid p.p_children = .ok (some d) := by
      apply waitpid_find_pid_spec w d cd hcd _ _ hd
      intro a ha
      obtain ⟨c, hc⟩ := hall a ha
      exact ⟨c, hc, fun hpid => hpids a ha d hd c cd hc hcd hpid⟩
    have hne : cd.p_pid ≠ -1 := by omega
    refine ⟨w1, ?_, hr, fun st =>
      do_waitpid_after_reap w w1 cur d p cd hcur hcd hd hall hself hnd hpids hr hpos st⟩
    simp [do_waitpid, hne, hpos, hcur, hp, hnonempty, hfind, hcd, hdead, hdis]

/-- Witness for C11: init waits while its child of pid 2 is a zombie with status 7. -/
theorem do_waitpid_reaps_dead_child_witness :
    (∃ a c w1, a ∈ [103, 102] ∧
      wait_world.procs a = some c ∧ c.p_state = proc_state_t.PROC_DEAD ∧
      do_waitpid wait_world (-1) 0 true =
        .ok (WaitOut.returned c.p_pid (if true then some c.p_status else none) w1) ∧
      waitpid_reaped wait_world w1 101
        a (mk_proc 1 proc_state_t.PROC_RUNNING 0 (some 100) [103, 102] [201]) ∧
      (0 < c.p_pid → ∀ st, do_waitpid w1 c.p_pid 0 st =
        .ok (WaitOut.returned (-ECHILD) none w1))) ∧
    (0 < (mk_proc 2 proc_state_t.PROC_DEAD 7 (some 101) [] [202]).p_pid → ∃ w1,
      do_waitpid wait_world (mk_proc 2 proc_state_t.PROC_DEAD 7 (some 101) [] [202]).p_pid 0 true =
        .ok (WaitOut.returned 2 (if true then some 7 else none) w1) ∧
      waitpid_reaped wait_world w1 101 102
        (mk_proc 1 proc_state_t.PROC_RUNNING 0 (some 100) [103, 102] [201]) ∧
      ∀ st, do_waitpid w1 (mk_proc 2 proc_state_t.PROC_DEAD 7 (some 101) [] [202]).p_pid 0 st =
        .ok (WaitOut.returned (-ECHILD) none w1)) :=
  do_waitpid_reaps_dead_child wait_world 101
    (mk_proc 1 proc_state_t.PROC_RUNNING 0 (some 100) [103, 102] [201]) true 102
    (mk_proc 2 proc_state_t.PROC_DEAD 7 (some 101) [] [202]) rfl rfl
    (by intro b hb
        simp [mk_proc] at hb
        rcases hb with rfl | rfl <;> exact ⟨_, rfl⟩)
    (by decide) (by decide) (by decide)
    (by intro x hx y hy cx cy h1 h2 h3
        simp [mk_proc] at hx hy
        rcases hx with rfl | rfl <;> rcases hy with rfl | rfl <;>
          simp [wait_world, mk_proc] at h1 h2 <;> subst h1 <;> subst h2 <;> simp at h3 <;> rfl)
    (by intro a ha c hc hdead
        simp [mk_proc] at ha
        rcases ha with rfl | rfl <;> simp [wait_world, mk_proc] at hc <;> subst hc
        · simp at hdead
        · exact ⟨⟨_, rfl⟩, 202, _, rfl, rfl⟩)
    (by decide) rfl rfl

/-- Claim C12. The error returns of `do_waitpid`: `-EINVAL` whenever `options ≠ 0`
(whatever `pid` is) and whenever `pid` is 0 or less than -1; `-ECHILD` when `pid = -1` and
the caller has no children, and when `pid > 0` is the pid of none of the caller's
children. In each case the call returns without sleeping, stores no status and leaves the
process table, the lists and the scheduler state as they were. -/
theorem do_waitpid_errors (w : proc_world) (pid options : Int) (status : Bool) :
    (options ≠ 0 → do_waitpid w pid options status = .ok (WaitOut.returned (-EINVAL) none w)) ∧
    (pid = 0 ∨ pid < -1 →
      do_waitpid w pid options status = .ok (WaitOut.returned (-EINVAL) none w)) ∧
    (∀ cur p, w.sched.curproc = some cur → w.procs cur = some p →
      (pid = -1 → p.p_children = [] →
        do_waitpid w pid 0 status = .ok (WaitOut.returned (-ECHILD) none w)) ∧
      (0 < pid → (∀ a ∈ p.p_children, ∃ c, w.procs a = some c ∧ c.p_pid ≠ pid) →
        do_waitpid w pid 0 status = .ok (WaitOut.returned (-ECHILD) none w))) := by
  refine ⟨?_, ?_, ?_⟩
  · intro h
    simp [do_waitpid, h]
  · intro h
    have h1 : pid ≠ -1 := by omega
    have h2 : ¬ 0 < pid := by omega
    simp only [do_waitpid, h1, h2, if_false]
    split_ifs <;> rfl
  · intro cur p hcur hp
    constructor
    · intro h hl
      simp [do_waitpid, h, hcur, hp, hl]
    · intro hpos hno
      have h1 : pid ≠ -1 := by omega
      simp only [do_waitpid, ne_eq, not_true_eq_false, if_false, h1, hpos, if_true, hcur, hp,
        waitpid_find_pid_none w pid p.p_children hno]
      split_ifs <;> rfl

/-- Witness for C12 in `wait_world`: a call with options 1, calls with pid 0 and pid -5,
a call with pid 9, which no child of init has, and a call with pid -1 once idle, which
then has no child, is the current process. -/
theorem do_waitpid_errors_witness :
    do_waitpid wait_world 2 1 true = .ok (WaitOut.returned (-EINVAL) none wait_world) ∧
    do_waitpid wait_world 0 0 true = .ok (WaitOut.returned (-EINVAL) none wait_world) ∧
    do_waitpid wait_world (-5) 0 true = .ok (WaitOut.returned (-EINVAL) none wait_world) ∧
    do_waitpid wait_world 9 0 true = .ok (WaitOut.returned (-ECHILD) none wait_world) ∧
    do_waitpid { wait_world with sched := { wait_world.sched with curproc := some 103 } }
        (-1) 0 true =
      .ok (WaitOut.returned (-ECHILD) none
        { wait_world with sched := { wait_world.sched with curproc := some 103 } }) :=
  ⟨(do_waitpid_errors wait_world 2 1 true).1 (by decide),
   (do_waitpid_errors wait_world 0 0 true).2.1 (Or.inl rfl),
   (do_waitpid_errors wait_world (-5) 0 true).2.1 (Or.inr (by decide)),
   ((do_waitpid_errors wait_world 9 0 true).2.2 101 _ rfl rfl).2 (by decide)
     (by intro a ha
         simp [mk_proc] at ha
         rcases ha with rfl | rfl
         · exact ⟨_, rfl, by decide⟩
         · exact ⟨_, rfl, by decide⟩),
   ((do_waitpid_errors { wait_world with sched := { wait_world.sched with curproc := some 103 } }
      (-1) 0 true).2.2 103 _ rfl rfl).1 rfl rfl⟩

/-! ## Process ids -/

theorem proc_list_holds_spec (w : proc_world) (pid : Int) :
    ∀ l : List Nat, (∀ a ∈ l, ∃ p, w.procs a = some p) →
      proc_list_holds w pid l =
        .ok (decide (pid ∈ l.filterMap (fun a => (w.procs a).map (fun p => p.p_pid)))) := by
  intro l
  induction l with
  | nil => intro _; simp [proc_list_holds]
  | cons a rest ih =>
    intro hall
    obtain ⟨p, hp⟩ := hall a (List.mem_cons_self _ _)
    have ih1 := ih (fun x hx => hall x (List.mem_cons_of_mem _ hx))
    by_cases h : p.p_pid = pid
    · simp [proc_list_holds, hp, h, List.filterMap_cons]
    · have h1 : ¬ pid = p.p_pid := fun e => h e.symm
      simp [proc_list_holds, hp, h, h1, ih1, List.filterMap_cons]

theorem cyclic_succ (next M : Int) (k : Nat) (hM : 0 < M) :
    Int.tmod ((next + k) % M + 1) M = (next + (k + 1 : Nat)) % M := by
  have h0 : 0 ≤ (next + k) % M := Int.emod_nonneg _ (by omega)
  rw [Int.tmod_eq_emod (by omega) (by omega)]
  push_cast
  rw [Int.add_emod, Int.emod_emod_of_dvd _ (dvd_refl M), ← Int.add_emod, add_assoc]

theorem cyclic_wraps (next M : Int) (k : Nat) (hnext : 0 ≤ next ∧ next < M)
    (hk : (k : Int) < M) : (next + (k + 1 : Nat)) % M = next ↔ (k : Int) + 1 = M := by
  constructor
  · intro h
    have h1 : (next + (k + 1 : Nat)) % M = next % M := by
      rw [h, Int.emod_eq_of_lt hnext.1 hnext.2]
    rw [Int.emod_eq_emod_iff_emod_sub_eq_zero] at h1
    have h2 : M ∣ ((k : Int) + 1) := by
      have : next + ((k + 1 : Nat) : Int) - next = (k : Int) + 1 := by push_cast; ring
      rw [this] at h1
      exact Int.dvd_of_emod_eq_zero h1
    have h3 : M ≤ (k : Int) + 1 := Int.le_of_dvd (by omega) h2
    omega
  · intro h
    have : next + ((k + 1 : Nat) : Int) = next + 1 * M := by push_cast; omega
    rw [this, Int.add_mul_emod_self, Int.emod_eq_of_lt hnext.1 hnext.2]

theorem cyclic_covers (next M q : Int) (hM : 0 < M) (hq : 0 ≤ q ∧ q < M) :
    ∃ j : Nat, (j : Int) < M ∧ (next + j) % M = q := by
  refine ⟨((q - next) % M).toNat, ?_, ?_⟩
  · have h1 := Int.emod_lt_of_pos (q - next) hM
    have h0 := Int.emod_nonneg (q - next) (show M ≠ 0 by omega)
    omega
  · have h0 := Int.emod_nonneg (q - next) (show M ≠ 0 by omega)
    rw [Int.toNat_of_nonneg h0, Int.add_emod, Int.emod_emod_of_dvd _ (dvd_refl M), ← Int.add_emod]
    have : next + (q - next) = q := by ring
    rw [this, Int.emod_eq_of_lt hq.1 hq.2]

theorem proc_getid_loop_spec (w : proc_world) (M : Int) (hM : 0 < M)
    (hnext : 0 ≤ w.next_pid ∧ w.next_pid < M)
    (hall : ∀ a ∈ w.proc_list, ∃ p, w.procs a = some p) :
    ∀ (fuel k : Nat), (k : Int) < M → M - k ≤ fuel →
      (∀ j : Nat, j < k → (w.next_pid + j) % M ∈ proc_pids w) →
      ∃ r w1, proc_getid_loop w M fuel ((w.next_pid + k) % M) = .ok (r, w1) ∧
        ((r = -1 ∧ w1 = w ∧ ∀ q, 0 ≤ q → q < M → q ∈ proc_pids w) ∨
         (∃ k1 : Nat, (k1 : Int) < M ∧ r = (w.next_pid + k1) % M ∧ r ∉ proc_pids w ∧
            (∀ j : Nat, j < k1 → (w.next_pid + j) % M ∈ proc_pids w) ∧
            w1 = { w with next_pid := (r + 1) % M })) := by
  intro fuel
  induction fuel with
  | zero => intro k hk hf; omega
  | succ fuel ih =>
    intro k hk hf hheld
    have hpid0 : 0 ≤ (w.next_pid + k) % M := Int.emod_nonneg _ (by omega)
    by_cases hin : (w.next_pid + k) % M ∈ proc_pids w
    · have hscan : proc_list_holds w ((w.next_pid + k) % M) w.proc_list = .ok true := by
        rw [proc_list_holds_spec w _ _ hall]
        simp only [proc_pids] at hin
        simp [hin]
      have hheld1 : ∀ j : Nat, j < k + 1 → (w.next_pid + j) % M ∈ proc_pids w := by
        intro j hj
        rcases Nat.lt_succ_iff_lt_or_eq.1 hj with h | h
        · exact hheld j h
        · rw [h]; exact hin
      by_cases hwrap : (w.next_pid + (k + 1 : Nat)) % M = w.next_pid
      · refine ⟨-1, w, ?_, Or.inl ⟨rfl, rfl, ?_⟩⟩
        · simp only [proc_getid_loop, hscan, cyclic_succ _ _ _ hM, hwrap, if_true]
        · intro q hq0 hq1
          obtain ⟨j, hj, hjq⟩ := cyclic_covers w.next_pid M q hM ⟨hq0, hq1⟩
          have hkM := (cyclic_wraps _ _ k hnext hk).1 hwrap
          rw [← hjq]
          exact hheld1 j (by omega)
      · have hk1 : ((k + 1 : Nat) : Int) < M := by
          have : ¬ ((k : Int) + 1 = M) := fun h => hwrap ((cyclic_wraps _ _ k hnext hk).2 h)
          push_cast
          omega
        obtain ⟨r, w1, hr, hres⟩ := ih (k + 1) hk1 (by push_cast; omega) hheld1
        exact ⟨r, w1, by simp only [proc_getid_loop, hscan, cyclic_succ _ _ _ hM, hwrap, if_false, hr],
          hres⟩
    · have hscan : proc_list_holds w ((w.next_pid + k) % M) w.proc_list = .ok false := by
        rw [proc_list_holds_spec w _ _ hall]
        simp only [proc_pids] at hin
        simp [hin]
      refine ⟨(w.next_pid + k) % M, { w with next_pid := ((w.next_pid + k) % M + 1) % M }, ?_,
        Or.inr ⟨k, hk, rfl, hin, hheld, rfl⟩⟩
      simp only [proc_getid_loop, hscan]
      rw [Int.tmod_eq_emod (by omega) (by omega)]

theorem proc_pids_cons (w w2 : proc_world) (p : Nat) (np : proc_t)
    (hl : w2.proc_list = p :: w.proc_list) (hp : w2.procs p = some np)
    (hrest : ∀ b ∈ w.proc_list,
      (w2.procs b).map (fun x => x.p_pid) = (w.procs b).map (fun x => x.p_pid)) :
    proc_pids w2 = np.p_pid :: proc_pids w := by
  simp only [proc_pids, hl, List.filterMap_cons, hp, Option.map_some']
  congr 1
  apply List.filterMap_congr
  intro b hb
  exact hrest b hb

theorem proc_create_spec (w w1 : proc_world) (M : Int) (fuel : Nat) (r : Int)
    (name : String) (p wq pagedir vmmap : Nat) (vfs_root_vn : Option Nat)
    (hget : _proc_getid w M fuel = .ok (r, w1))
    (h1 : w1.procs = w.procs) (h2 : w1.proc_list = w.proc_list) (h3 : w1.sched = w.sched)
    (hfresh : w.procs p = none)
    (hidle : r = 0 → w.proc_list = [] ∧
      ∀ cur, w.sched.curproc = some cur → ∃ c, w.procs cur = some c)
    (hother : r ≠ 0 → ∃ cur c, w.sched.curproc = some cur ∧ w.procs cur = some c ∧
      (r = 1 → c.p_pid = 0)) :
    ∃ w2, proc_create w M fuel name p wq pagedir vmmap vfs_root_vn = .ok (p, w2) ∧
      w2.proc_list = p :: w.proc_list ∧ (∃ np, w2.procs p = some np ∧ np.p_pid = r) ∧
      ∀ b, b ≠ p → (w2.procs b).map (fun x => x.p_pid) = (w.procs b).map (fun x => x.p_pid) := by
  by_cases hr0 : r = 0
  · obtain ⟨hl, hc⟩ := hidle hr0
    subst hr0
    cases hcur : w.sched.curproc with
    | none =>
      cases vfs_root_vn <;>
        simp +contextual [proc_create, hget, h1, h2, h3, hl, hcur, PID_IDLE, PID_INIT, set_proc]
    | some cur =>
      obtain ⟨c, hcc⟩ := hc cur hcur
      have hpc : cur ≠ p := by
        intro h
        rw [← h, hcc] at hfresh
        cases hfresh
      cases vfs_root_vn <;>
        simp +contextual [proc_create, hget, h1, h2, h3, hl, hcur, hcc, PID_IDLE, PID_INIT,
          set_proc] <;>
        (intro b _; split_ifs with hb <;> simp [hb, hcc])
  · obtain ⟨cur, c, hcur, hcc, hinit⟩ := hother hr0
    have hpc : cur ≠ p := by
      intro h
      rw [← h, hcc] at hfresh
      cases hfresh
    have hr0s : ¬ (0 = r) := fun h => hr0 h.symm
    by_cases hr1 : r = 1
    · subst hr1
      cases vfs_root_vn <;>
        simp +contextual [proc_create, hget, h1, h2, h3, hcur, hcc, PID_IDLE, PID_INIT,
          set_proc, set_queue, hinit rfl, hpc] <;>
        (intro b _; split_ifs with hb <;> simp [hb, hcc, hinit rfl])
    · have hr1s : ¬ (1 = r) := fun h => hr1 h.symm
      by_cases hgt : 1 < r <;> cases vfs_root_vn <;>
        simp +contextual [proc_create, hget, h1, h2, h3, hcur, hcc, PID_IDLE, PID_INIT,
          set_proc, set_queue, hr0, hr0s, hr1, hr1s, hpc, hgt] <;>
        (intro b _; split_ifs with hb <;> simp [hb, hcc])

/-- Allocation of pids, for a list that holds no pid -1 (the part of C13 that holds of the
code). `PROC_MAX_COUNT` is a parameter; `next_pid` lies in `[0, PROC_MAX_COUNT)`
and every link on `_proc_list` is a live process. Then `_proc_getid` terminates (fuel
`PROC_MAX_COUNT` is enough) and returns either -1, leaving the state as it is, and then
every pid in `[0, PROC_MAX_COUNT)` is held; or the first pid at or cyclically after
`next_pid` that no process on the list holds, setting `next_pid` to its successor modulo
`PROC_MAX_COUNT`. Hence `proc_create`, when its assertions about the idle and the init
process hold, returns with the new process at the head of `_proc_list` under the pid that
`_proc_getid` returned, and the pids on the list, if they were pairwise distinct and none
of them was -1, are pairwise distinct afterwards. -/
theorem proc_getid_allocates (w : proc_world) (PROC_MAX_COUNT : Int) (fuel : Nat)
    (hnext : 0 ≤ w.next_pid ∧ w.next_pid < PROC_MAX_COUNT)
    (hall : ∀ a ∈ w.proc_list, ∃ p, w.procs a = some p)
    (hfuel : PROC_MAX_COUNT ≤ fuel) :
    ∃ r w1, _proc_getid w PROC_MAX_COUNT fuel = .ok (r, w1) ∧
      ((r = -1 ∧ w1 = w ∧ ∀ q, 0 ≤ q → q < PROC_MAX_COUNT → q ∈ proc_pids w) ∨
       (∃ k : Nat, (k : Int) < PROC_MAX_COUNT ∧ r = (w.next_pid + k) % PROC_MAX_COUNT ∧
          r ∉ proc_pids w ∧
          (∀ j : Nat, j < k → (w.next_pid + j) % PROC_MAX_COUNT ∈ proc_pids w) ∧
          w1 = { w with next_pid := (r + 1) % PROC_MAX_COUNT })) ∧
      ∀ (name : String) (p wq pagedir vmmap : Nat) (vfs_root_vn : Option Nat),
        w.procs p = none → (proc_pids w).Nodup → -1 ∉ proc_pids w →
        (r = 0 → w.proc_list = [] ∧
          ∀ cur, w.sched.curproc = some cur → ∃ c, w.procs cur = some c) →
        (r ≠ 0 → ∃ cur c, w.sched.curproc = some cur ∧ w.procs cur = some c ∧
          (r = 1 → c.p_pid = 0)) →
        ∃ w2, proc_create w PROC_MAX_COUNT fuel name p wq pagedir vmmap vfs_root_vn =
            .ok (p, w2) ∧
          proc_pids w2 = r :: proc_pids w ∧ (proc_pids w2).Nodup := by
  have hM : 0 < PROC_MAX_COUNT := by omega
  obtain ⟨r, w1, hr, hres⟩ := proc_getid_loop_spec w PROC_MAX_COUNT hM hnext hall fuel 0
    (by simpa using hM) (by simpa using hfuel) (by intro j hj; omega)
  have hr1 : _proc_getid w PROC_MAX_COUNT fuel = .ok (r, w1) := by
    rw [_proc_getid]
    have : (w.next_pid + ((0 : Nat) : Int)) % PROC_MAX_COUNT = w.next_pid := by
      simp [Int.emod_eq_of_lt hnext.1 hnext.2]
    rw [this] at hr
    exact hr
  refine ⟨r, w1, hr1, hres, ?_⟩
  intro name p wq pagedir vmmap vfs_root_vn hfresh hnd hneg hidle hother
  have hsame : w1.procs = w.procs ∧ w1.proc_list = w.proc_list ∧ w1.sched = w.sched := by
    rcases hres with ⟨_, h, _⟩ | ⟨k, _, _, _, _, h⟩ <;> subst h <;> exact ⟨rfl, rfl, rfl⟩
  obtain ⟨w2, hc, hl, ⟨np, hnp, hpid⟩, hrest⟩ := proc_create_spec w w1 PROC_MAX_COUNT fuel r name
    p wq pagedir vmmap vfs_root_vn hr1 hsame.1 hsame.2.1 hsame.2.2 hfresh hidle hother
  have hpids : proc_pids w2 = r :: proc_pids w := by
    rw [← hpid]
    apply proc_pids_cons w w2 p np hl hnp
    intro b hb
    apply hrest
    intro hbp
    obtain ⟨x, hx⟩ := hall b hb
    rw [hbp, hfresh] at hx
    cases hx
  refine ⟨w2, hc, hpids, ?_⟩
  rw [hpids]
  refine List.nodup_cons.2 ⟨?_, hnd⟩
  rcases hres with ⟨h, _, _⟩ | ⟨k, _, _, h, _⟩
  · rw [h]; exact hneg
  · exact h

/-- Example for `proc_getid_allocates`: `wait_world`, where the pids 0 to 3 are held and
`next_pid` is 4, with
a pid space of 8; a `proc_create` there makes process 104 with pid 4. -/
theorem proc_getid_allocates_witness :
    ((0 : Int) ≤ wait_world.next_pid ∧ wait_world.next_pid < 8) ∧
    (match proc_create wait_world 8 8 "child" 104 14 0x9004 0x7004 none with
      | .ok (p, w2) => some (p, proc_pids w2, w2.next_pid)
      | .error _ => none) = some (104, [4, 3, 2, 1, 0], 5) ∧
    ∃ r w1, _proc_getid wait_world 8 8 = .ok (r, w1) ∧
      ((r = -1 ∧ w1 = wait_world ∧ ∀ q, 0 ≤ q → q < 8 → q ∈ proc_pids wait_world) ∨
       (∃ k : Nat, (k : Int) < 8 ∧ r = (wait_world.next_pid + k) % 8 ∧
          r ∉ proc_pids wait_world ∧
          (∀ j : Nat, j < k → (wait_world.next_pid + j) % 8 ∈ proc_pids wait_world) ∧
          w1 = { wait_world with next_pid := (r + 1) % 8 })) ∧
      ∀ (name : String) (p wq pagedir vmmap : Nat) (vfs_root_vn : Option Nat),
        wait_world.procs p = none → (proc_pids wait_world).Nodup →
        -1 ∉ proc_pids wait_world →
        (r = 0 → wait_world.proc_list = [] ∧
          ∀ cur, wait_world.sched.curproc = some cur → ∃ c, wait_world.procs cur = some c) →
        (r ≠ 0 → ∃ cur c, wait_world.sched.curproc = some cur ∧
          wait_world.procs cur = some c ∧ (r = 1 → c.p_pid = 0)) →
        ∃ w2, proc_create wait_world 8 8 name p wq pagedir vmmap vfs_root_vn = .ok (p, w2) ∧
          proc_pids w2 = r :: proc_pids wait_world ∧ (proc_pids w2).Nodup :=
  ⟨by decide, rfl,
   proc_getid_allocates wait_world 8 8 (by decide)
    (by intro a ha
        have h : a = 103 ∨ a = 102 ∨ a = 101 ∨ a = 100 := by simpa [wait_world] using ha
        rcases h with rfl | rfl | rfl | rfl <;> exact ⟨_, rfl⟩)
    (by decide)⟩

/-! ## Process exit -/

/-- Claim C14, evaluated on the code. The process of pid 3 (at 103), child of init, has one
child (pid 4, at 104) and two open files; init sleeps in `do_waitpid`. `proc_cleanup(5)`
marks the process dead with status 5, wakes init's thread, gives every open file its
`fput` and clears the table, puts the child on init's child list and makes init its
parent, but it never unlinks the child from the exiting process's own child list, which
still holds it. -/
theorem proc_cleanup_keeps_child_on_list :
    ∃ w fs, proc_cleanup cleanup_world dup2_state 5 = .ok (w, fs) ∧
      (w.procs 103).map (fun p => (p.p_state, p.p_status, p.p_children)) =
        some (proc_state_t.PROC_DEAD, 5, [104]) ∧
      (w.procs 101).map (fun p => p.p_children) = some [104, 103] ∧
      (w.procs 104).map (fun p => p.p_pproc) = some (some 101) ∧
      fs.p_files = List.replicate 32 none ∧ fs.files 100 = none ∧ fs.files 200 = none ∧
      fs.vputs = [10, 20] ∧
      (w.sched.queues 11).tq_list = [] ∧ (w.sched.queues kt_runq).tq_list = [201] :=
  ⟨_, _, rfl, rfl, rfl, rfl, by decide, rfl, rfl, rfl, rfl, rfl⟩

/-! ## Reading, writing, seeking -/

/-- Claim C15, evaluated on the code. Descriptor 3 is open with mode
`FMODE_WRITE | FMODE_APPEND`, without `FMODE_READ`; `do_read(3, buf, 8)` does not return
`-EBADF`: it calls the vnode's `read` at offset 0, returns the 8 bytes read and moves
`f_pos` to 8. -/
theorem do_read_write_only_append :
    ∃ s1, do_read example_ops vfs_example 3 8 = .ok (8, s1) ∧
      s1.calls = [VnCall.read 10 0 8] ∧
      (s1.fs.files 100).map (fun f => (f.f_mode &&& FMODE_READ, f.f_pos, f.f_refcount)) =
        some (0, 8, 1) :=
  ⟨_, rfl, rfl, rfl⟩

/-- Claim C16, evaluated on the code. Descriptor 4 is open with mode
`FMODE_READ | FMODE_APPEND`, without `FMODE_WRITE`; `do_write(4, buf, 8)` does not return
`-EBADF`: it seeks to the end of the file, calls the vnode's `write` at offset 100,
returns 8 and leaves `f_pos` at 108. -/
theorem do_write_read_only_append :
    ∃ s1, do_write example_ops vfs_example 4 8 = .ok (8, s1) ∧
      s1.calls = [VnCall.write 10 100 8] ∧
      (s1.fs.files 200).map (fun f => (f.f_mode &&& FMODE_WRITE, f.f_pos, f.f_refcount)) =
        some (0, 108, 1) :=
  ⟨_, rfl, rfl, rfl⟩

/-- Claim C20, evaluated on the code. Descriptor 5 is open on a directory whose `readdir`
returns the error `-EFAULT` at offset 64; `do_getdent(5, dirp)` returns
`sizeof(dirent_t)`, not the error, and has added the error to `f_pos`. -/
theorem do_getdent_readdir_error :
    example_ops.readdir 30 64 = -EFAULT ∧
    ∃ s1, do_getdent example_ops vfs_example 5 = .ok (sizeof_dirent_t, s1) ∧
      s1.calls = [VnCall.readdir 30 64] ∧
      (s1.fs.files 300).map (fun f => (f.f_pos, f.f_refcount)) = some (64 - EFAULT, 1) :=
  ⟨rfl, _, rfl, rfl, rfl⟩

theorem fput_fref (fs : fs_state) (f : Nat) (x : file_t) (hx : fs.files f = some x)
    (href : x.f_refcount ≠ 0) : fput (fref fs f) f = fs := by
  have h1 : ¬ (x.f_refcount + 1 - 1 = 0) := by omega
  simp only [fput, fref, hx, if_true, Option.map_some', h1, if_false]
  cases fs with
  | mk p_files files vputs =>
    simp only [fs_state.mk.injEq, true_and, and_true]
    funext g
    by_cases hg : g = f
    · subst hg
      simp only [if_true]
      simp only at hx
      rw [hx]
      congr 1
      cases x
      simp
    · simp [hg]

theorem fput_set_f_pos_fref (fs : fs_state) (f : Nat) (x : file_t) (pos : Int)
    (hx : fs.files f = some x) (href : x.f_refcount ≠ 0) :
    fput (set_f_pos (fref fs f) f pos) f = set_f_pos fs f pos := by
  have h1 : ¬ (x.f_refcount + 1 - 1 = 0) := by omega
  simp only [fput, fref, set_f_pos, hx, if_true, Option.map_some', h1, if_false]
  cases fs with
  | mk p_files files vputs =>
    simp only [fs_state.mk.injEq, true_and, and_true]
    funext g
    by_cases hg : g = f
    · subst hg
      simp
    · simp [hg]

theorem fget_open (fs : fs_state) (fd : Int) (f : Nat) (hfd : 0 ≤ fd ∧ fd < NFILES)
    (hslot : fs.p_files.getD fd.toNat none = some f) : fget fs fd = (some f, fref fs f) := by
  have h : ¬ (fd < 0 ∨ fd ≥ NFILES) := by omega
  simp only [fget, h, if_false, hslot]

theorem fget_closed (fs : fs_state) (fd : Int)
    (h : fd < 0 ∨ fd ≥ NFILES ∨ fs.p_files.getD fd.toNat none = none) :
    fget fs fd = (none, fs) := by
  by_cases h1 : fd < 0 ∨ fd ≥ NFILES
  · simp [fget, h1]
  · have h2 : fs.p_files.getD fd.toNat none = none := by
      rcases h with h | h | h
      · exact absurd (Or.inl h) h1
      · exact absurd (Or.inr h) h1
      · exact h
    simp only [fget, h1, if_false, h2]

theorem i32_of_range (x : Int) (h : -2 ^ 31 ≤ x ∧ x < 2 ^ 31) : i32 x = x := by
  unfold i32
  rw [Int.emod_eq_of_lt (by omega) (by omega)]
  omega

/-- Claim C19. For `whence` other than `SEEK_SET`, `SEEK_CUR`, `SEEK_END`, `do_lseek`
returns `-EINVAL`; otherwise for a descriptor that is not open it returns `-EBADF`; and
for a descriptor open on a file object with a mode and a reference, and a 32-bit `offset`,
it computes `base + offset` in `int` arithmetic, `base` being 0, the file's `f_pos` or its
vnode's length: a result that is not negative becomes `f_pos` and is returned, for a
negative one `-EINVAL` is returned and `f_pos` is unchanged. Every case leaves the rest
of the state, reference counts included, as it was. The computed value is `base + offset`
itself whenever that fits an `int`. -/
theorem do_lseek_computes (s : vfs_state) (fd offset whence : Int) :
    (whence ≠ SEEK_SET ∧ whence ≠ SEEK_CUR ∧ whence ≠ SEEK_END →
      do_lseek s fd offset whence = .ok (-EINVAL, s)) ∧
    (whence = SEEK_SET ∨ whence = SEEK_CUR ∨ whence = SEEK_END →
      (fd < 0 ∨ fd ≥ NFILES ∨ s.fs.p_files.getD fd.toNat none = none →
        do_lseek s fd offset whence = .ok (-EBADF, s)) ∧
      ∀ (f : Nat) (file : file_t) (vn : vnode_t),
        0 ≤ fd ∧ fd < NFILES → s.fs.p_files.getD fd.toNat none = some f →
        s.fs.files f = some file → file.f_mode ≠ 0 → file.f_refcount ≠ 0 →
        s.vnodes file.f_vnode = some vn → -2 ^ 31 ≤ offset ∧ offset < 2 ^ 31 →
        ∀ base : Int, base = (if whence = SEEK_SET then 0 else if whence = SEEK_CUR
            then file.f_pos else vn.vn_len) →
          (0 ≤ i32 (base + offset) →
            do_lseek s fd offset whence =
              .ok (i32 (base + offset),
                { s with fs := set_f_pos s.fs f (i32 (base + offset)) })) ∧
          (i32 (base + offset) < 0 → do_lseek s fd offset whence = .ok (-EINVAL, s)) ∧
          (-2 ^ 31 ≤ base + offset ∧ base + offset < 2 ^ 31 →
            i32 (base + offset) = base + offset)) := by
  refine ⟨fun h => by simp [do_lseek, h], fun hw => ⟨fun hc => ?_, ?_⟩⟩
  · have hw1 : ¬ (whence ≠ SEEK_SET ∧ whence ≠ SEEK_CUR ∧ whence ≠ SEEK_END) := by
      rcases hw with h | h | h <;> simp [h]
    simp only [do_lseek, hw1, if_false, fget_closed s.fs fd hc]
  · intro f file vn hfd hslot hfile hmode href hvn hoff base hbase
    have hw1 : ¬ (whence ≠ SEEK_SET ∧ whence ≠ SEEK_CUR ∧ whence ≠ SEEK_END) := by
      rcases hw with h | h | h <;> simp [h]
    have hfile1 : (fref s.fs f).files f = some { file with f_refcount := file.f_refcount + 1 } := by
      simp [fref, hfile]
    have hkeep : ({ s with fs := fput (fref s.fs f) f } : vfs_state) = s := by
      rw [fput_fref s.fs f file hfile href]
    have hmove : ∀ pos, ({ s with fs := fput (set_f_pos (fref s.fs f) f pos) f } : vfs_state) =
        { s with fs := set_f_pos s.fs f pos } := by
      intro pos
      rw [fput_set_f_pos_fref s.fs f file pos hfile href]
    refine ⟨?_, ?_, fun h => i32_of_range _ h⟩
    · intro hr
      rcases hw with h | h | h
      · subst h
        simp only [if_true] at hbase
        subst hbase
        have hr1 : i32 (0 + offset) = offset := by rw [zero_add]; exact i32_of_range _ hoff
        rw [hr1] at hr ⊢
        simp [do_lseek, SEEK_SET, SEEK_CUR, SEEK_END, fget_open s.fs fd f hfd hslot, hfile1,
          hmode, hr, hmove]
      · subst h
        have : base = file.f_pos := by simpa [SEEK_SET, SEEK_CUR] using hbase
        subst this
        simp [do_lseek, SEEK_SET, SEEK_CUR, SEEK_END, fget_open s.fs fd f hfd hslot, hfile1,
          hmode, hr, hmove]
      · subst h
        have : base = vn.vn_len := by simpa [SEEK_SET, SEEK_CUR, SEEK_END] using hbase
        subst this
        simp [do_lseek, SEEK_SET, SEEK_CUR, SEEK_END, fget_open s.fs fd f hfd hslot, hfile1,
          hmode, hvn, hr, hmove]
    · intro hr
      have hr2 : ¬ (0 ≤ i32 (base + offset)) := by omega
      rcases hw with h | h | h
      · subst h
        simp only [if_true] at hbase
        subst hbase
        have hr1 : i32 (0 + offset) = offset := by rw [zero_add]; exact i32_of_range _ hoff
        rw [hr1] at hr2
        simp [do_lseek, SEEK_SET, SEEK_CUR, SEEK_END, fget_open s.fs fd f hfd hslot, hfile1,
          hmode, hr2, hkeep]
      · subst h
        have : base = file.f_pos := by simpa [SEEK_SET, SEEK_CUR] using hbase
        subst this
        simp [do_lseek, SEEK_SET, SEEK_CUR, SEEK_END, fget_open s.fs fd f hfd hslot, hfile1,
          hmode, hr2, hkeep]
      · subst h
        have : base = vn.vn_len := by simpa [SEEK_SET, SEEK_CUR, SEEK_END] using hbase
        subst this
        simp [do_lseek, SEEK_SET, SEEK_CUR, SEEK_END, fget_open s.fs fd f hfd hslot, hfile1,
          hmode, hvn, hr2, hkeep]

/-- Witness for C19 in `vfs_example`: descriptor 3 is on a file of 100 bytes; seeking to
40 bytes before the end, to before the start, on the closed descriptor 7, and with a
`whence` of 9. -/
theorem do_lseek_computes_witness :
    do_lseek vfs_example 3 (-40) SEEK_END =
      .ok (60, { vfs_example with fs := set_f_pos vfs_example.fs 100 60 }) ∧
    do_lseek vfs_example 3 (-101) SEEK_END = .ok (-EINVAL, vfs_example) ∧
    do_lseek vfs_example 7 0 SEEK_SET = .ok (-EBADF, vfs_example) ∧
    do_lseek vfs_example 3 0 9 = .ok (-EINVAL, vfs_example) :=
  ⟨((((do_lseek_computes vfs_example 3 (-40) SEEK_END).2 (Or.inr (Or.inr rfl))).2 100
      ⟨1, FMODE_WRITE ||| FMODE_APPEND, 0, 10⟩ ⟨S_IFREG, 100, false, false, false⟩ (by decide) rfl rfl
      (by decide) (by decide) rfl (by decide) 100 rfl).1 (by decide)),
   ((((do_lseek_computes vfs_example 3 (-101) SEEK_END).2 (Or.inr (Or.inr rfl))).2 100
      ⟨1, FMODE_WRITE ||| FMODE_APPEND, 0, 10⟩ ⟨S_IFREG, 100, false, false, false⟩ (by decide) rfl rfl
      (by decide) (by decide) rfl (by decide) 100 rfl).2.1 (by decide)),
   ((do_lseek_computes vfs_example 7 0 SEEK_SET).2 (Or.inl rfl)).1 (Or.inr (Or.inr rfl)),
   (do_lseek_computes vfs_example 3 0 9).1 (by decide)⟩

/-! ## Opening and closing -/

theorem vn_net_vref (s : vfs_state) (v u : Nat) :
    vn_net (vref s v) u = vn_net s u + held (some v) u := by
  simp only [vn_net, vref, held, List.count_append, List.count_singleton, Option.some.injEq]
  by_cases h : v = u
  · subst h; simp; ring
  · have h1 : ¬ (u = v) := fun e => h e.symm
    simp [h, h1]

theorem vn_net_vput (s : vfs_state) (v u : Nat) :
    vn_net (vput s v) u = vn_net s u - held (some v) u := by
  simp only [vn_net, vput, held, List.count_append, List.count_singleton, Option.some.injEq]
  by_cases h : v = u
  · subst h; simp; ring
  · have h1 : ¬ (u = v) := fun e => h e.symm
    simp [h, h1]

theorem vn_net_calls (s : vfs_state) (c : List VnCall) (u : Nat) :
    vn_net { s with calls := c } u = vn_net s u := rfl

theorem lookup_effect (ops : vn_ops_t) (s : vfs_state) (dir : Option Nat) (name : List Char)
    (r : LookupNameOut) (h : lookup ops s dir name = .ok r) :
    r.state.fs.files = s.fs.files ∧ r.state.fs.p_files = s.fs.p_files ∧
    r.state.vnodes = s.vnodes ∧ (∀ u, vn_net r.state u = vn_net s u + held r.result u) ∧
    (r.retval = -ENOTDIR ∧ r.result = none ∨
      ∃ d, dir = some d ∧ r.retval = (ops.lookup d name).1 ∧ r.result = (ops.lookup d name).2) := by
  unfold lookup at h
  cases dir with
  | none => simp at h
  | some d =>
    simp only at h
    cases hv : s.vnodes d with
    | none => simp [hv] at h
    | some vn =>
      simp only [hv] at h
      by_cases hl : vn.has_lookup = false
      · simp only [hl, if_true, Except.ok.injEq] at h
        subst h
        exact ⟨rfl, rfl, rfl, fun u => by simp [held], Or.inl ⟨rfl, rfl⟩⟩
      · have hl1 : vn.has_lookup = true := by simpa using hl
        simp only [hl1, Bool.true_eq_false, if_false] at h
        cases hr : (ops.lookup d name).2 with
        | none =>
          simp only [hr, Except.ok.injEq] at h
          subst h
          exact ⟨rfl, rfl, rfl, fun u => by simp [held, vn_net], Or.inr ⟨d, rfl, rfl, hr.symm⟩⟩
        | some v =>
          simp only [hr, Except.ok.injEq] at h
          subst h
          refine ⟨rfl, rfl, rfl, fun u => ?_, Or.inr ⟨d, rfl, rfl, hr.symm⟩⟩
          rw [vn_net_vref]
          rfl

theorem vput_prev_effect (s : vfs_state) (prev : Option Nat) :
    (vput_prev s prev).fs.files = s.fs.files ∧ (vput_prev s prev).fs.p_files = s.fs.p_files ∧
    (vput_prev s prev).vnodes = s.vnodes ∧
    ∀ u, vn_net (vput_prev s prev) u = vn_net s u - held prev u := by
  cases prev with
  | none => exact ⟨rfl, rfl, rfl, fun u => by simp [vput_prev, held]⟩
  | some p => exact ⟨rfl, rfl, rfl, fun u => by rw [vput_prev, vn_net_vput]⟩

theorem dir_namev_loop_effect (ops : vn_ops_t) :
    ∀ (comps : List (List Char)) (s : vfs_state) (curr prev : Option Nat)
      (curr1 prev1 : Option Nat) (s1 : vfs_state),
      dir_namev_loop ops s comps curr prev = .ok (0, curr1, prev1, s1) →
      s1.fs.files = s.fs.files ∧ s1.fs.p_files = s.fs.p_files ∧ s1.vnodes = s.vnodes ∧
      (∀ u, vn_net s1 u - held prev1 u = vn_net s u - held prev u) ∧
      (prev = curr → (∃ v, curr = some v) → prev1 = curr1 ∧ ∃ v, curr1 = some v) ∧
      ((∃ c ∈ comps, c ≠ []) → prev1 = curr1 ∧ ∃ v, curr1 = some v) := by
  intro comps
  induction comps with
  | nil =>
    intro s curr prev curr1 prev1 s1 h
    simp only [dir_namev_loop, Except.ok.injEq, Prod.mk.injEq, true_and] at h
    obtain ⟨rfl, rfl, rfl⟩ := h
    exact ⟨rfl, rfl, rfl, fun _ => rfl, fun h1 h2 => ⟨h1, h2⟩, by simp⟩
  | cons c rest ih =>
    intro s curr prev curr1 prev1 s1 h
    by_cases hc : c.length = 0
    · simp only [dir_namev_loop, hc, if_true] at h
      obtain ⟨e1, e2, e3, e4, e5, e6⟩ := ih s curr prev curr1 prev1 s1 h
      refine ⟨e1, e2, e3, e4, e5, ?_⟩
      rintro ⟨x, hx, hne⟩
      apply e6
      rcases List.mem_cons.1 hx with rfl | hx1
      · exact absurd (List.length_eq_zero.1 hc) hne
      · exact ⟨x, hx1, hne⟩
    · simp only [dir_namev_loop, hc, if_false] at h
      cases hl : lookup ops s curr c with
      | error f => simp [hl] at h
      | ok r =>
        simp only [hl] at h
        obtain ⟨l1, l2, l3, l4, _⟩ := lookup_effect ops s curr c r hl
        obtain ⟨p1, p2, p3, p4⟩ := vput_prev_effect r.state prev
        by_cases hneg : r.retval < 0
        · simp only [hneg, if_true, Except.ok.injEq, Prod.mk.injEq] at h
          omega
        · simp only [hneg, if_false] at h
          cases hres : r.result with
          | none => simp [hres] at h
          | some result =>
            simp only [hres] at h
            cases hvn : (vput_prev r.state prev).vnodes result with
            | none => simp [hvn] at h
            | some vn =>
              simp only [hvn] at h
              by_cases hdir : S_ISDIR vn.vn_mode = true
              · simp only [hdir, not_true_eq_false, if_false] at h
                obtain ⟨e1, e2, e3, e4, e5, _⟩ :=
                  ih (vput_prev r.state prev) (some result) (some result) curr1 prev1 s1 h
                have hfin := e5 rfl ⟨result, rfl⟩
                refine ⟨(e1.trans p1).trans l1, (e2.trans p2).trans l2, (e3.trans p3).trans l3,
                  fun u => ?_, fun _ _ => hfin, fun _ => hfin⟩
                rw [e4 u, p4 u, l4 u, hres]
                ring
              · simp only [hdir, Bool.false_eq_true, not_false_eq_true, if_true, Except.ok.injEq,
                  Prod.mk.injEq] at h
                have := h.1
                simp [ENOTDIR] at this

theorem cut_at_slashes_ne_nil : ∀ cs : List Char, cut_at_slashes cs ≠ [] := by
  intro cs
  induction cs with
  | nil => simp [cut_at_slashes]
  | cons c cs ih =>
    simp only [cut_at_slashes]
    split_ifs
    · simp
    · cases h : cut_at_slashes cs with
      | nil => simp
      | cons x xs => simp

theorem path_components_head (c : Char) (cs : List Char) :
    ∃ x xs, path_components (c :: cs) = (c :: x) :: xs := by
  simp only [path_components]
  cases h : cut_at_slashes cs with
  | nil => exact absurd h (cut_at_slashes_ne_nil cs)
  | cons x xs => exact ⟨x, xs, rfl⟩

theorem dir_namev_from_effect (ops : vn_ops_t) (s : vfs_state)
    (pathname p : List Char) (cb : Option Nat) (d : DirNamevOut)
    (h : dir_namev_from ops s pathname p cb = .ok d) (h0 : d.retval = 0) :
    d.state.fs.files = s.fs.files ∧ d.state.fs.p_files = s.fs.p_files ∧
    d.state.vnodes = s.vnodes ∧
    ∃ v, d.res_vnode = some v ∧ ∀ u, vn_net d.state u = vn_net s u + held (some v) u := by
  unfold dir_namev_from at h
  cases cb with
  | none => simp at h
  | some b =>
    simp only at h
    by_cases h2 : p.length = 0
    · simp [h2] at h
    · by_cases h3 : (path_components p).length - 1 ≥ 50
      · simp [h2, h3] at h
      · simp only [h2, h3, if_false] at h
        by_cases h4 : (path_components p).length - 1 = 0
        · simp only [h4, if_true] at h
          cases hs : strstr pathname ((path_components p).getLast?.getD []) with
          | none => simp [hs] at h
          | some name =>
            simp only [hs, Except.ok.injEq] at h
            subst h
            exact ⟨rfl, rfl, rfl, b, rfl, fun u => vn_net_vref s b u⟩
        · simp only [h4, if_false] at h
          cases hl : dir_namev_loop ops s (path_components p).dropLast (some b) none with
          | error f => simp [hl] at h
          | ok r =>
            obtain ⟨ret, curr, prev, s1⟩ := r
            simp only [hl] at h
            by_cases hret : ret = 0
            · subst hret
              simp only [ne_eq, not_true_eq_false, if_false] at h
              obtain ⟨e1, e2, e3, e4, _, e6⟩ :=
                dir_namev_loop_effect ops _ s _ none curr prev s1 hl
              have hne : ∃ c ∈ (path_components p).dropLast, c ≠ [] := by
                cases p with
                | nil => simp at h2
                | cons c cs =>
                  obtain ⟨x, xs, hx⟩ := path_components_head c cs
                  rw [hx] at h4 ⊢
                  cases xs with
                  | nil => simp at h4
                  | cons y ys => exact ⟨c :: x, by simp [List.dropLast], by simp⟩
              obtain ⟨hpc, v, hv⟩ := e6 hne
              cases hs : strstr pathname ((path_components p).getLast?.getD []) with
              | none => simp [hs] at h
              | some name =>
                simp only [hs, Except.ok.injEq] at h
                subst h
                refine ⟨e1, e2, e3, v, hv, fun u => ?_⟩
                have := e4 u
                rw [hpc, hv] at this
                simp only [held, reduceCtorEq, if_false, sub_zero] at this ⊢
                omega
            · simp only [ne_eq, hret, not_false_eq_true, if_true, Except.ok.injEq] at h
              subst h
              exact absurd h0 hret

theorem dir_namev_effect (ops : vn_ops_t) (root cwd : Option Nat) (s : vfs_state)
    (pathname : List Char) (base : Option Nat) (d : DirNamevOut)
    (h : dir_namev ops root cwd s pathname base = .ok d) (h0 : d.retval = 0) :
    d.state.fs.files = s.fs.files ∧ d.state.fs.p_files = s.fs.p_files ∧
    d.state.vnodes = s.vnodes ∧
    ∃ v, d.res_vnode = some v ∧ ∀ u, vn_net d.state u = vn_net s u + held (some v) u := by
  unfold dir_namev at h
  split_ifs at h <;> exact dir_namev_from_effect ops s pathname _ _ d h h0

theorem open_namev_effect (ops : vn_ops_t) (root cwd : Option Nat) (s : vfs_state)
    (pathname : List Char) (flag : Nat) (base : Option Nat) (r : OpenNamevOut)
    (hlk : ∀ d n, (ops.lookup d n).1 ≠ 0 → (ops.lookup d n).2 = none)
    (h : open_namev ops root cwd s pathname flag base = .ok r) (h0 : r.retval = 0) :
    r.state.fs.files = s.fs.files ∧ r.state.fs.p_files = s.fs.p_files ∧
    r.state.vnodes = s.vnodes ∧ ∀ u, vn_net r.state u = vn_net s u + held r.res_vnode u := by
  unfold open_namev at h
  cases hd : dir_namev ops root cwd s pathname base with
  | error f => simp [hd] at h
  | ok d =>
    simp only [hd] at h
    by_cases hret : d.retval = 0
    · obtain ⟨d1, d2, d3, dv, hdv, d4⟩ := dir_namev_effect ops root cwd s pathname base d hd hret
      simp only [hret, ne_eq, not_true_eq_false, if_false] at h
      by_cases hempty : d.namelen = 0 ∨ pathname[d.name]? = none
      · simp only [hempty, if_true, Except.ok.injEq] at h
        subst h
        exact ⟨d1, d2, d3, fun u => by rw [d4 u, hdv]⟩
      · simp only [hempty, if_false, hdv] at h
        cases hl : lookup ops d.state (some dv) (List.take d.namelen (List.drop d.name pathname)) with
        | error f => simp [hl] at h
        | ok lr =>
          simp only [hl] at h
          obtain ⟨l1, l2, l3, l4, l5⟩ := lookup_effect ops d.state (some dv) _ lr hl
          by_cases hlr : lr.retval = 0
          · simp only [hlr, ne_eq, not_true_eq_false, if_false] at h
            have hfinal : ∀ u, vn_net (vput lr.state dv) u = vn_net s u + held lr.result u := by
              intro u
              rw [vn_net_vput, l4 u, d4 u]
              ring
            by_cases hslash : (pathname[d.name + d.namelen]? == some '/') = true
            · simp only [hslash, if_true] at h
              split at h
              · rename_i vn v hvn hres
                by_cases hdir : S_ISDIR vn.vn_mode = true
                · rw [if_neg (not_not.2 hdir)] at h
                  simp only [Except.ok.injEq] at h
                  subst h
                  exact ⟨l1.trans d1, l2.trans d2, l3.trans d3, hfinal⟩
                · rw [if_pos hdir] at h
                  simp only [Except.ok.injEq] at h
                  subst h
                  simp [ENOTDIR] at h0
              · simp at h
            · simp only [hslash, Bool.false_eq_true, if_false, Except.ok.injEq] at h
              subst h
              exact ⟨l1.trans d1, l2.trans d2, l3.trans d3, hfinal⟩
          · simp only [hlr, ne_eq, not_false_eq_true, if_true] at h
            have hnone : lr.result = none := by
              rcases l5 with ⟨_, h2⟩ | ⟨d0, _, h2, h3⟩
              · exact h2
              · rw [h3]
                exact hlk d0 _ (by rw [← h2]; exact hlr)
            by_cases hcreat : flag &&& O_CREAT ≠ 0 ∧ lr.retval = -ENOENT
            · rw [if_pos hcreat] at h
              cases hdvn : lr.state.vnodes dv with
              | none => simp [hdvn] at h
              | some dvn =>
                simp only [hdvn] at h
                by_cases hc1 : dvn.has_create = false
                · simp [hc1] at h
                · have hc1t : dvn.has_create = true := by simpa using hc1
                  simp only [hc1t, Bool.true_eq_false, if_false] at h
                  by_cases hc2 :
                      (ops.create dv (List.take d.namelen (List.drop d.name pathname))).1 = 0
                  · rw [if_neg (not_not.2 hc2)] at h
                    simp only [Except.ok.injEq] at h
                    subst h
                    cases hc : (ops.create dv
                        (List.take d.namelen (List.drop d.name pathname))).2 with
                    | none =>
                      simp only [Option.isSome_none, Bool.false_eq_true, if_false]
                      refine ⟨l1.trans d1, l2.trans d2, l3.trans d3, fun u => ?_⟩
                      rw [vn_net_vput, vn_net_calls, l4 u, d4 u, hnone]
                      ring
                    | some v =>
                      simp only [Option.isSome_some, if_true]
                      refine ⟨l1.trans d1, l2.trans d2, l3.trans d3, fun u => ?_⟩
                      rw [vn_net_vput, vn_net_vref, vn_net_calls, l4 u, d4 u, hnone]
                      simp only [held, reduceCtorEq, if_false]
                      ring
                  · rw [if_pos hc2] at h
                    simp only [Except.ok.injEq] at h
                    subst h
                    exact absurd h0 hc2
            · rw [if_neg hcreat] at h
              simp only [Except.ok.injEq] at h
              subst h
              exact absurd h0 hlr
    · simp only [hret, ne_eq, not_false_eq_true, if_true, Except.ok.injEq] at h
      subst h
      exact absurd h0 hret

theorem lookup_retval (ops : vn_ops_t) (s : vfs_state) (dir : Option Nat) (name : List Char)
    (r : LookupNameOut) (hle : ∀ d n, (ops.lookup d n).1 ≤ 0)
    (h : lookup ops s dir name = .ok r) : r.retval ≤ 0 := by
  obtain ⟨_, _, _, _, h5⟩ := lookup_effect ops s dir name r h
  rcases h5 with ⟨h1, _⟩ | ⟨d, _, h1, _⟩
  · rw [h1]; decide
  · rw [h1]; exact hle d name

theorem dir_namev_loop_retval (ops : vn_ops_t) :
    ∀ (comps : List (List Char)) (s : vfs_state) (curr prev : Option Nat)
      (ret : Int) (curr1 prev1 : Option Nat) (s1 : vfs_state),
      dir_namev_loop ops s comps curr prev = .ok (ret, curr1, prev1, s1) → ret ≤ 0 := by
  intro comps
  induction comps with
  | nil =>
    intro s curr prev ret curr1 prev1 s1 h
    simp only [dir_namev_loop, Except.ok.injEq, Prod.mk.injEq] at h
    omega
  | cons c rest ih =>
    intro s curr prev ret curr1 prev1 s1 h
    by_cases hc : c.length = 0
    · simp only [dir_namev_loop, hc, if_true] at h
      exact ih _ _ _ _ _ _ _ h
    · simp only [dir_namev_loop, hc, if_false] at h
      cases hl : lookup ops s curr c with
      | error f => simp [hl] at h
      | ok r =>
        simp only [hl] at h
        by_cases hneg : r.retval < 0
        · rw [if_pos hneg] at h
          simp only [Except.ok.injEq, Prod.mk.injEq] at h
          omega
        · rw [if_neg hneg] at h
          cases hres : r.result with
          | none => simp [hres] at h
          | some result =>
            simp only [hres] at h
            cases hvn : (vput_prev r.state prev).vnodes result with
            | none => simp [hvn] at h
            | some vn =>
              simp only [hvn] at h
              by_cases hdir : S_ISDIR vn.vn_mode = true
              · rw [if_neg (not_not.2 hdir)] at h
                exact ih _ _ _ _ _ _ _ h
              · rw [if_pos hdir] at h
                simp only [Except.ok.injEq, Prod.mk.injEq] at h
                rw [← h.1]
                decide

theorem dir_namev_retval (ops : vn_ops_t) (root cwd : Option Nat) (s : vfs_state)
    (pathname : List Char) (base : Option Nat) (d : DirNamevOut)
    (h : dir_namev ops root cwd s pathname base = .ok d) : d.retval ≤ 0 := by
  have key : ∀ p cb, dir_namev_from ops s pathname p cb = .ok d → d.retval ≤ 0 := by
    intro p cb h
    unfold dir_namev_from at h
    cases cb with
    | none => simp at h
    | some b =>
      simp only at h
      by_cases h2 : p.length = 0
      · simp [h2] at h
      · by_cases h3 : (path_components p).length - 1 ≥ 50
        · simp [h2, h3] at h
        · simp only [h2, h3, if_false] at h
          by_cases h4 : (path_components p).length - 1 = 0
          · simp only [h4, if_true] at h
            cases hs : strstr pathname ((path_components p).getLast?.getD []) with
            | none => simp [hs] at h
            | some name =>
              simp only [hs, Except.ok.injEq] at h
              subst h
              exact le_refl _
          · simp only [h4, if_false] at h
            cases hl : dir_namev_loop ops s (path_components p).dropLast (some b) none with
            | error f => simp [hl] at h
            | ok r =>
              obtain ⟨ret, curr, prev, s1⟩ := r
              simp only [hl] at h
              have hret := dir_namev_loop_retval ops _ _ _ _ _ _ _ _ hl
              by_cases hr0 : ret = 0
              · rw [if_neg (not_not.2 hr0)] at h
                cases hs : strstr pathname ((path_components p).getLast?.getD []) with
                | none => simp [hs] at h
                | some name =>
                  simp only [hs, Except.ok.injEq] at h
                  subst h
                  exact le_refl _
              · rw [if_pos hr0] at h
                simp only [Except.ok.injEq] at h
                subst h
                exact hret
  unfold dir_namev at h
  split_ifs at h <;> exact key _ _ h

theorem open_namev_retval (ops : vn_ops_t) (root cwd : Option Nat) (s : vfs_state)
    (pathname : List Char) (flag : Nat) (base : Option Nat) (r : OpenNamevOut)
    (hle : ∀ d n, (ops.lookup d n).1 ≤ 0) (hce : ∀ d n, (ops.create d n).1 ≤ 0)
    (h : open_namev ops root cwd s pathname flag base = .ok r) : r.retval ≤ 0 := by
  unfold open_namev at h
  cases hd : dir_namev ops root cwd s pathname base with
  | error f => simp [hd] at h
  | ok d =>
    simp only [hd] at h
    have hdr := dir_namev_retval ops root cwd s pathname base d hd
    by_cases hret : d.retval = 0
    · rw [if_neg (not_not.2 hret)] at h
      by_cases hempty : d.namelen = 0 ∨ pathname[d.name]? = none
      · rw [if_pos hempty] at h
        simp only [Except.ok.injEq] at h
        subst h
        exact le_refl _
      · rw [if_neg hempty] at h
        cases hdv : d.res_vnode with
        | none => simp [hdv, lookup] at h
        | some dv =>
          simp only [hdv] at h
          cases hl : lookup ops d.state (some dv)
              (List.take d.namelen (List.drop d.name pathname)) with
          | error f => simp [hl] at h
          | ok lr =>
            have hlr0 := lookup_retval ops _ _ _ lr hle hl
            simp only [hl] at h
            by_cases hlr : lr.retval = 0
            · rw [if_neg (not_not.2 hlr)] at h
              by_cases hslash : (pathname[d.name + d.namelen]? == some '/') = true
              · simp only [hslash, if_true] at h
                split at h
                · rename_i vn v hvn hres
                  by_cases hdir : S_ISDIR vn.vn_mode = true
                  · rw [if_neg (not_not.2 hdir)] at h
                    simp only [Except.ok.injEq] at h
                    subst h
                    exact le_refl _
                  · rw [if_pos hdir] at h
                    simp only [Except.ok.injEq] at h
                    subst h
                    show -ENOTDIR ≤ 0
                    decide
                · simp at h
              · simp only [hslash, Bool.false_eq_true, if_false, Except.ok.injEq] at h
                subst h
                exact le_refl _
            · rw [if_pos hlr] at h
              by_cases hcreat : flag &&& O_CREAT ≠ 0 ∧ lr.retval = -ENOENT
              · rw [if_pos hcreat] at h
                cases hdvn : lr.state.vnodes dv with
                | none => simp [hdvn] at h
                | some dvn =>
                  simp only [hdvn] at h
                  by_cases hc1 : dvn.has_create = false
                  · simp [hc1] at h
                  · have hc1t : dvn.has_create = true := by simpa using hc1
                    simp only [hc1t, Bool.true_eq_false, if_false] at h
                    by_cases hc2 :
                        (ops.create dv (List.take d.namelen (List.drop d.name pathname))).1 = 0
                    · rw [if_neg (not_not.2 hc2)] at h
                      simp only [Except.ok.injEq] at h
                      subst h
                      exact le_refl _
                    · rw [if_pos hc2] at h
                      simp only [Except.ok.injEq] at h
                      subst h
                      exact hce _ _
              · rw [if_neg hcreat] at h
                simp only [Except.ok.injEq] at h
                subst h
                exact hlr0
    · rw [if_pos hret] at h
      simp only [Except.ok.injEq] at h
      subst h
      exact hdr

theorem get_empty_fd_from_spec :
    ∀ (l : List (Option Nat)) (k fd : Nat), get_empty_fd_from l k = some fd →
      k ≤ fd ∧ l[fd - k]? = some none ∧ ∀ i, i < fd - k → ∃ f, l[i]? = some (some f) := by
  intro l
  induction l with
  | nil => intro k fd h; simp [get_empty_fd_from] at h
  | cons slot rest ih =>
    intro k fd h
    cases slot with
    | none =>
      simp only [get_empty_fd_from, if_true, Option.some.injEq] at h
      subst h
      simp
    | some f =>
      simp only [get_empty_fd_from, reduceCtorEq, if_false] at h
      obtain ⟨h1, h2, h3⟩ := ih (k + 1) fd h
      have e : fd - k = (fd - (k + 1)) + 1 := by omega
      refine ⟨by omega, ?_, ?_⟩
      · rw [e, List.getElem?_cons_succ]
        exact h2
      · intro i hi
        cases i with
        | zero => exact ⟨f, by simp⟩
        | succ j =>
          rw [List.getElem?_cons_succ]
          exact h3 j (by omega)

theorem get_empty_fd_spec (l : List (Option Nat)) (fd : Int) (h : get_empty_fd l = fd)
    (h0 : 0 ≤ fd) :
    fd.toNat < l.length ∧ fd < NFILES ∧ l[fd.toNat]? = some none ∧
    ∀ i, i < fd.toNat → ∃ f, l[i]? = some (some f) := by
  unfold get_empty_fd at h
  cases hg : get_empty_fd_from (List.take NFILES l) 0 with
  | none =>
    simp only [hg] at h
    rw [← h] at h0
    exact absurd h0 (by decide)
  | some n =>
    simp only [hg] at h
    subst h
    obtain ⟨_, h2, h3⟩ := get_empty_fd_from_spec _ _ _ hg
    simp only [Nat.sub_zero, Int.toNat_ofNat] at h2 h3 ⊢
    have hn : n < (List.take NFILES l).length := by
      by_contra hge
      rw [List.getElem?_eq_none (not_lt.1 hge)] at h2
      cases h2
    rw [List.length_take] at hn
    have hn1 : n < NFILES := by omega
    refine ⟨by omega, by exact_mod_cast hn1, ?_, ?_⟩
    · rw [List.getElem?_take] at h2
      simpa [hn1] using h2
    · intro i hi
      obtain ⟨f, hf⟩ := h3 i hi
      rw [List.getElem?_take] at hf
      have : i < NFILES := by omega
      exact ⟨f, by simpa [this] using hf⟩

theorem open_mode_ne_zero (oflags : Nat)
    (h : ¬ (oflags &&& O_WRONLY ≠ 0 ∧ oflags &&& O_RDWR ≠ 0)) : open_mode oflags ≠ 0 := by
  have e1 : (3 : Nat) &&& 1 = 1 := by decide
  have e2 : (3 : Nat) &&& 2 = 2 := by decide
  have h1 : (oflags &&& 3) &&& 1 = oflags &&& 1 := by rw [Nat.and_assoc, e1]
  have h2 : (oflags &&& 3) &&& 2 = oflags &&& 2 := by rw [Nat.and_assoc, e2]
  have h3 : oflags &&& 3 ≤ 3 := Nat.and_le_right
  simp only [O_WRONLY, O_RDWR] at h
  have hx3 : oflags &&& 3 ≠ 3 := by
    intro e
    rw [e] at h1 h2
    apply h
    constructor
    · rw [← h1]; decide
    · rw [← h2]; decide
  have hcases : oflags &&& 3 = 0 ∨ oflags &&& 3 = 1 ∨ oflags &&& 3 = 2 := by omega
  rcases hcases with hx | hx | hx <;> by_cases ha : oflags &&& O_APPEND ≠ 0 <;>
    simp [open_mode, hx, ha, O_RDONLY, O_WRONLY, O_RDWR, FMODE_READ, FMODE_WRITE, FMODE_APPEND]

theorem do_close_net (fs : fs_state) (fd : Int) (f : Nat) (file : file_t)
    (hfd : 0 ≤ fd ∧ fd < NFILES) (hslot : fs.p_files.getD fd.toNat none = some f)
    (hfile : fs.files f = some file) (hmode : file.f_mode ≠ 0) (href : file.f_refcount ≠ 0) :
    do_close fs fd = .ok (0, fput { fs with p_files := fs.p_files.set fd.toNat none } f) := by
  have hfile1 : (fref fs f).files f = some { file with f_refcount := file.f_refcount + 1 } := by
    simp [fref, hfile]
  simp only [do_close, fget_open fs fd f hfd hslot, hfile1, hmode, if_false,
    fput_fref fs f file hfile href]

theorem set_set_none (l : List (Option Nat)) (i : Nat) (x : Option Nat)
    (h : l[i]? = some none) : (l.set i x).set i none = l := by
  rw [List.set_set]
  apply List.ext_getElem?
  intro j
  by_cases hj : i = j
  · subst hj
    rw [List.getElem?_set_self (by
      by_contra hge
      rw [List.getElem?_eq_none (not_lt.1 hge)] at h
      cases h), h]
  · rw [List.getElem?_set_ne hj]

theorem do_open_success (ops : vn_ops_t) (root cwd : Option Nat) (s : vfs_state)
    (filename : List Char) (oflags : Nat) (fresh : Option Nat) (fd : Int) (s1 : vfs_state)
    (hnull : s.vnodes 0 = none)
    (hlk : ∀ d n, (ops.lookup d n).1 ≠ 0 → (ops.lookup d n).2 = none)
    (hle : ∀ d n, (ops.lookup d n).1 ≤ 0) (hce : ∀ d n, (ops.create d n).1 ≤ 0)
    (h : do_open ops root cwd s filename oflags fresh = .ok (fd, s1)) (hfd : 0 ≤ fd) :
    fd = get_empty_fd s.fs.p_files ∧
    ∃ f v, fresh = some f ∧ v ≠ 0 ∧
      s1.fs.p_files = s.fs.p_files.set fd.toNat (some f) ∧
      s1.fs.files f = some ⟨1, open_mode oflags, 0, v⟩ ∧ open_mode oflags ≠ 0 ∧
      ∀ u, vn_net s1 u = vn_net s u + held (some v) u := by
  unfold do_open at h
  by_cases hinv : oflags &&& O_WRONLY ≠ 0 ∧ oflags &&& O_RDWR ≠ 0
  · rw [if_pos hinv] at h
    simp only [Except.ok.injEq, Prod.mk.injEq] at h
    rw [← h.1] at hfd
    exact absurd hfd (by decide)
  · rw [if_neg hinv] at h
    by_cases hlong : filename.length > NAME_LEN
    · rw [if_pos hlong] at h
      simp only [Except.ok.injEq, Prod.mk.injEq] at h
      rw [← h.1] at hfd
      exact absurd hfd (by decide)
    · rw [if_neg hlong] at h
      cases fresh with
      | none =>
        simp only [fget_new] at h
        split_ifs at h
      | some f =>
        simp only [fget_new] at h
        by_cases hrange : get_empty_fd s.fs.p_files < 0 ∨
            get_empty_fd s.fs.p_files ≥ (s.fs.p_files.length : Int)
        · rw [if_pos hrange] at h
          cases h
        · rw [if_neg hrange] at h
          split at h
          · cases h
          · rename_i r ho
            have hr0 := open_namev_retval ops root cwd _ filename oflags none r hle hce ho
            by_cases hret : r.retval = 0
            · rw [if_neg (not_not.2 hret)] at h
              obtain ⟨o1, o2, o3, o4⟩ :=
                open_namev_effect ops root cwd _ filename oflags none r hlk ho hret
              cases hv : r.res_vnode with
              | none => simp [hv] at h
              | some v =>
                simp only [hv] at h
                cases hvn : r.state.vnodes v with
                | none => simp [hvn] at h
                | some vn =>
                  simp only [hvn] at h
                  have hv0 : v ≠ 0 := by
                    intro e
                    rw [e, o3] at hvn
                    simp only at hvn
                    rw [hnull] at hvn
                    cases hvn
                  have hm := open_mode_ne_zero oflags hinv
                  by_cases hdir : S_ISDIR vn.vn_mode = true ∧
                      (oflags &&& 0x3 = O_WRONLY ∨ oflags &&& 0x3 = O_RDWR)
                  · rw [if_pos hdir] at h
                    simp only [Except.ok.injEq, Prod.mk.injEq] at h
                    rw [← h.1] at hfd
                    exact absurd hfd (by decide)
                  · rw [if_neg hdir] at h
                    simp only [Except.ok.injEq, Prod.mk.injEq] at h
                    obtain ⟨h1, h2⟩ := h
                    subst h2
                    refine ⟨h1.symm, f, v, rfl, hv0, ?_, by simp [set_file], hm, fun u => ?_⟩
                    · simp only [set_file]
                      rw [o2, ← h1]
                      rfl
                    · have := o4 u
                      rw [hv] at this
                      exact this
            · rw [if_pos hret] at h
              simp only [Except.ok.injEq, Prod.mk.injEq] at h
              rw [← h.1] at hfd
              omega

/-- Claim C18. The lookup and create operations return 0 or a negative error and hand out
a vnode only when they return 0; no vnode lives at the null address. Whenever `do_open`
returns a descriptor `fd ≥ 0`, that is the lowest free slot, it holds a new file object
with one reference on the opened vnode `v`, whose reference count went up by one; and
the `do_close(fd)` that follows returns 0, has the effect of clearing the slot and
one `fput` (one reference less on the file, net), and leaves the descriptor table and the
reference count of every vnode, `v` included, as they were before the open. -/
theorem do_open_close_restores (ops : vn_ops_t) (root cwd : Option Nat) (s : vfs_state)
    (filename : List Char) (oflags : Nat) (fresh : Option Nat) (fd : Int) (s1 : vfs_state)
    (hnull : s.vnodes 0 = none)
    (hlk : ∀ d n, (ops.lookup d n).1 ≠ 0 → (ops.lookup d n).2 = none)
    (hle : ∀ d n, (ops.lookup d n).1 ≤ 0) (hce : ∀ d n, (ops.create d n).1 ≤ 0)
    (hopen : do_open ops root cwd s filename oflags fresh = .ok (fd, s1)) (hfd : 0 ≤ fd) :
    (fd.toNat < s.fs.p_files.length ∧ fd < NFILES ∧ s.fs.p_files[fd.toNat]? = some none ∧
      ∀ i, i < fd.toNat → ∃ g, s.fs.p_files[i]? = some (some g)) ∧
    ∃ f v, s1.fs.p_files = s.fs.p_files.set fd.toNat (some f) ∧
      (s1.fs.files f).map (fun x => (x.f_refcount, x.f_vnode)) = some (1, v) ∧
      (∀ base, vn_refcount base s1 v = vn_refcount base s v + 1) ∧
      ∃ fs2, do_close s1.fs fd = .ok (0, fs2) ∧
        fs2 = fput { s1.fs with p_files := s1.fs.p_files.set fd.toNat none } f ∧
        fs2.p_files = s.fs.p_files ∧ fs2.files f = none ∧
        ∀ base u, vn_refcount base { s1 with fs := fs2 } u = vn_refcount base s u := by
  obtain ⟨hget, f, v, _, hv0, hp, hf, hm, hnet⟩ :=
    do_open_success ops root cwd s filename oflags fresh fd s1 hnull hlk hle hce hopen hfd
  obtain ⟨g1, g2, g3, g4⟩ := get_empty_fd_spec s.fs.p_files fd hget.symm hfd
  have hslot : s1.fs.p_files.getD fd.toNat none = some f := by
    rw [List.getD_eq_getElem?_getD, hp, List.getElem?_set_self g1]
    rfl
  have hclose := do_close_net s1.fs fd f ⟨1, open_mode oflags, 0, v⟩ ⟨hfd, g2⟩ hslot hf hm
    (by show (1 : Int) ≠ 0; decide)
  have hfput : fput { s1.fs with p_files := s1.fs.p_files.set fd.toNat none } f =
      { p_files := s.fs.p_files, files := fun g => if g = f then none else s1.fs.files g,
        vputs := s1.fs.vputs ++ [v] } := by
    simp only [fput, hf, hv0, if_false, sub_self, if_true, hp, set_set_none _ _ _ g3]
  refine ⟨⟨g1, g2, g3, g4⟩, f, v, hp, by simp [hf], fun base => ?_, _, hclose, rfl, ?_, ?_, ?_⟩
  · have := hnet v
    simp only [vn_refcount, vn_net, held, if_true] at this ⊢
    omega
  · rw [hfput]
  · rw [hfput]
    simp
  · intro base u
    rw [hfput]
    have := hnet u
    simp only [vn_refcount, vn_net, held, List.count_append, List.count_singleton,
      Option.some.injEq] at this ⊢
    by_cases e : v = u
    · subst e
      simp only [if_true, beq_self_eq_true] at this ⊢
      push_cast
      omega
    · have e1 : ¬ (u = v) := fun x => e x.symm
      simp only [e, if_false] at this
      simp only [beq_iff_eq, e1, if_false]
      push_cast
      omega

/-- Witness for C18: `do_open("/a/b", O_RDONLY)` in `tree_state` returns descriptor 0. -/
theorem do_open_close_restores_witness :
    do_open tree_ops (some 1) (some 1) tree_state ['/', 'a', '/', 'b'] O_RDONLY (some 500) =
      .ok (0, tree_opened) ∧
    ((0 : Int).toNat < tree_state.fs.p_files.length ∧ (0 : Int) < NFILES ∧
      tree_state.fs.p_files[(0 : Int).toNat]? = some none ∧
      ∀ i, i < (0 : Int).toNat → ∃ g, tree_state.fs.p_files[i]? = some (some g)) ∧
    ∃ f v, tree_opened.fs.p_files = tree_state.fs.p_files.set (0 : Int).toNat (some f) ∧
      (tree_opened.fs.files f).map (fun x => (x.f_refcount, x.f_vnode)) = some (1, v) ∧
      (∀ base, vn_refcount base tree_opened v = vn_refcount base tree_state v + 1) ∧
      ∃ fs2, do_close tree_opened.fs 0 = .ok (0, fs2) ∧
        fs2 = fput { tree_opened.fs with
          p_files := tree_opened.fs.p_files.set (0 : Int).toNat none } f ∧
        fs2.p_files = tree_state.fs.p_files ∧ fs2.files f = none ∧
        ∀ base u, vn_refcount base { tree_opened with fs := fs2 } u =
          vn_refcount base tree_state u :=
  ⟨rfl,
   do_open_close_restores tree_ops (some 1) (some 1) tree_state ['/', 'a', '/', 'b'] O_RDONLY
    (some 500) 0 tree_opened rfl
    (by intro d n h
        simp only [tree_ops] at h ⊢
        split_ifs at h ⊢ <;> simp_all)
    (by intro d n
        simp only [tree_ops]
        split_ifs <;> decide)
    (by intro d n
        show -ENOMEM ≤ 0
        decide)
    rfl (by decide)⟩

/-- Claim C17, evaluated on the code. With all `NFILES` descriptors open `get_empty_fd`
returns `-EMFILE`, and `do_open` uses that value as the index of the slot it stores the
new file in: a store before the start of the table. -/
theorem do_open_full_table_writes_outside :
    full_table.fs.p_files.length = NFILES ∧ (∀ slot ∈ full_table.fs.p_files, slot ≠ none) ∧
    get_empty_fd full_table.fs.p_files = -EMFILE ∧
    do_open example_ops (some 1) (some 1) full_table ['/', 'l', 'o', 'g'] O_RDONLY (some 500) =
      .error .outOfBounds :=
  ⟨rfl, by decide, rfl, rfl⟩

/-! ## Mapping memory and the break -/

/-- Claim C27, evaluated on the code. With a flags word that holds both `MAP_SHARED` and
`MAP_PRIVATE` (and `MAP_ANON`), on the address space of `heap_proc`, `do_mmap(0, 4096,
PROT_READ, flags, -1, 0, &ret)` returns 0, stores `0xbffff000` through `ret` and has added
the area `[0xbffff, 0xc0000)` to the address space. -/
theorem do_mmap_shared_and_private :
    ∃ r, do_mmap heap_proc.p_vmmap dup2_state id 0 4096 PROT_READ
        (MAP_SHARED ||| MAP_PRIVATE ||| MAP_ANON) (-1) 0 50 = .ok r ∧
      MAP_SHARED &&& (MAP_SHARED ||| MAP_PRIVATE ||| MAP_ANON) ≠ 0 ∧
      MAP_PRIVATE &&& (MAP_SHARED ||| MAP_PRIVATE ||| MAP_ANON) ≠ 0 ∧
      r.retval = 0 ∧ r.ret = some 0xbffff000 ∧
      r.map.vmm_list =
        heap_proc.p_vmmap.vmm_list ++ [⟨0xbffff, 0xc0000, 0, 1, 11, 51, some 7⟩] ∧
      r.map ≠ heap_proc.p_vmmap :=
  ⟨_, rfl, by decide, by decide, by decide, by decide, by decide, by decide⟩

/-- Claim C28. `do_brk(NULL, &ret)` returns 0 with `ret = p_brk` and changes nothing; for
every `addr ≠ NULL` below `p_start_brk` it returns `-ENOMEM`, stores nothing and leaves the
break and the address space as they were; `do_brk(p_start_brk, &ret)` returns 0 with
`ret = p_start_brk` (for a start break that is not the null address). -/
theorem do_brk_null_and_low (p : proc_vm) (addr fresh : Nat) :
    do_brk p 0 fresh = .ok { retval := 0, ret := some p.p_brk, proc := p } ∧
    (addr ≠ 0 → addr < p.p_start_brk →
      do_brk p addr fresh = .ok { retval := -ENOMEM, ret := none, proc := p }) ∧
    (p.p_start_brk ≠ 0 →
      do_brk p p.p_start_brk fresh =
        .ok { retval := 0, ret := some p.p_start_brk, proc := p }) := by
  refine ⟨by simp [do_brk], fun h0 hlt => by simp [do_brk, h0, hlt], fun h0 => ?_⟩
  simp [do_brk, h0]

/-- Witness for C28 on `heap_proc`, whose start break is `0x0804a000`. -/
theorem do_brk_null_and_low_witness :
    do_brk heap_proc 0 50 = .ok { retval := 0, ret := some 0x0804a800, proc := heap_proc } ∧
    do_brk heap_proc 0x08049000 50 = .ok { retval := -ENOMEM, ret := none, proc := heap_proc } ∧
    do_brk heap_proc 0x0804a000 50 =
      .ok { retval := 0, ret := some 0x0804a000, proc := heap_proc } :=
  ⟨(do_brk_null_and_low heap_proc 0x08049000 50).1,
   (do_brk_null_and_low heap_proc 0x08049000 50).2.1 (by decide) (by decide),
   (do_brk_null_and_low heap_proc 0x08049000 50).2.2 (by decide)⟩

/-- Claim C29, evaluated on the code. The process `bss_proc` has its start break
`0x08049800` inside the last page of its data; `do_brk(0x0804b800)` gives it the heap area
`[0x804a, 0x804c)` and a break that is not page-aligned (`bss_grown`). From there
`do_brk(0x08049c00)`, with `p_start_brk < addr < p_brk`, looks up page `0x804c`, one past
the heap area, and dereferences the null result; and `do_brk(p_start_brk)` returns 0 and
leaves the break and the heap pages `0x804a`, `0x804b` as they were. -/
theorem do_brk_shrink_below_data_end :
    do_brk bss_proc 0x0804b800 10 = .ok ⟨0, some 0x0804b800, bss_grown⟩ ∧
    (bss_grown.p_start_brk ≤ 0x08049c00 ∧ 0x08049c00 < bss_grown.p_brk) ∧
    vmmap_lookup bss_grown.p_vmmap 0x804c = none ∧
    do_brk bss_grown 0x08049c00 20 = .error .nullDeref ∧
    do_brk bss_grown 0x08049800 20 = .ok ⟨0, some 0x08049800, bss_grown⟩ ∧
    (0x08049800 + PAGE_SIZE - 1) / PAGE_SIZE = 0x804a ∧
    vmmap_lookup bss_grown.p_vmmap 0x804a ≠ none := by
  exact ⟨rfl, by decide, rfl, rfl, rfl, by decide, by decide⟩

/-! ## Inserting an area -/

theorem vmmap_insert_loop_split (newvma : vmarea_t) (l : List vmarea_t) :
    vmmap_insert_loop newvma l =
      l.takeWhile (fun v => decide (v.vma_start < newvma.vma_end)) ++
        newvma :: l.dropWhile (fun v => decide (v.vma_start < newvma.vma_end)) := by
  induction l with
  | nil => rfl
  | cons a rest ih =>
    by_cases h : a.vma_start < newvma.vma_end
    · simp [vmmap_insert_loop, List.takeWhile, List.dropWhile, h, not_le.2 h, ih]
    · simp [vmmap_insert_loop, List.takeWhile, List.dropWhile, h, not_lt.1 h]

theorem mem_vmmap_insert_loop (newvma x : vmarea_t) (l : List vmarea_t) :
    x ∈ vmmap_insert_loop newvma l ↔ x = newvma ∨ x ∈ l := by
  induction l with
  | nil => simp [vmmap_insert_loop]
  | cons a rest ih =>
    simp only [vmmap_insert_loop]
    split_ifs with h
    · simp
    · simp only [List.mem_cons, ih]
      tauto

theorem vmmap_insert_loop_chain (newvma : vmarea_t) (l : List vmarea_t) (hc : vmmap_chain l)
    (hlt : newvma.vma_start < newvma.vma_end)
    (hlo : ADDR_TO_PN USER_MEM_LOW ≤ newvma.vma_start)
    (hhi : newvma.vma_end ≤ ADDR_TO_PN USER_MEM_HIGH)
    (hfree : ∀ v ∈ l, v.vma_end ≤ newvma.vma_start ∨ newvma.vma_end ≤ v.vma_start) :
    vmmap_chain (vmmap_insert_loop newvma l) := by
  induction l with
  | nil =>
    refine ⟨by simp [vmmap_insert_loop], ?_⟩
    intro v hv
    simp only [vmmap_insert_loop, List.mem_singleton] at hv
    subst hv
    exact ⟨hlt, hlo, hhi⟩
  | cons a rest ih =>
    obtain ⟨hp, hv⟩ := hc
    have hp2 := List.pairwise_cons.1 hp
    have ha := hv a (List.mem_cons_self _ _)
    have hrest : vmmap_chain rest := ⟨hp2.2, fun v h => hv v (List.mem_cons_of_mem _ h)⟩
    have ih2 := ih hrest (fun v h => hfree v (List.mem_cons_of_mem _ h))
    simp only [vmmap_insert_loop]
    split_ifs with h
    · refine ⟨List.pairwise_cons.2 ⟨?_, hp⟩, ?_⟩
      · intro b hb
        rcases List.mem_cons.1 hb with rfl | hb
        · exact h
        · have := hp2.1 b hb
          omega
      · intro v hv2
        rcases List.mem_cons.1 hv2 with rfl | hv2
        · exact ⟨hlt, hlo, hhi⟩
        · exact hv v hv2
    · have hfa := hfree a (List.mem_cons_self _ _)
      refine ⟨List.pairwise_cons.2 ⟨?_, ih2.1⟩, ?_⟩
      · intro b hb
        rcases (mem_vmmap_insert_loop _ _ _).1 hb with rfl | hb
        · omega
        · exact hp2.1 b hb
      · intro v hv2
        rcases List.mem_cons.1 hv2 with rfl | hv2
        · exact ha
        · exact ih2.2 v hv2

/-- Claim C30. For an address space that satisfies the ordering invariant and an
unattached `newvma` with `vma_start < vma_end` inside the user page range that intersects
no area of the map, `vmmap_insert` returns, the areas that start below the end of `newvma`
stay in front in their order, `newvma` with `vma_vmmap` set to the map comes next, directly
before the first area that starts at or after its end (at the tail when there is none),
the remaining areas follow in their order, and the result satisfies the ordering invariant. -/
theorem vmmap_insert_keeps_ordering (map : vmmap_t) (newvma : vmarea_t)
    (hord : vmmap_ordered map.vmm_list)
    (hun : newvma.vma_vmmap = none)
    (hlt : newvma.vma_start < newvma.vma_end)
    (hlo : ADDR_TO_PN USER_MEM_LOW ≤ newvma.vma_start)
    (hhi : newvma.vma_end ≤ ADDR_TO_PN USER_MEM_HIGH)
    (hfree : ∀ v ∈ map.vmm_list, v.vma_end ≤ newvma.vma_start ∨ newvma.vma_end ≤ v.vma_start) :
    ∃ m, vmmap_insert map newvma = .ok m ∧ m.self = map.self ∧
      m.vmm_list =
        map.vmm_list.takeWhile (fun v => decide (v.vma_start < newvma.vma_end)) ++
          { newvma with vma_vmmap := some map.self } ::
            map.vmm_list.dropWhile (fun v => decide (v.vma_start < newvma.vma_end)) ∧
      (∀ v ∈ (map.vmm_list.dropWhile (fun v => decide (v.vma_start < newvma.vma_end))).head?,
        newvma.vma_end ≤ v.vma_start) ∧
      vmmap_ordered m.vmm_list := by
  refine ⟨{ map with vmm_list :=
      vmmap_insert_loop { newvma with vma_vmmap := some map.self } map.vmm_list }, ?_, rfl, ?_, ?_, ?_⟩
  · simp only [vmmap_insert, hun, ne_eq, not_true_eq_false, if_false, hlt, hlo, hhi,
      ge_iff_le, and_self]
  · exact vmmap_insert_loop_split { newvma with vma_vmmap := some map.self } map.vmm_list
  · intro v hv
    have := List.head?_dropWhile_not (fun v : vmarea_t => decide (v.vma_start < newvma.vma_end))
      map.vmm_list
    rw [Option.mem_def] at hv
    rw [hv] at this
    simpa using this
  · exact (vmmap_ordered_iff_chain _).2
      (vmmap_insert_loop_chain { newvma with vma_vmmap := some map.self } map.vmm_list
        ((vmmap_ordered_iff_chain _).1 hord) hlt hlo hhi hfree)

/-- Witness for C30: the area `[0x804c, 0x804e)` inserted into the address space of
`heap_proc`, whose areas are `[0x8048, 0x804a)` and `[0x804a, 0x804b)`. -/
theorem vmmap_insert_keeps_ordering_witness :
    vmmap_ordered heap_proc.p_vmmap.vmm_list ∧
    ∃ m, vmmap_insert heap_proc.p_vmmap ⟨0x804c, 0x804e, 0, 3, 2, 21, none⟩ = .ok m ∧
      m.self = heap_proc.p_vmmap.self ∧
      m.vmm_list =
        heap_proc.p_vmmap.vmm_list.takeWhile (fun v => decide (v.vma_start < 0x804e)) ++
          ⟨0x804c, 0x804e, 0, 3, 2, 21, some 7⟩ ::
            heap_proc.p_vmmap.vmm_list.dropWhile (fun v => decide (v.vma_start < 0x804e)) ∧
      (∀ v ∈ (heap_proc.p_vmmap.vmm_list.dropWhile (fun v => decide (v.vma_start < 0x804e))).head?,
        0x804e ≤ v.vma_start) ∧
      vmmap_ordered m.vmm_list :=
  have hord : vmmap_ordered heap_proc.p_vmmap.vmm_list := by
    simp [vmmap_ordered, heap_proc, ADDR_TO_PN, USER_MEM_LOW, USER_MEM_HIGH, PAGE_SIZE, PAGE_SHIFT]
  ⟨hord, vmmap_insert_keeps_ordering heap_proc.p_vmmap ⟨0x804c, 0x804e, 0, 3, 2, 21, none⟩ hord rfl
    (by decide) (by decide) (by decide) (by simp [heap_proc])⟩

/-! ## Mapping and unmapping -/

theorem U32_eq : U32 = 4294967296 := by decide

theorem u32sub_of_le (a b : Nat) (hb : b ≤ a) (ha : a < U32) : u32sub a b = a - b := by
  unfold u32sub
  rw [U32_eq] at *
  omega

theorem u32add_of_lt (a b : Nat) (h : a + b < U32) : u32add a b = a + b := by
  unfold u32add
  exact Nat.mod_eq_of_lt h

theorem u32toInt_of_lt (a : Nat) (h : a < 2 ^ 31) : u32toInt a = (a : Int) := by
  unfold u32toInt
  have h2 : a % U32 = a := Nat.mod_eq_of_lt (by rw [U32_eq]; omega)
  rw [h2, if_pos h]

theorem LOW_PN_eq : ADDR_TO_PN USER_MEM_LOW = 0x400 := by decide
theorem HIGH_PN_eq : ADDR_TO_PN USER_MEM_HIGH = 0xc0000 := by decide

theorem vmmap_find_range_scan_spec (npages : Nat) :
    ∀ (rest : List vmarea_t) (ue : Nat) (prev : Option vmarea_t) (s : Int),
      rest.Pairwise (fun a b => b.vma_end ≤ a.vma_start) →
      (∀ v ∈ rest, v.vma_start < v.vma_end ∧ ADDR_TO_PN USER_MEM_LOW ≤ v.vma_start ∧
        v.vma_end ≤ ue) →
      ue ≤ ADDR_TO_PN USER_MEM_HIGH →
      (∀ p, prev = some p → p.vma_start = ue ∧ ADDR_TO_PN USER_MEM_LOW ≤ ue) →
      vmmap_find_range_scan npages ue prev rest = .ok s → 0 ≤ s →
      ∃ S : Nat, s = (S : Int) ∧ ADDR_TO_PN USER_MEM_LOW ≤ S ∧ S + npages ≤ ue ∧
        ∀ v ∈ rest, v.vma_end ≤ S ∨ S + npages ≤ v.vma_start := by
  intro rest
  induction rest with
  | nil =>
    intro ue prev s _ _ hue hprev h hs
    cases prev with
    | none => simp [vmmap_find_range_scan] at h
    | some vma =>
      obtain ⟨h1, h2⟩ := hprev vma rfl
      rw [LOW_PN_eq] at *
      rw [HIGH_PN_eq] at hue
      simp only [vmmap_find_range_scan] at h
      rw [LOW_PN_eq, u32sub_of_le _ _ (by omega) (by rw [U32_eq]; omega)] at h
      split_ifs at h with hc
      · rw [u32sub_of_le _ _ (by omega) (by rw [U32_eq]; omega),
          u32toInt_of_lt _ (by omega)] at h
        refine ⟨vma.vma_start - npages, ?_, by omega, by omega, by simp⟩
        exact (Except.ok.inj h).symm
      · have := Except.ok.inj h
        omega
  | cons vma rest ih =>
    intro ue prev s hp hv hue hprev h hs
    have hp2 := List.pairwise_cons.1 hp
    have hva := hv vma (List.mem_cons_self _ _)
    have hue2 := hue
    rw [HIGH_PN_eq] at hue2
    simp only [vmmap_find_range_scan] at h
    rw [u32sub_of_le _ _ hva.2.2 (by rw [U32_eq]; omega)] at h
    split_ifs at h with hc
    · rw [u32sub_of_le _ _ (by omega) (by rw [U32_eq]; omega),
        u32toInt_of_lt _ (by omega)] at h
      refine ⟨ue - npages, (Except.ok.inj h).symm, by omega, by omega, ?_⟩
      intro v hvm
      left
      rcases List.mem_cons.1 hvm with rfl | hvm
      · omega
      · have := hp2.1 v hvm
        omega
    · obtain ⟨S, hS, hlo, hhi, hall⟩ := ih vma.vma_start (some vma) s hp2.2
        (fun v hvm => ⟨(hv v (List.mem_cons_of_mem _ hvm)).1,
          (hv v (List.mem_cons_of_mem _ hvm)).2.1, hp2.1 v hvm⟩)
        (by omega) (fun p hpe => by cases hpe; exact ⟨rfl, hva.2.1⟩) h hs
      refine ⟨S, hS, hlo, by omega, ?_⟩
      intro v hvm
      rcases List.mem_cons.1 hvm with rfl | hvm
      · exact Or.inr hhi
      · exact hall v hvm

theorem vmmap_find_range_spec (map : vmmap_t) (npages : Nat) (s : Int)
    (hc : vmmap_chain map.vmm_list)
    (h : vmmap_find_range map npages VMMAP_DIR_HILO = .ok s) (hs : 0 ≤ s) :
    ∃ S : Nat, s = (S : Int) ∧ ADDR_TO_PN USER_MEM_LOW ≤ S ∧
      S + npages ≤ ADDR_TO_PN USER_MEM_HIGH ∧
      ∀ v ∈ map.vmm_list, v.vma_end ≤ S ∨ S + npages ≤ v.vma_start := by
  simp only [vmmap_find_range, if_true] at h
  obtain ⟨S, h1, h2, h3, h4⟩ := vmmap_find_range_scan_spec npages map.vmm_list.reverse
    (ADDR_TO_PN USER_MEM_HIGH) none s (List.pairwise_reverse.2 hc.1)
    (fun v hv => hc.2 v (List.mem_reverse.1 hv)) le_rfl (fun p hp => by cases hp) h hs
  exact ⟨S, h1, h2, h3, fun v hv => h4 v (List.mem_reverse.2 hv)⟩

theorem vmmap_insert_idx_get (newvma : vmarea_t) (l : List vmarea_t) :
    (vmmap_insert_loop newvma l)[vmmap_insert_idx newvma l]? = some newvma := by
  induction l with
  | nil => rfl
  | cons a rest ih =>
    simp only [vmmap_insert_loop, vmmap_insert_idx]
    split_ifs with h
    · rfl
    · simpa using ih

theorem vmmap_insert_idx_congr (v w : vmarea_t) (h : v.vma_end = w.vma_end) (l : List vmarea_t) :
    vmmap_insert_idx v l = vmmap_insert_idx w l := by
  induction l with
  | nil => rfl
  | cons a rest ih => simp only [vmmap_insert_idx, h, ih]

theorem vmmap_remove_loop_insert (m : Nat) (newvma : vmarea_t) (l : List vmarea_t)
    (hc : vmmap_chain l) (hlt : newvma.vma_start < newvma.vma_end)
    (hfree : ∀ v ∈ l, v.vma_end ≤ newvma.vma_start ∨ newvma.vma_end ≤ v.vma_start) :
    (vmmap_remove_loop m newvma.vma_start newvma.vma_start newvma.vma_end
      (vmmap_insert_loop newvma l)).1 = l := by
  have hnew : ∀ rest, (vmmap_remove_loop m newvma.vma_start newvma.vma_start newvma.vma_end
      (newvma :: rest)).1 = rest := by
    intro rest
    have h1 : ¬ (newvma.vma_start > newvma.vma_end ∨ newvma.vma_end < newvma.vma_start) := by
      omega
    simp [vmmap_remove_loop, h1, drop_if_empty, hlt.le]
  induction l with
  | nil => exact hnew []
  | cons a rest ih =>
    obtain ⟨hp, hv⟩ := hc
    have hp2 := List.pairwise_cons.1 hp
    have ha := hv a (List.mem_cons_self _ _)
    have hrest : vmmap_chain rest := ⟨hp2.2, fun v h => hv v (List.mem_cons_of_mem _ h)⟩
    have ih2 := ih hrest (fun v h => hfree v (List.mem_cons_of_mem _ h))
    simp only [vmmap_insert_loop]
    split_ifs with h
    · exact hnew _
    · have hfa := hfree a (List.mem_cons_self _ _)
      have hae : a.vma_end ≤ newvma.vma_start := by omega
      simp only [vmmap_remove_loop]
      by_cases heq : a.vma_end = newvma.vma_start
      · rw [← heq] at ih2 hlt ⊢
        have hflg : ¬ (a.vma_end > a.vma_end ∨ newvma.vma_end < a.vma_start) := by omega
        have hc1 : ¬ newvma.vma_end ≤ a.vma_end := by omega
        have hc3 : a.vma_start ≤ a.vma_end := by omega
        have hc4 : a.vma_start ≤ newvma.vma_end := by omega
        have hne : a.vma_start ≠ a.vma_end := by omega
        simp [hflg, hc1, hlt, hc3, hc4, drop_if_empty, hne, ih2]
      · have hflg : (newvma.vma_start > a.vma_end ∨ newvma.vma_end < a.vma_start) := by omega
        simp [hflg, ih2]

theorem do_mmap_anon_private_eq (map : vmmap_t) (fs : fs_state) (vn_obj : Nat → Nat)
    (len prot fresh : Nat) (hl : ¬ (len ≤ 0 ∨ len > USER_MEM_HIGH - USER_MEM_LOW)) :
    do_mmap map fs vn_obj 0 len prot (MAP_PRIVATE ||| MAP_ANON) (-1) 0 fresh =
      match vmmap_map map none 0 ((len - 1) / PAGE_SIZE + 1) prot (MAP_PRIVATE ||| MAP_ANON) 0
          VMMAP_DIR_HILO fresh with
      | .error f => .error f
      | .ok r =>
        if r.retval < 0 then
          .ok { retval := r.retval, ret := none, map := r.map, fs := fs,
                called := some (0, (len - 1) / PAGE_SIZE + 1), events := r.events }
        else
          match r.new.bind (fun i => r.map.vmm_list[i]?) with
          | none => .error .nullDeref
          | some mmap =>
            .ok { retval := r.retval, ret := some (PN_TO_ADDR mmap.vma_start), map := r.map,
                  fs := fs, called := some (0, (len - 1) / PAGE_SIZE + 1), events := r.events } := by
  have h1 : (MAP_PRIVATE ||| MAP_ANON) ^^^ MAP_FIXED ≠ 0 := by decide
  have h2 : MAP_PRIVATE &&& (MAP_PRIVATE ||| MAP_ANON) ≠ 0 := by decide
  have h3 : (MAP_PRIVATE ||| MAP_ANON) &&& MAP_FIXED = 0 := by decide
  have h4 : (MAP_PRIVATE ||| MAP_ANON) &&& MAP_ANON ≠ 0 := by decide
  have h5 : PAGE_ALIGNED 0 = true := by decide
  have h6 : ADDR_TO_PN 0 = 0 := by decide
  have hor : ¬ ¬ (MAP_SHARED &&& (MAP_PRIVATE ||| MAP_ANON) ≠ 0 ∨
      MAP_PRIVATE &&& (MAP_PRIVATE ||| MAP_ANON) ≠ 0) := not_not.2 (Or.inr h2)
  simp only [do_mmap, hl, if_false, h5, h1, hor, h3, h4, h6]
  simp

theorem vmmap_map_anon_private_eq (map : vmmap_t) (npages prot fresh : Nat) (hn : 0 < npages) :
    vmmap_map map none 0 npages prot (MAP_PRIVATE ||| MAP_ANON) 0 VMMAP_DIR_HILO fresh =
      match vmmap_find_range map npages VMMAP_DIR_HILO with
      | .error f => .error f
      | .ok s =>
        if s < 0 then .ok { retval := s, map := map, new := none, events := [] }
        else
          match vmmap_insert map ⟨s.toNat, u32add s.toNat npages, 0, prot,
              MAP_PRIVATE ||| MAP_ANON, fresh + 1, none⟩ with
          | .error f => .error f
          | .ok map2 =>
            .ok { retval := 0, map := map2,
                  new := some (vmmap_insert_idx ⟨s.toNat, u32add s.toNat npages, 0, prot,
                    MAP_PRIVATE ||| MAP_ANON, fresh + 1, none⟩ map.vmm_list),
                  events := [VmEvent.anon_create fresh, VmEvent.shadow_create (fresh + 1) fresh] } := by
  have h2 : MAP_PRIVATE &&& (MAP_PRIVATE ||| MAP_ANON) ≠ 0 := by decide
  have h3 : ((MAP_PRIVATE ||| MAP_ANON) &&& MAP_PRIVATE == MAP_PRIVATE) = true := by decide
  have h5 : PAGE_ALIGNED 0 = true := by decide
  have h6 : ADDR_TO_PN 0 = 0 := by decide
  have hor : ¬ ¬ (MAP_SHARED &&& (MAP_PRIVATE ||| MAP_ANON) ≠ 0 ∨
      MAP_PRIVATE &&& (MAP_PRIVATE ||| MAP_ANON) ≠ 0) := not_not.2 (Or.inr h2)
  simp only [vmmap_map, hn, hor, h3, h5, h6]
  cases hf : vmmap_find_range map npages VMMAP_DIR_HILO with
  | error f => simp
  | ok s =>
    by_cases hs : s < 0
    · simp [hs]
    · simp [hs]

/-- Claim C26. On an address space that satisfies the ordering invariant, when
`do_mmap(0, len, prot, MAP_PRIVATE | MAP_ANON, -1, 0, &a)` returns 0, it has stored an
address `a`, and `do_munmap(a, len)` on the resulting address space returns 0 and leaves
the address space exactly as it was before the `do_mmap`: the same areas in the same
order, each with its range and offset. -/
theorem do_mmap_munmap_restores (map : vmmap_t) (fs : fs_state) (vn_obj : Nat → Nat)
    (len prot fresh : Nat) (r : MmapResult)
    (hord : vmmap_ordered map.vmm_list)
    (h : do_mmap map fs vn_obj 0 len prot (MAP_PRIVATE ||| MAP_ANON) (-1) 0 fresh = .ok r)
    (hret : r.retval = 0) :
    ∃ a, r.ret = some a ∧ (do_munmap r.map a len).1 = 0 ∧ (do_munmap r.map a len).2.1 = map := by
  have hch := (vmmap_ordered_iff_chain _).1 hord
  by_cases hl : len ≤ 0 ∨ len > USER_MEM_HIGH - USER_MEM_LOW
  · simp only [do_mmap, hl, if_true] at h
    have := Except.ok.inj h
    rw [← this] at hret
    have hE : (-EINVAL : Int) = 0 := hret
    exact absurd hE (by decide)
  rw [do_mmap_anon_private_eq _ _ _ _ _ _ hl, vmmap_map_anon_private_eq _ _ _ _ (Nat.succ_pos _)] at h
  cases hf : vmmap_find_range map ((len - 1) / PAGE_SIZE + 1) VMMAP_DIR_HILO with
  | error f => simp [hf] at h
  | ok s =>
    simp only [hf] at h
    by_cases hs : s < 0
    · simp only [hs, if_true] at h
      have := Except.ok.inj h
      rw [← this] at hret
      simp only at hret
      omega
    simp only [hs, if_false] at h
    obtain ⟨S, hS, hlo, hhi, hfree⟩ := vmmap_find_range_spec map _ s hch hf (by omega)
    subst hS
    simp only [Int.toNat_ofNat] at h
    have hU : (S + ((len - 1) / PAGE_SIZE + 1)) < U32 := by
      rw [HIGH_PN_eq] at hhi
      rw [U32_eq]
      omega
    rw [u32add_of_lt _ _ hU] at h
    have hPS : PAGE_SIZE = 4096 := by decide
    have hLO : USER_MEM_LOW = 4194304 := by decide
    have hHI : USER_MEM_HIGH = 3221225472 := by decide
    have hlo2 := hlo
    have hhi2 := hhi
    rw [LOW_PN_eq] at hlo2
    rw [HIGH_PN_eq, hPS] at hhi2
    have hins : vmmap_insert map ⟨S, S + ((len - 1) / PAGE_SIZE + 1), 0, prot,
        MAP_PRIVATE ||| MAP_ANON, fresh + 1, none⟩ =
        .ok { map with vmm_list := vmmap_insert_loop ⟨S, S + ((len - 1) / PAGE_SIZE + 1), 0, prot,
          MAP_PRIVATE ||| MAP_ANON, fresh + 1, some map.self⟩ map.vmm_list } := by
      simp [vmmap_insert, hlo, hhi]
    rw [hins] at h
    rw [vmmap_insert_idx_congr ⟨S, S + ((len - 1) / PAGE_SIZE + 1), 0, prot,
          MAP_PRIVATE ||| MAP_ANON, fresh + 1, none⟩ ⟨S, S + ((len - 1) / PAGE_SIZE + 1), 0, prot,
          MAP_PRIVATE ||| MAP_ANON, fresh + 1, some map.self⟩ rfl] at h
    simp only [Option.bind, vmmap_insert_idx_get, lt_self_iff_false, if_false] at h
    have hr := Except.ok.inj h
    subst hr
    refine ⟨PN_TO_ADDR S, rfl, ?_⟩
    have hPN : PN_TO_ADDR S = S * 4096 := by
      unfold PN_TO_ADDR
      rw [hPS, U32_eq]
      omega
    have hlen : 0 < len ∧ len ≤ 3221225472 - 4194304 := by
      rw [hLO, hHI] at hl
      omega
    have hA : ADDR_TO_PN (S * 4096) = S := by
      unfold ADDR_TO_PN
      rw [hPS]
      omega
    have hAl : PAGE_ALIGNED (S * 4096) = true := by
      unfold PAGE_ALIGNED
      rw [hPS]
      simp
    have hsub : u32sub USER_MEM_HIGH (S * 4096) = 3221225472 - S * 4096 := by
      rw [hHI, u32sub_of_le _ _ (by omega) (by rw [U32_eq]; omega)]
    have hnp : (if len % PAGE_SIZE ≠ 0 then u32add (len / PAGE_SIZE) 1 else len / PAGE_SIZE) =
        (len - 1) / PAGE_SIZE + 1 := by
      rw [hPS]
      split_ifs with hm
      · rw [u32add_of_lt _ _ (by rw [U32_eq]; omega)]
        omega
      · omega
    have hc1 : ¬ (len ≤ 0 ∨ S * 4096 = 0) := by omega
    have hc2 : ¬ (S * 4096 < USER_MEM_LOW ∨ u32sub USER_MEM_HIGH (S * 4096) < len) := by
      rw [hsub, hLO]
      omega
    simp only [do_munmap, hPN, hc1, hc2, if_false, hAl, hA, hnp, vmmap_remove,
      u32add_of_lt _ _ hU, not_true_eq_false]
    have hrem := vmmap_remove_loop_insert map.self ⟨S, S + ((len - 1) / PAGE_SIZE + 1), 0, prot,
      MAP_PRIVATE ||| MAP_ANON, fresh + 1, some map.self⟩ map.vmm_list hch
      (Nat.lt_add_of_pos_right (Nat.succ_pos _)) hfree
    simp only at hrem
    refine ⟨trivial, ?_⟩
    rw [hrem]

/-- Witness for C26: an anonymous private mapping of 5000 bytes (two pages) in the address
space of `heap_proc`, and its removal. -/
theorem do_mmap_munmap_restores_witness :
    vmmap_ordered heap_proc.p_vmmap.vmm_list ∧
    ∃ r, do_mmap heap_proc.p_vmmap dup2_state id 0 5000 3 (MAP_PRIVATE ||| MAP_ANON) (-1) 0 50
        = .ok r ∧ r.retval = 0 ∧
      r.map.vmm_list = heap_proc.p_vmmap.vmm_list ++ [⟨0xbfffe, 0xc0000, 0, 3, 10, 51, some 7⟩] ∧
      ∃ a, r.ret = some a ∧ (do_munmap r.map a 5000).1 = 0 ∧
        (do_munmap r.map a 5000).2.1 = heap_proc.p_vmmap :=
  have hord : vmmap_ordered heap_proc.p_vmmap.vmm_list := by
    simp [vmmap_ordered, heap_proc, ADDR_TO_PN, USER_MEM_LOW, USER_MEM_HIGH, PAGE_SIZE, PAGE_SHIFT]
  ⟨hord, _, rfl, by decide, by decide,
    do_mmap_munmap_restores heap_proc.p_vmmap dup2_state id 5000 3 50 _ hord rfl (by decide)⟩

/-! ## References held across path resolution -/

theorem dir_namev_loop_fail (ops : vn_ops_t)
    (hops : ∀ dir n, (ops.lookup dir n).1 < 0 → (ops.lookup dir n).2 = none) :
    ∀ (comps : List (List Char)) (s : vfs_state) (curr prev : Option Nat)
      (ret : Int) (curr1 prev1 : Option Nat) (s1 : vfs_state),
      dir_namev_loop ops s comps curr prev = .ok (ret, curr1, prev1, s1) → ret ≠ 0 →
      ∀ u, vn_net s1 u = vn_net s u - held prev u := by
  intro comps
  induction comps with
  | nil =>
    intro s curr prev ret curr1 prev1 s1 h hne
    simp only [dir_namev_loop, Except.ok.injEq, Prod.mk.injEq] at h
    exact absurd h.1.symm hne
  | cons c rest ih =>
    intro s curr prev ret curr1 prev1 s1 h hne
    by_cases hc : c.length = 0
    · simp only [dir_namev_loop, hc, if_true] at h
      exact ih s curr prev ret curr1 prev1 s1 h hne
    · simp only [dir_namev_loop, hc, if_false] at h
      cases hl : lookup ops s curr c with
      | error f => simp [hl] at h
      | ok r =>
        simp only [hl] at h
        obtain ⟨_, _, _, l4, l5⟩ := lookup_effect ops s curr c r hl
        obtain ⟨_, _, _, p4⟩ := vput_prev_effect r.state prev
        by_cases hneg : r.retval < 0
        · rw [if_pos hneg] at h
          simp only [Except.ok.injEq, Prod.mk.injEq] at h
          obtain ⟨_, _, _, rfl⟩ := h
          have hnone : r.result = none := by
            rcases l5 with ⟨_, h2⟩ | ⟨d, _, h1, h2⟩
            · exact h2
            · rw [h2]
              exact hops d c (h1 ▸ hneg)
          intro u
          rw [p4 u, l4 u, hnone]
          simp [held]
        · rw [if_neg hneg] at h
          cases hres : r.result with
          | none => simp [hres] at h
          | some result =>
            simp only [hres] at h
            cases hvn : (vput_prev r.state prev).vnodes result with
            | none => simp [hvn] at h
            | some vn =>
              simp only [hvn] at h
              by_cases hdir : S_ISDIR vn.vn_mode = true
              · simp only [hdir, not_true_eq_false, if_false] at h
                have e := ih (vput_prev r.state prev) (some result) (some result) ret curr1 prev1
                  s1 h hne
                intro u
                rw [e u, p4 u, l4 u, hres]
                ring
              · simp only [hdir, Bool.false_eq_true, not_false_eq_true, if_true, Except.ok.injEq,
                  Prod.mk.injEq] at h
                obtain ⟨_, _, _, rfl⟩ := h
                intro u
                rw [vn_net_vput, p4 u, l4 u, hres]
                ring

theorem dir_namev_from_fail (ops : vn_ops_t)
    (hops : ∀ dir n, (ops.lookup dir n).1 < 0 → (ops.lookup dir n).2 = none) (s : vfs_state)
    (pathname p : List Char) (cb : Option Nat) (d : DirNamevOut)
    (h : dir_namev_from ops s pathname p cb = .ok d) (h0 : d.retval ≠ 0) :
    ∀ u, vn_net d.state u = vn_net s u := by
  unfold dir_namev_from at h
  cases cb with
  | none => simp at h
  | some b =>
    simp only at h
    by_cases h2 : p.length = 0
    · simp [h2] at h
    · by_cases h3 : (path_components p).length - 1 ≥ 50
      · simp [h2, h3] at h
      · simp only [h2, h3, if_false] at h
        by_cases h4 : (path_components p).length - 1 = 0
        · simp only [h4, if_true] at h
          cases hs : strstr pathname ((path_components p).getLast?.getD []) with
          | none => simp [hs] at h
          | some name =>
            simp only [hs, Except.ok.injEq] at h
            subst h
            exact absurd rfl h0
        · simp only [h4, if_false] at h
          cases hlp : dir_namev_loop ops s (path_components p).dropLast (some b) none with
          | error f => simp [hlp] at h
          | ok r =>
            obtain ⟨ret, curr, prev1, s1⟩ := r
            simp only [hlp] at h
            by_cases hr : ret ≠ 0
            · rw [if_pos hr] at h
              simp only [Except.ok.injEq] at h
              subst h
              intro u
              have := dir_namev_loop_fail ops hops _ _ _ _ _ _ _ _ hlp hr u
              simpa [held] using this
            · rw [if_neg hr] at h
              cases hs : strstr pathname ((path_components p).getLast?.getD []) with
              | none => simp [hs] at h
              | some name =>
                simp only [hs, Except.ok.injEq] at h
                subst h
                exact absurd rfl h0

theorem vn_refcount_eq (base : Int) (s : vfs_state) (v : Nat) :
    vn_refcount base s v = base + vn_net s v := by
  unfold vn_refcount vn_net
  ring

/-- Reference counts of `dir_namev` for the calls that return (the part of C23 that holds
of the code). Whatever the lookup operations answer, as long as a lookup that fails hands
out no vnode: when `dir_namev` returns 0, the reference count of the parent vnode it stored
in `res_vnode` is one higher than before and the count of every other vnode is what it was;
when it returns an error (a failed lookup, or `-ENOTDIR` for an intermediate component that
is not a directory), the reference count of every vnode is what it was. -/
theorem dir_namev_refcounts (ops : vn_ops_t) (root cwd : Option Nat) (s : vfs_state)
    (pathname : List Char) (base : Option Nat) (d : DirNamevOut)
    (hops : ∀ dir n, (ops.lookup dir n).1 < 0 → (ops.lookup dir n).2 = none)
    (h : dir_namev ops root cwd s pathname base = .ok d) :
    (d.retval = 0 → ∃ parent, d.res_vnode = some parent ∧
      ∀ count u, vn_refcount count d.state u =
        vn_refcount count s u + (if u = parent then 1 else 0)) ∧
    (d.retval ≠ 0 → ∀ count u, vn_refcount count d.state u = vn_refcount count s u) := by
  constructor
  · intro h0
    obtain ⟨_, _, _, v, hv, hn⟩ := dir_namev_effect ops root cwd s pathname base d h h0
    refine ⟨v, hv, fun count u => ?_⟩
    rw [vn_refcount_eq, vn_refcount_eq, hn u]
    simp only [held, Option.some.injEq]
    by_cases huv : u = v
    · subst huv
      simp
      ring
    · have hvu : ¬ v = u := fun e => huv e.symm
      simp [huv, hvu]
  · intro h0 count u
    unfold dir_namev at h
    rw [vn_refcount_eq, vn_refcount_eq]
    split_ifs at h <;> rw [dir_namev_from_fail ops hops s pathname _ _ d h h0 u]

/-- Example for `dir_namev_refcounts` on the file system of `tree_ops`: `dir_namev("/a/b")`
returns 0 with
the parent `/a` (vnode 2), whose count has gone up by one, and `dir_namev("/a/b/c")`, in
which `/a/b` is a regular file, returns `-ENOTDIR` with all counts as before. -/
theorem dir_namev_refcounts_witness :
    (∀ dir n, (tree_ops.lookup dir n).1 < 0 → (tree_ops.lookup dir n).2 = none) ∧
    (∃ d, dir_namev tree_ops (some 1) (some 1) tree_state ['/', 'a', '/', 'b'] none = .ok d ∧
      d.retval = 0 ∧ d.res_vnode = some 2 ∧
      (d.retval = 0 → ∃ parent, d.res_vnode = some parent ∧
        ∀ count u, vn_refcount count d.state u =
          vn_refcount count tree_state u + (if u = parent then 1 else 0)) ∧
      (d.retval ≠ 0 → ∀ count u, vn_refcount count d.state u = vn_refcount count tree_state u)) ∧
    (∃ d, dir_namev tree_ops (some 1) (some 1) tree_state ['/', 'a', '/', 'b', '/', 'c'] none
        = .ok d ∧
      d.retval = -ENOTDIR ∧
      (d.retval = 0 → ∃ parent, d.res_vnode = some parent ∧
        ∀ count u, vn_refcount count d.state u =
          vn_refcount count tree_state u + (if u = parent then 1 else 0)) ∧
      (d.retval ≠ 0 → ∀ count u, vn_refcount count d.state u = vn_refcount count tree_state u)) :=
  have hops : ∀ dir n, (tree_ops.lookup dir n).1 < 0 → (tree_ops.lookup dir n).2 = none := by
    intro dir n
    simp only [tree_ops]
    split_ifs <;> simp
  ⟨hops,
   ⟨_, rfl, by decide, by decide,
    dir_namev_refcounts tree_ops (some 1) (some 1) tree_state ['/', 'a', '/', 'b'] none _ hops rfl⟩,
   ⟨_, rfl, by decide,
    dir_namev_refcounts tree_ops (some 1) (some 1) tree_state ['/', 'a', '/', 'b', '/', 'c'] none _
      hops rfl⟩⟩

/-! ## Path spellings and the final component -/

/-- Claim C21, evaluated on the code. In the file system of `tree_ops`, where `/a` is a
directory, `dir_namev("/a")` gives the parent `/` and the final component `a` of length 1,
while `dir_namev("//a")` gives the final component `/a` of length 2: the second `/` is at
index 0 of the path after the leading `/`, where the separator loop does not look. So
`do_stat("/a")` returns 0 and `do_stat("//a")` returns `-ENOENT`. -/
theorem dir_namev_leading_empty_component :
    (∃ d, dir_namev tree_ops (some 1) (some 1) tree_state ['/', 'a'] none = .ok d ∧
      d.retval = 0 ∧ d.res_vnode = some 1 ∧ d.namelen = 1 ∧
      (['/', 'a'].drop d.name).take d.namelen = ['a']) ∧
    (∃ d, dir_namev tree_ops (some 1) (some 1) tree_state ['/', '/', 'a'] none = .ok d ∧
      d.retval = 0 ∧ d.res_vnode = some 1 ∧ d.namelen = 2 ∧
      (['/', '/', 'a'].drop d.name).take d.namelen = ['/', 'a']) ∧
    (∃ s1, do_stat tree_ops (fun _ => true) (some 1) (some 1) tree_state ['/', 'a'] =
      .ok (0, s1)) ∧
    (∃ s1, do_stat tree_ops (fun _ => true) (some 1) (some 1) tree_state ['/', '/', 'a'] =
      .ok (-ENOENT, s1)) :=
  ⟨⟨_, rfl, by decide, by decide, by decide, by decide⟩,
   ⟨_, rfl, by decide, by decide, by decide, by decide⟩, ⟨_, rfl⟩, ⟨_, rfl⟩⟩

/-- Claim C22, evaluated on the code. In the file system of `ab_ops`, `dir_namev("/ab/b")`
returns 0 with the parent `/ab` (vnode 2) and `namelen = 1`, but `name` is index 2 of the
path, the `b` inside `ab` that `strstr` finds first, and not index 4, where the final
component starts; `name[namelen]` is the `/` at index 3, not the end of the path. -/
theorem dir_namev_name_first_occurrence :
    ∃ d, dir_namev ab_ops (some 1) (some 1) tree_state ['/', 'a', 'b', '/', 'b'] none = .ok d ∧
      d.retval = 0 ∧ d.res_vnode = some 2 ∧ d.namelen = 1 ∧ d.name = 2 ∧
      ['/', 'a', 'b', '/', 'b'][d.name + d.namelen]? = some '/' ∧
      ['/', 'a', 'b', '/', 'b'][4 + d.namelen]? = none :=
  ⟨_, rfl, by decide, by decide, by decide, by decide, by decide, by decide⟩

/-! ## `do_mknod` and `do_chdir` -/

/-- Claim C24, evaluated on the code. In the file system of `tree_ops`, with a `mknod`
operation that returns 0: `do_mknod("/a", S_IFCHR, 0)`, whose path exists, panics;
`do_mknod("/c", S_IFREG, 0)`, whose mode is no device type, calls the `mknod` operation of
`/` and returns its result 0; and `do_mknod("/x/y", S_IFCHR, 0)`, whose parent does not
resolve (`dir_namev` returns `-ENOENT`), dereferences the null `res_vnode`. -/
theorem do_mknod_unchecked :
    do_mknod tree_ops (fun _ _ _ _ => 0) (fun _ => true) (some 1) (some 1) tree_state
      ['/', 'a'] S_IFCHR 0 = .error .kernelPanic ∧
    (¬ (S_ISCHR S_IFREG = true ∨ S_ISBLK S_IFREG = true) ∧
      ∃ s1, do_mknod tree_ops (fun _ _ _ _ => 0) (fun _ => true) (some 1) (some 1) tree_state
        ['/', 'c'] S_IFREG 0 = .ok (0, s1) ∧
        VnCall.mknod 1 ['c'] S_IFREG 0 ∈ s1.calls) ∧
    ((∃ d, dir_namev tree_ops (some 1) (some 1) tree_state ['/', 'x', '/', 'y'] none = .ok d ∧
        d.retval = -ENOENT) ∧
      do_mknod tree_ops (fun _ _ _ _ => 0) (fun _ => true) (some 1) (some 1) tree_state
        ['/', 'x', '/', 'y'] S_IFCHR 0 = .error .nullDeref) :=
  ⟨rfl, ⟨by decide, _, rfl, by decide⟩, ⟨_, rfl, by decide⟩, rfl⟩

/-- Claim C25, evaluated on the code. In the file system of `tree_ops`, `do_chdir("/x/y")`,
whose intermediate component `x` does not exist, gets `-ENOENT` from `dir_namev` and goes
on to call `lookup` with the null `res_vnode`, whose first assertion fails. -/
theorem do_chdir_missing_intermediate :
    (∃ d, dir_namev tree_ops (some 1) (some 1) tree_state ['/', 'x', '/', 'y'] none = .ok d ∧
      d.retval = -ENOENT ∧ d.res_vnode = none) ∧
    (∀ s name, lookup tree_ops s none name = .error .assertFailed) ∧
    do_chdir tree_ops (some 1) (some 1) tree_state ['/', 'x', '/', 'y'] =
      .error .assertFailed ∧
    ∃ r, do_chdir tree_ops (some 1) (some 1) tree_state ['/', 'a'] = .ok r ∧
      r.retval = 0 ∧ r.p_cwd = some 2 :=
  ⟨⟨_, rfl, by decide, by decide⟩, fun _ _ => rfl, rfl, _, rfl, by decide, by decide⟩

/-! ## Empty ranges -/

theorem vmmap_is_range_empty_loop_spec (s e : Nat) (l : List vmarea_t) (hc : vmmap_chain l) :
    ((∃ v ∈ l, v.vma_start < e ∧ v.vma_end > s) → vmmap_is_range_empty_loop s e l = 0) ∧
    ((∀ v ∈ l, ¬ (v.vma_start < e ∧ v.vma_end > s)) → vmmap_is_range_empty_loop s e l = 1) := by
  induction l with
  | nil => simp [vmmap_is_range_empty_loop]
  | cons a rest ih =>
    obtain ⟨hp, hv⟩ := hc
    have hp2 := List.pairwise_cons.1 hp
    have ha := hv a (List.mem_cons_self _ _)
    obtain ⟨ih0, ih1⟩ := ih ⟨hp2.2, fun v h => hv v (List.mem_cons_of_mem _ h)⟩
    simp only [vmmap_is_range_empty_loop]
    by_cases h1 : a.vma_end > s ∧ a.vma_start < e
    · rw [if_pos h1]
      refine ⟨fun _ => rfl, fun hno => ?_⟩
      exact absurd ⟨h1.2, h1.1⟩ (hno a (List.mem_cons_self _ _))
    · rw [if_neg h1]
      by_cases h2 : s < a.vma_start ∧ a.vma_start ≥ e
      · rw [if_pos h2]
        refine ⟨?_, fun _ => rfl⟩
        rintro ⟨v, hvm, hv1, hv2⟩
        rcases List.mem_cons.1 hvm with rfl | hvm
        · exact absurd ⟨hv2, hv1⟩ h1
        · have := hp2.1 v hvm
          omega
      · rw [if_neg h2]
        refine ⟨?_, fun hno => ih1 (fun v hvm => hno v (List.mem_cons_of_mem _ hvm))⟩
        rintro ⟨v, hvm, hv1, hv2⟩
        rcases List.mem_cons.1 hvm with rfl | hvm
        · exact absurd ⟨hv2, hv1⟩ h1
        · exact ih0 ⟨v, hvm, hv1, hv2⟩

/-- Claim C31. For an address space that satisfies the ordering invariant and a range of
`npages ≥ 1` pages from `startvfn` inside the user page range, `vmmap_is_range_empty`
returns 0 when some area intersects the range (`vma_start < startvfn + npages` and
`vma_end > startvfn`) and 1 when none does; it returns a number only, the map is not
touched. -/
theorem vmmap_is_range_empty_spec (map : vmmap_t) (startvfn npages : Nat)
    (hord : vmmap_ordered map.vmm_list) (hn : 1 ≤ npages)
    (hlo : ADDR_TO_PN USER_MEM_LOW ≤ startvfn)
    (hhi : startvfn + npages ≤ ADDR_TO_PN USER_MEM_HIGH) :
    ((∃ v ∈ map.vmm_list, v.vma_start < startvfn + npages ∧ v.vma_end > startvfn) →
      vmmap_is_range_empty map startvfn npages = .ok 0) ∧
    ((∀ v ∈ map.vmm_list, ¬ (v.vma_start < startvfn + npages ∧ v.vma_end > startvfn)) →
      vmmap_is_range_empty map startvfn npages = .ok 1) := by
  have hU : startvfn + npages < U32 := by
    rw [HIGH_PN_eq] at hhi
    rw [U32_eq]
    omega
  have hcond : startvfn < startvfn + npages ∧ ADDR_TO_PN USER_MEM_LOW ≤ startvfn ∧
      ADDR_TO_PN USER_MEM_HIGH ≥ startvfn + npages := ⟨by omega, hlo, hhi⟩
  obtain ⟨h0, h1⟩ := vmmap_is_range_empty_loop_spec startvfn (startvfn + npages) map.vmm_list
    ((vmmap_ordered_iff_chain _).1 hord)
  simp only [vmmap_is_range_empty, u32add_of_lt _ _ hU, hcond, and_self, if_true]
  exact ⟨fun h => by rw [h0 h], fun h => by rw [h1 h]⟩

/-- Witness for C31 on the address space of `heap_proc`, whose areas are `[0x8048, 0x804a)`
and `[0x804a, 0x804b)`: the range `[0x8049, 0x804c)` meets an area, the range
`[0x804b, 0x804d)` meets none. -/
theorem vmmap_is_range_empty_spec_witness :
    vmmap_is_range_empty heap_proc.p_vmmap 0x8049 3 = .ok 0 ∧
    vmmap_is_range_empty heap_proc.p_vmmap 0x804b 2 = .ok 1 :=
  have hord : vmmap_ordered heap_proc.p_vmmap.vmm_list := by
    simp [vmmap_ordered, heap_proc, ADDR_TO_PN, USER_MEM_LOW, USER_MEM_HIGH, PAGE_SIZE, PAGE_SHIFT]
  ⟨(vmmap_is_range_empty_spec heap_proc.p_vmmap 0x8049 3 hord (by decide) (by decide)
      (by decide)).1 ⟨⟨0x8048, 0x804a, 0, 3, 2, 1, some 7⟩, by simp [heap_proc], by decide,
        by decide⟩,
   (vmmap_is_range_empty_spec heap_proc.p_vmmap 0x804b 2 hord (by decide) (by decide)
      (by decide)).2 (by simp [heap_proc])⟩

/-! ## What `vmmap_remove` keeps -/

theorem vmmap_lookup_eq_find (map : vmmap_t) (vfn : Nat) :
    vmmap_lookup map vfn =
      map.vmm_list.find? (fun v => decide (vfn < v.vma_end ∧ vfn ≥ v.vma_start)) := by
  unfold vmmap_lookup
  induction map.vmm_list with
  | nil => rfl
  | cons a rest ih =>
    simp only [vmmap_lookup_idx, List.find?_cons]
    by_cases h : vfn < a.vma_end ∧ vfn ≥ a.vma_start
    · simp [h]
    · rw [if_neg h]
      simp only [h, decide_False]
      rw [← ih]
      cases vmmap_lookup_idx vfn rest <;> simp

theorem find_drop_if_empty (vfn : Nat) (w : vmarea_t) (tail : List vmarea_t) :
    ((drop_if_empty w).1 ++ tail).find? (fun v => decide (vfn < v.vma_end ∧ vfn ≥ v.vma_start)) =
      if vfn < w.vma_end ∧ vfn ≥ w.vma_start then some w
      else tail.find? (fun v => decide (vfn < v.vma_end ∧ vfn ≥ v.vma_start)) := by
  unfold drop_if_empty
  by_cases he : w.vma_start = w.vma_end
  · have : ¬ (vfn < w.vma_end ∧ vfn ≥ w.vma_start) := by omega
    rw [if_neg this, if_pos he]
    rfl
  · rw [if_neg he]
    by_cases hc : vfn < w.vma_end ∧ vfn ≥ w.vma_start
    · rw [if_pos hc]
      simp only [List.singleton_append, List.find?_cons, hc, and_self, decide_True]
    · rw [if_neg hc]
      simp only [List.singleton_append, List.find?_cons, hc, decide_False]

theorem pf_pagenum_shift (vfn vs e off : Nat) (h1 : vs ≤ e) (h2 : e ≤ vfn) :
    (vfn - e + u32sub (u32add off e) vs) % U32 = (vfn - vs + off) % U32 := by
  unfold u32sub u32add
  rw [U32_eq]
  omega

theorem vmmap_remove_loop_find (m s e vfn : Nat) (hout : vfn < s ∨ e ≤ vfn) :
    ∀ (l : List vmarea_t) (v : vmarea_t),
      l.find? (fun v => decide (vfn < v.vma_end ∧ vfn ≥ v.vma_start)) = some v →
      ∃ w, (vmmap_remove_loop m s s e l).1.find?
          (fun v => decide (vfn < v.vma_end ∧ vfn ≥ v.vma_start)) = some w ∧
        w.vma_obj = v.vma_obj ∧ w.vma_prot = v.vma_prot ∧ w.vma_flags = v.vma_flags ∧
        pf_pagenum vfn w = pf_pagenum vfn v := by
  intro l
  induction l with
  | nil => intro v h; simp at h
  | cons a rest ih =>
    intro v h
    rw [List.find?_cons] at h
    simp only [vmmap_remove_loop]
    by_cases hcov : vfn < a.vma_end ∧ vfn ≥ a.vma_start
    · simp only [hcov, and_self, decide_True, Option.some.injEq] at h
      subst h
      split_ifs with h1 h2 h3 h4
      · simp only [decide_eq_false_iff_not, not_or, not_lt, ge_iff_le] at h1
        simp only [List.append_assoc, find_drop_if_empty]
        by_cases hl : vfn < s
        · have hc1 : vfn < s ∧ vfn ≥ a.vma_start := ⟨hl, hcov.2⟩
          rw [if_pos hc1]
          exact ⟨_, rfl, rfl, rfl, rfl, rfl⟩
        · have hc1 : ¬ (vfn < s ∧ vfn ≥ a.vma_start) := fun hh => hl hh.1
          have hc2 : vfn < a.vma_end ∧ vfn ≥ e := ⟨hcov.1, by omega⟩
          rw [if_neg hc1, if_pos hc2]
          refine ⟨_, rfl, rfl, rfl, rfl, ?_⟩
          simp only [pf_pagenum]
          exact pf_pagenum_shift vfn a.vma_start e a.vma_off (by omega) (by omega)
      · simp only [decide_eq_false_iff_not, not_or, not_lt, ge_iff_le] at h2
        simp only [find_drop_if_empty]
        have hc1 : vfn < s ∧ vfn ≥ a.vma_start := ⟨by omega, hcov.2⟩
        rw [if_pos hc1]
        exact ⟨_, rfl, rfl, rfl, rfl, rfl⟩
      · simp only [decide_eq_false_iff_not, not_or, not_lt, ge_iff_le] at h3
        simp only [find_drop_if_empty]
        have hc2 : vfn < a.vma_end ∧ vfn ≥ e := ⟨hcov.1, by omega⟩
        rw [if_pos hc2]
        refine ⟨_, rfl, rfl, rfl, rfl, ?_⟩
        simp only [pf_pagenum]
        exact pf_pagenum_shift vfn a.vma_start e a.vma_off (by omega) (by omega)
      · omega
      · simp only [List.find?_cons, hcov, and_self, decide_True]
        exact ⟨_, rfl, rfl, rfl, rfl, rfl⟩
    · simp only [hcov, decide_False] at h
      obtain ⟨w, hw, hprops⟩ := ih v h
      split_ifs with h1 h2 h3 h4
      · simp only [decide_eq_false_iff_not, not_or, not_lt, ge_iff_le] at h1
        simp only [List.append_assoc, find_drop_if_empty]
        have hc1 : ¬ (vfn < s ∧ vfn ≥ a.vma_start) := by omega
        have hc2 : ¬ (vfn < a.vma_end ∧ vfn ≥ e) := by omega
        rw [if_neg hc1, if_neg hc2]
        exact ⟨v, h, rfl, rfl, rfl, rfl⟩
      · simp only [decide_eq_false_iff_not, not_or, not_lt, ge_iff_le] at h2
        simp only [find_drop_if_empty]
        have hc1 : ¬ (vfn < s ∧ vfn ≥ a.vma_start) := by omega
        rw [if_neg hc1]
        exact ⟨w, hw, hprops⟩
      · simp only [decide_eq_false_iff_not, not_or, not_lt, ge_iff_le] at h3
        simp only [find_drop_if_empty]
        have hc2 : ¬ (vfn < a.vma_end ∧ vfn ≥ e) := by omega
        rw [if_neg hc2]
        exact ⟨w, hw, hprops⟩
      · exact ⟨w, hw, hprops⟩
      · simp only [List.find?_cons, hcov, decide_False]
        exact ⟨w, hw, hprops⟩

/-- Claim C32. For every address space (ordered or not) and every page `vfn` outside
`[lopage, lopage + npages)` that `vmmap_lookup` finds in an area before the call, after
`vmmap_remove(map, lopage, npages)` `vmmap_lookup` finds `vfn` in an area with the same
memory object, protection and flags, and the object page number
`vfn - vma_start + vma_off` of `vfn` there is the one it had before: in the split case, in
the case where the range overlaps the end of the area, and in the case where it overlaps
the start and `vma_start` and `vma_off` are advanced together. -/
theorem vmmap_remove_keeps_outside (map : vmmap_t) (lopage npages vfn : Nat) (v : vmarea_t)
    (hv : vmmap_lookup map vfn = some v)
    (hout : vfn < lopage ∨ lopage + npages ≤ vfn) :
    ∃ w, vmmap_lookup (vmmap_remove map lopage npages).1 vfn = some w ∧
      w.vma_obj = v.vma_obj ∧ w.vma_prot = v.vma_prot ∧ w.vma_flags = v.vma_flags ∧
      pf_pagenum vfn w = pf_pagenum vfn v := by
  have hle : u32add lopage npages ≤ lopage + npages := Nat.mod_le _ _
  have hout2 : vfn < lopage ∨ u32add lopage npages ≤ vfn := by omega
  rw [vmmap_lookup_eq_find] at hv ⊢
  exact vmmap_remove_loop_find map.self lopage (u32add lopage npages) vfn hout2 map.vmm_list v hv

/-- Witness for C32: from the areas `[0x500, 0x510)` and `[0x520, 0x530)` the range
`[0x508, 0x528)` is removed; page `0x52a` of the second area, whose start and offset are
advanced by 8 pages, and page `0x503` of the first, whose end is cut, keep their object
page numbers `0xa` and `0x3`. -/
theorem vmmap_remove_keeps_outside_witness :
    (∃ w, vmmap_lookup (vmmap_remove ⟨7, [⟨0x500, 0x510, 0, 3, 2, 1, some 7⟩,
        ⟨0x520, 0x530, 0, 3, 2, 2, some 7⟩]⟩ 0x508 0x20).1 0x52a = some w ∧
      w.vma_obj = 2 ∧ w.vma_prot = 3 ∧ w.vma_flags = 2 ∧
      pf_pagenum 0x52a w = pf_pagenum 0x52a ⟨0x520, 0x530, 0, 3, 2, 2, some 7⟩) ∧
    (∃ w, vmmap_lookup (vmmap_remove ⟨7, [⟨0x500, 0x510, 0, 3, 2, 1, some 7⟩,
        ⟨0x520, 0x530, 0, 3, 2, 2, some 7⟩]⟩ 0x508 0x20).1 0x503 = some w ∧
      w.vma_obj = 1 ∧ w.vma_prot = 3 ∧ w.vma_flags = 2 ∧
      pf_pagenum 0x503 w = pf_pagenum 0x503 ⟨0x500, 0x510, 0, 3, 2, 1, some 7⟩) :=
  ⟨vmmap_remove_keeps_outside ⟨7, [⟨0x500, 0x510, 0, 3, 2, 1, some 7⟩,
      ⟨0x520, 0x530, 0, 3, 2, 2, some 7⟩]⟩ 0x508 0x20 0x52a ⟨0x520, 0x530, 0, 3, 2, 2, some 7⟩
      (by decide) (by decide),
   vmmap_remove_keeps_outside ⟨7, [⟨0x500, 0x510, 0, 3, 2, 1, some 7⟩,
      ⟨0x520, 0x530, 0, 3, 2, 2, some 7⟩]⟩ 0x508 0x20 0x503 ⟨0x500, 0x510, 0, 3, 2, 1, some 7⟩
      (by decide) (by decide)⟩

/-! ## Claims on the break, the final component and the length check -/

/-- Claim C37, evaluated on the code. The process `heap_proc` has `p_start_brk = 0x0804a000`
and `p_brk = 0x0804a800`. `do_brk(0x0804a000, &ret)` returns 0 with `ret = 0x0804a000` and
leaves the process as it was, `p_brk` included, so the following `do_brk(NULL, &ret2)`
stores `0x0804a800`, not the address just set. -/
theorem do_brk_start_brk_keeps_break :
    heap_proc.p_start_brk = 0x0804a000 ∧ heap_proc.p_brk = 0x0804a800 ∧
    ∃ r, do_brk heap_proc 0x0804a000 20 = .ok r ∧ r.retval = 0 ∧ r.ret = some 0x0804a000 ∧
      r.proc.p_brk = 0x0804a800 ∧
      do_brk r.proc 0 21 = .ok ⟨0, some 0x0804a800, heap_proc⟩ :=
  ⟨rfl, rfl, _, rfl, rfl, rfl, rfl, rfl⟩

/-- Claim C38, evaluated on the code. In the file system of `ab_ops` the path `/ab/b` does
not end in `/`, its parent `/ab` resolves (vnode 2) and its final component `b` resolves
there to the regular file of vnode 3; `open_namev("/ab/b", 0, &res, NULL)` returns
`-ENOTDIR`: `dir_namev` hands back `name` at index 2, the `b` inside `ab`, so the character
after the name is the `/` at index 3, although nothing follows the final component at
index 4. -/
theorem open_namev_enotdir_without_slash :
    ab_ops.lookup 1 ['a', 'b'] = (0, some 2) ∧ ab_ops.lookup 2 ['b'] = (0, some 3) ∧
    (tree_state.vnodes 3).map (fun vn => S_ISDIR vn.vn_mode) = some false ∧
    ['/', 'a', 'b', '/', 'b'].getLast? = some 'b' ∧ ['/', 'a', 'b', '/', 'b'][4 + 1]? = none ∧
    ∃ r, open_namev ab_ops (some 1) (some 1) tree_state ['/', 'a', 'b', '/', 'b'] 0 none = .ok r ∧
      r.retval = -ENOTDIR :=
  ⟨rfl, rfl, by decide, by decide, by decide, _, rfl, by decide⟩

/-- Claim C39, evaluated on the code. Every component of the path
`/aaaaaaaaaaaaaaa/bbbbbbbbbbbbbbb` has 15 characters, at most `NAME_LEN`, and in the file
system of `long_ops` the path names a regular file (`open_namev` returns 0 with vnode 3);
the path itself has 32 characters, and `do_open` returns `-ENAMETOOLONG` from its test
`strlen(filename) > NAME_LEN` before anything else is done. -/
theorem do_open_whole_path_length :
    (∀ c ∈ path_components (long_path.drop 1), c.length ≤ NAME_LEN) ∧
    long_path.length = 32 ∧
    (∃ r, open_namev long_ops (some 1) (some 1) tree_state long_path O_RDONLY none = .ok r ∧
      r.retval = 0 ∧ r.res_vnode = some 3) ∧
    do_open long_ops (some 1) (some 1) tree_state long_path O_RDONLY (some 500) =
      .ok (-ENAMETOOLONG, tree_state) :=
  ⟨by decide, by decide, ⟨_, rfl, by decide, by decide⟩, rfl⟩

/-! ## `do_link` -/

/-- Claim C34, evaluated on the code. The area `[0x500, 0x502)` of `off_map` has
`vma_off = 1`. `vmmap_write` of the byte 7 to address `0x500000` goes to page
`0x500 - 0x500 + 1 = 1` of the object, the page the fault handler uses; `vmmap_read` of
that address asks for page `0x500 - (0x500 + 1)`, which is `0xffffffff` in `uint32_t`, and
returns the byte 0 of a fresh zero page instead of the 7 just written. -/
theorem vmmap_read_write_different_pages :
    pf_pagenum 0x500 ⟨0x500, 0x502, 1, 3, 9, 1, some 7⟩ = 1 ∧
    u32add (u32sub 0x500 0x500) 1 = 1 ∧ u32sub 0x500 (u32add 0x500 1) = 0xffffffff ∧
    ∃ h1, vmmap_write (pframe_lookup 3) off_map off_heap 0x500000 [7] = .ok h1 ∧
      ((pframe_get_resident h1 1 1).map (fun pf => pf.pf_data 0) = some 7) ∧
      ∃ h2, vmmap_read (pframe_lookup 3) off_map h1 0x500000 1 = .ok ([0], h2) :=
  ⟨by decide, by decide, by decide, _, rfl, by decide, _, rfl⟩

/-! ## Filling and releasing shadow objects -/

/-- Claim C35, evaluated on the code. In `fail_heap` no shadow object below object 2 holds
page 0 and the lookup on the bottom object fails with `-ENOMEM`; `shadow_fillpage` returns
1, the value of the comparison `pframe_lookup(...) < 0`, not the error code. The frame is
neither filled nor pinned. -/
theorem shadow_fillpage_returns_comparison :
    (∃ r, pframe_lookup 3 fail_heap 1 0 true = .ok r ∧ r.retval = -ENOMEM) ∧
    ∃ h1, shadow_fillpage (pframe_lookup 3) 5 fail_heap 2 0 = .ok (1, h1) ∧
      (pframe_get_resident h1 2 0).map (fun pf => (pf.pf_data 0, pf.pf_pincount)) =
        some (0xAA, 0) :=
  ⟨⟨_, rfl, by decide⟩, _, rfl, by decide⟩

/-- Claim C36, evaluated on the code. In `put_heap` the shadow object 2 and the anonymous
object 3 both have reference count 2 and one resident page, so `r - 1 = n`. `anon_put`
unpins and frees the page, frees the object and returns. `shadow_put` unpins and frees the
page, calls `put` on the shadowed object 1, frees the object, and then executes
`o->mmo_refcount--` on the object it has just freed. -/
theorem shadow_put_stores_after_free :
    (∃ h1, anon_put put_heap 3 [5] = .ok (h1,
        [PutEvent.pframe_unpin 3 5, PutEvent.pframe_free 3 5, PutEvent.slab_obj_free 3]) ∧
      (h1.objs 3).isNone = true) ∧
    (∃ h1, shadow_put put_heap 2 [5] = .ok (h1,
        [PutEvent.pframe_unpin 2 5, PutEvent.pframe_free 2 5, PutEvent.put 1,
         PutEvent.slab_obj_free 2, PutEvent.store_refcount 2]) ∧
      (h1.objs 2).isNone = true) ∧
    stored_after_free [PutEvent.pframe_unpin 2 5, PutEvent.pframe_free 2 5, PutEvent.put 1,
         PutEvent.slab_obj_free 2, PutEvent.store_refcount 2] 2 = true ∧
    stored_after_free [PutEvent.pframe_unpin 3 5, PutEvent.pframe_free 3 5,
      PutEvent.slab_obj_free 3] 3 = false :=
  ⟨⟨_, rfl, by decide⟩, ⟨_, rfl, by decide⟩, by decide, by decide⟩

/-! ## Memory objects after fork -/

theorem fork_shadows_old (h1 h5 : vm_heap) (X sc sp : Nat)
    (h : fork_shadows h1 X = .ok (sc, sp, h5)) :
    h5.next = h1.next + 2 ∧ ∀ a, a < h1.next → h5.objs a = h1.objs a := by
  unfold fork_shadows at h
  cases hb : mmobj_bottom_obj (shadow_create h1).2 X with
  | error f => simp [hb] at h
  | ok b =>
    simp only [hb, Except.ok.injEq, Prod.mk.injEq] at h
    obtain ⟨_, _, rfl⟩ := h
    refine ⟨rfl, ?_⟩
    intro a ha
    have h1' : a ≠ h1.next := by omega
    have h2' : a ≠ h1.next + 1 := by omega
    simp [shadow_create, set_obj, h1', h2']

theorem do_fork_loop_struct (N0 : Nat) : ∀ (ps cs : List vmarea_t) (h h' : vm_heap)
    (ps' cs' : List vmarea_t), cs.length = ps.length → N0 ≤ h.next →
    do_fork_loop h ps cs = .ok (h', ps', cs') →
    h.next ≤ h'.next ∧
    ps'.map vma_shape = ps.map vma_shape ∧ cs'.map vma_shape = cs.map vma_shape ∧
    (∀ (i : Nat) (vp vc : vmarea_t), ps[i]? = some vp → cs[i]? = some vc →
      vp.vma_flags &&& MAP_TYPE ≠ MAP_PRIVATE →
      ps'[i]? = some vp ∧ cs'[i]? = some { vc with vma_obj := vp.vma_obj }) ∧
    ∀ a x, a < N0 → h.objs a = some x →
      ∃ y, h'.objs a = some y ∧
        y.mmo_refcount = x.mmo_refcount + ((ps.map (fun v => v.vma_obj)).count a : Nat) := by
  intro ps
  induction ps with
  | nil =>
    intro cs h h' ps' cs' hlen hN hloop
    have : cs = [] := List.length_eq_zero.1 hlen
    subst this
    simp only [do_fork_loop, Except.ok.injEq, Prod.mk.injEq] at hloop
    obtain ⟨rfl, rfl, rfl⟩ := hloop
    exact ⟨le_refl _, rfl, rfl, by simp, fun a x _ hx => ⟨x, hx, by simp⟩⟩
  | cons vp0 ps0 ih =>
    intro cs h h' ps' cs' hlen hN hloop
    cases cs with
    | nil => simp at hlen
    | cons vc0 cs0 =>
      simp only [List.length_cons, add_left_inj] at hlen
      simp only [do_fork_loop] at hloop
      cases href : mmobj_ref h vp0.vma_obj with
      | error f => simp [href] at hloop
      | ok h1 =>
        simp only [href] at hloop
        -- what the reference did
        obtain ⟨x0, hx0, hh1⟩ : ∃ x0, h.objs vp0.vma_obj = some x0 ∧
            h1 = set_obj h vp0.vma_obj (some { x0 with mmo_refcount := x0.mmo_refcount + 1 }) := by
          unfold mmobj_ref at href
          cases hx : h.objs vp0.vma_obj with
          | none => simp [hx] at href
          | some x0 =>
            simp only [hx] at href
            split_ifs at href with hpos
            exact ⟨x0, rfl, (Except.ok.inj href).symm⟩
        have h1next : h1.next = h.next := by rw [hh1]; rfl
        have h1objs : ∀ a x, h.objs a = some x → ∃ y, h1.objs a = some y ∧
            y.mmo_refcount = x.mmo_refcount + (if vp0.vma_obj = a then 1 else 0) := by
          intro a x hx
          rw [hh1]
          by_cases ha : a = vp0.vma_obj
          · have hxx : x = x0 := by
              rw [ha, hx0] at hx
              exact (Option.some.inj hx).symm
            exact ⟨{ x0 with mmo_refcount := x0.mmo_refcount + 1 }, by simp [set_obj, ha],
              by simp [ha, hxx]⟩
          · have ha' : ¬ vp0.vma_obj = a := fun e => ha e.symm
            exact ⟨x, by simp [set_obj, ha, hx], by simp [ha']⟩
        by_cases hpriv : vp0.vma_flags &&& MAP_TYPE = MAP_PRIVATE
        · rw [if_pos hpriv] at hloop
          cases hfs : fork_shadows h1 vp0.vma_obj with
          | error f => simp [hfs] at hloop
          | ok t =>
            obtain ⟨sc, sp, h5⟩ := t
            simp only [hfs] at hloop
            cases hrec : do_fork_loop h5 ps0 cs0 with
            | error f => simp [hrec] at hloop
            | ok t2 =>
              obtain ⟨h6, ps1, cs1⟩ := t2
              simp only [hrec, Except.ok.injEq, Prod.mk.injEq] at hloop
              obtain ⟨rfl, rfl, rfl⟩ := hloop
              obtain ⟨h5next, h5old⟩ := fork_shadows_old h1 h5 _ sc sp hfs
              obtain ⟨e1, e2, e3, e4, e5⟩ := ih cs0 h5 h6 ps1 cs1 hlen (by omega) hrec
              refine ⟨by omega, ?_, ?_, ?_, ?_⟩
              · simp only [List.map_cons, e2]
                rfl
              · simp only [List.map_cons, e3]
                rfl
              · intro i vp vc hpi hci hnp
                cases i with
                | zero =>
                  simp only [List.getElem?_cons_zero, Option.some.injEq] at hpi
                  subst hpi
                  exact absurd hpriv hnp
                | succ j =>
                  simp only [List.getElem?_cons_succ] at hpi hci ⊢
                  exact e4 j vp vc hpi hci hnp
              · intro a x ha hx
                obtain ⟨y1, hy1, hr1⟩ := h1objs a x hx
                obtain ⟨y, hy, hr⟩ := e5 a y1 ha (by rw [h5old a (by omega), hy1])
                refine ⟨y, hy, ?_⟩
                rw [hr, hr1]
                simp only [List.map_cons, List.count_cons, beq_iff_eq]
                split_ifs <;> push_cast <;> ring
        · rw [if_neg hpriv] at hloop
          cases hrec : do_fork_loop h1 ps0 cs0 with
          | error f => simp [hrec] at hloop
          | ok t2 =>
            obtain ⟨h6, ps1, cs1⟩ := t2
            simp only [hrec, Except.ok.injEq, Prod.mk.injEq] at hloop
            obtain ⟨rfl, rfl, rfl⟩ := hloop
            obtain ⟨e1, e2, e3, e4, e5⟩ := ih cs0 h1 h6 ps1 cs1 hlen (by omega) hrec
            refine ⟨by omega, ?_, ?_, ?_, ?_⟩
            · simp only [List.map_cons, e2]
            · simp only [List.map_cons, e3]
              rfl
            · intro i vp vc hpi hci hnp
              cases i with
              | zero =>
                simp only [List.getElem?_cons_zero, Option.some.injEq] at hpi hci
                subst hpi; subst hci
                exact ⟨by simp, by simp⟩
              | succ j =>
                simp only [List.getElem?_cons_succ] at hpi hci ⊢
                exact e4 j vp vc hpi hci hnp
            · intro a x ha hx
              obtain ⟨y1, hy1, hr1⟩ := h1objs a x hx
              obtain ⟨y, hy, hr⟩ := e5 a y1 ha hy1
              refine ⟨y, hy, ?_⟩
              rw [hr, hr1]
              simp only [List.map_cons, List.count_cons, beq_iff_eq]
              split_ifs <;> push_cast <;> ring

/-- Claim C33, amended. For a parent whose address space satisfies the ordering invariant
and whose areas have live memory objects, `do_fork` returns; the child's areas and the
parent's areas have the ranges, offsets, protections and flags that the parent's areas had,
in the same order; for an area whose type is `MAP_PRIVATE` the parent and the child get two
distinct objects allocated by the fork, each a shadow object with reference count 1 and no
resident page that shadows the object the parent's area had and records that object's
bottom object; for any other area the parent keeps its object and the child's area points
to the same object; and the reference count of every object that existed before the fork
has grown by the number of areas of the parent that had it as their object, so by exactly
1 when one area had it. -/
theorem do_fork_objects (h : vm_heap) (cur : proc_vm) (newmap : Nat)
    (hord : vmmap_ordered cur.p_vmmap.vmm_list)
    (hbelow : ∀ a, h.next ≤ a → h.objs a = none)
    (hobj : ∀ v ∈ cur.p_vmmap.vmm_list,
      ∃ x, h.objs v.vma_obj = some x ∧ 0 < x.mmo_refcount) :
    ∃ r, do_fork h cur newmap = .ok r ∧
      r.child.p_vmmap.vmm_list.map vma_shape = cur.p_vmmap.vmm_list.map vma_shape ∧
      r.parent.p_vmmap.vmm_list.map vma_shape = cur.p_vmmap.vmm_list.map vma_shape ∧
      (∀ (i : Nat) (vp : vmarea_t), cur.p_vmmap.vmm_list[i]? = some vp →
        (vp.vma_flags &&& MAP_TYPE = MAP_PRIVATE →
          ∃ P C, r.parent.p_vmmap.vmm_list[i]? = some { vp with vma_obj := P } ∧
            r.child.p_vmmap.vmm_list[i]? = some { clone_area newmap vp with vma_obj := C } ∧
            h.next ≤ P ∧ h.next ≤ C ∧ P ≠ C ∧
            fresh_shadow r.heap vp.vma_obj P ∧ fresh_shadow r.heap vp.vma_obj C) ∧
        (vp.vma_flags &&& MAP_TYPE ≠ MAP_PRIVATE →
          r.parent.p_vmmap.vmm_list[i]? = some vp ∧
          r.child.p_vmmap.vmm_list[i]? =
            some { clone_area newmap vp with vma_obj := vp.vma_obj })) ∧
      ∀ a x, h.objs a = some x →
        ∃ y, r.heap.objs a = some y ∧
          y.mmo_refcount = x.mmo_refcount +
            ((cur.p_vmmap.vmm_list.map (fun v => v.vma_obj)).count a : Nat) := by
  have hclone := vmmap_clone_ordered cur.p_vmmap newmap hord
  have hlen : (cur.p_vmmap.vmm_list.map (clone_area newmap)).length =
      cur.p_vmmap.vmm_list.length := List.length_map _ _
  have hobj2 : ∀ v ∈ cur.p_vmmap.vmm_list,
      v.vma_obj < h.next ∧ ∃ x, h.objs v.vma_obj = some x ∧ 0 < x.mmo_refcount := by
    intro v hv
    obtain ⟨x, hx, hpos⟩ := hobj v hv
    refine ⟨?_, x, hx, hpos⟩
    by_contra hge
    rw [hbelow v.vma_obj (by omega)] at hx
    cases hx
  obtain ⟨h', ps', cs', hloop, _, _, _, _, _, _, _, _, hpriv⟩ :=
    do_fork_loop_spec h.next cur.p_vmmap.vmm_list (cur.p_vmmap.vmm_list.map (clone_area newmap))
      h hlen le_rfl hbelow hobj2
  obtain ⟨_, s2, s3, s4, s5⟩ := do_fork_loop_struct h.next cur.p_vmmap.vmm_list
    (cur.p_vmmap.vmm_list.map (clone_area newmap)) h h' ps' cs' hlen le_rfl hloop
  have hci : ∀ (i : Nat) (vp : vmarea_t), cur.p_vmmap.vmm_list[i]? = some vp →
      (cur.p_vmmap.vmm_list.map (clone_area newmap))[i]? = some (clone_area newmap vp) := by
    intro i vp hi
    simp [List.getElem?_map, hi]
  refine ⟨{ heap := h',
            parent := { cur with p_vmmap := { cur.p_vmmap with vmm_list := ps' } },
            child := { p_brk := cur.p_brk, p_start_brk := cur.p_start_brk,
                       p_vmmap := ⟨newmap, cs'⟩ } },
    by simp only [do_fork, hclone, hloop], ?_, s2, ?_, ?_⟩
  · show cs'.map vma_shape = _
    rw [s3, List.map_map]
    rfl
  · intro i vp hi
    constructor
    · intro hp
      obtain ⟨P, C, f1, f2, f3, f4, _, _, f7, f8, f9⟩ :=
        hpriv i vp (clone_area newmap vp) hi (hci i vp hi) hp
      exact ⟨P, C, f1, f2, f3, f4, f7, f8, f9⟩
    · intro hp
      exact s4 i vp (clone_area newmap vp) hi (hci i vp hi) hp
  · intro a x hx
    have ha : a < h.next := by
      by_contra hge
      rw [hbelow a (by omega)] at hx
      cases hx
    exact s5 a x ha hx

/-- Witness for C33 (amended): `do_fork` on `split_proc` over `split_heap`. -/
theorem do_fork_objects_witness :
    vmmap_ordered split_proc.p_vmmap.vmm_list ∧
    ∃ r, do_fork split_heap split_proc 9 = .ok r ∧
      r.child.p_vmmap.vmm_list.map vma_shape = split_proc.p_vmmap.vmm_list.map vma_shape ∧
      r.parent.p_vmmap.vmm_list.map vma_shape = split_proc.p_vmmap.vmm_list.map vma_shape ∧
      (∀ (i : Nat) (vp : vmarea_t), split_proc.p_vmmap.vmm_list[i]? = some vp →
        (vp.vma_flags &&& MAP_TYPE = MAP_PRIVATE →
          ∃ P C, r.parent.p_vmmap.vmm_list[i]? = some { vp with vma_obj := P } ∧
            r.child.p_vmmap.vmm_list[i]? = some { clone_area 9 vp with vma_obj := C } ∧
            split_heap.next ≤ P ∧ split_heap.next ≤ C ∧ P ≠ C ∧
            fresh_shadow r.heap vp.vma_obj P ∧ fresh_shadow r.heap vp.vma_obj C) ∧
        (vp.vma_flags &&& MAP_TYPE ≠ MAP_PRIVATE →
          r.parent.p_vmmap.vmm_list[i]? = some vp ∧
          r.child.p_vmmap.vmm_list[i]? =
            some { clone_area 9 vp with vma_obj := vp.vma_obj })) ∧
      ∀ a x, split_heap.objs a = some x →
        ∃ y, r.heap.objs a = some y ∧
          y.mmo_refcount = x.mmo_refcount +
            ((split_proc.p_vmmap.vmm_list.map (fun v => v.vma_obj)).count a : Nat) :=
  have hord : vmmap_ordered split_proc.p_vmmap.vmm_list := by
    simp [vmmap_ordered, split_proc, ADDR_TO_PN, USER_MEM_LOW, USER_MEM_HIGH, PAGE_SIZE, PAGE_SHIFT]
  have hbelow : ∀ a, split_heap.next ≤ a → split_heap.objs a = none := by
    intro a ha
    have ha' : 52 ≤ a := ha
    have h1 : ¬ (a = 1 ∨ a = 11 ∨ a = 50) := by omega
    have h2 : ¬ a = 51 := by omega
    simp [split_heap, h1, h2]
  have hobj : ∀ v ∈ split_proc.p_vmmap.vmm_list,
      ∃ x, split_heap.objs v.vma_obj = some x ∧ 0 < x.mmo_refcount := by
    intro v hv
    simp only [split_proc, List.mem_cons, List.mem_singleton, List.not_mem_nil, or_false] at hv
    rcases hv with rfl | rfl | rfl | rfl <;> exact ⟨_, rfl, by decide⟩
  ⟨hord, do_fork_objects split_heap split_proc 9 hord hbelow hobj⟩

/-- Counterexample to C33 as stated. The two private areas of `split_proc` at
`[0xbfffd, 0xbfffe)` and `[0xbffff, 0xc0000)` share the shadow object 51, which two calls
make of one mapping: `do_mmap` of three pages and `do_munmap` of the middle one, which
takes the second reference. After `do_fork` the reference count of object 51 is 4: it has
grown by 2, one reference for each area. -/
theorem do_fork_split_area_refcount :
    (∃ r0, do_mmap heap_proc.p_vmmap dup2_state id 0 12288 3 (MAP_PRIVATE ||| MAP_ANON) (-1) 0 50
        = .ok r0 ∧ r0.retval = 0 ∧ r0.ret = some 0xbfffd000 ∧
      (do_munmap r0.map 0xbfffe000 4096).1 = 0 ∧
      (do_munmap r0.map 0xbfffe000 4096).2.1 = split_proc.p_vmmap ∧
      VmEvent.ref 51 ∈ (do_munmap r0.map 0xbfffe000 4096).2.2) ∧
    split_proc.p_vmmap.vmm_list.map (fun v => (v.vma_obj, v.vma_flags &&& MAP_TYPE)) =
      [(1, MAP_PRIVATE), (11, MAP_PRIVATE), (51, MAP_PRIVATE), (51, MAP_PRIVATE)] ∧
    (split_heap.objs 51).map (fun x => x.mmo_refcount) = some 2 ∧
    ∃ r, do_fork split_heap split_proc 9 = .ok r ∧
      (r.heap.objs 51).map (fun x => x.mmo_refcount) = some 4 :=
  ⟨⟨_, rfl, by decide, by decide, by decide, by decide, by decide⟩, by decide, by decide,
    _, rfl, by decide⟩

/-! ## Shrinking the heap: two worked cases -/

/-- On `bss_grown`, `do_brk(0x0804a800)`, an address above the end of the data area,
shortens the heap area to `[0x804a, 0x804b)`; and with the page-aligned break `0x0804c000`
in place of `0x0804b800`, `do_brk(0x08049c00)` removes the heap area. -/
theorem do_brk_shrink_examples :
    (∃ r, do_brk bss_grown 0x0804a800 30 = .ok r ∧ r.retval = 0 ∧ r.ret = some 0x0804a800 ∧
      r.proc.p_brk = 0x0804a800 ∧
      r.proc.p_vmmap.vmm_list.map (fun v => (v.vma_start, v.vma_end)) =
        [(0x8048, 0x804a), (0x804a, 0x804b)]) ∧
    ∃ r, do_brk { bss_grown with p_brk := 0x0804c000 } 0x08049c00 30 = .ok r ∧ r.retval = 0 ∧
      r.ret = some 0x08049c00 ∧ r.proc.p_brk = 0x08049c00 ∧
      r.proc.p_vmmap.vmm_list.map (fun v => (v.vma_start, v.vma_end)) = [(0x8048, 0x804a)] :=
  ⟨⟨_, rfl, by decide, by decide, by decide, by decide⟩,
   ⟨_, rfl, by decide, by decide, by decide, by decide⟩⟩

/-! ## A full pid table and a long path -/

/-- Claim C13, evaluated on the code. In `full_world` the pids 0 to 3 are held, pairwise
distinct, and with `PROC_MAX_COUNT = 4` they are all there are. `_proc_getid` returns -1,
and `proc_create`, which does not test for it, makes a process with pid -1; a second
`proc_create`, on a list whose pids are still pairwise distinct, makes another process
with pid -1, and the pids on the list are no longer pairwise distinct. -/
theorem proc_create_full_table_pid_minus_one :
    (proc_pids full_world = [3, 2, 1, 0] ∧ full_world.next_pid = 0) ∧
    (_proc_getid full_world 4 4).map Prod.fst = .ok (-1) ∧
    ∃ w2, proc_create full_world 4 4 "child" 104 14 0x9004 0x7004 none = .ok (104, w2) ∧
      proc_pids w2 = [-1, 3, 2, 1, 0] ∧ (proc_pids w2).Nodup ∧ w2.next_pid = 0 ∧
      ∃ w3, proc_create w2 4 4 "child" 105 15 0x9005 0x7005 none = .ok (105, w3) ∧
        proc_pids w3 = [-1, -1, 3, 2, 1, 0] ∧ ¬ (proc_pids w3).Nodup :=
  ⟨⟨by decide, rfl⟩, rfl, _, rfl, by decide, by decide, rfl, _, rfl, by decide, by decide⟩

/-- Claim C23, evaluated on the code. The path `deep_path` has 51 components. The
separator loop of `dir_namev` stores the start of the 51st in `components[50]`, one past
the 50 entries that were allocated, so the call has neither of the two outcomes whose
reference counts the claim describes; `do_stat` passes such a path to `dir_namev`
unchecked. -/
theorem dir_namev_fifty_one_components :
    deep_path.length = 101 ∧ (path_components deep_path).length = 51 ∧
    dir_namev tree_ops (some 1) (some 1) tree_state deep_path none = .error .outOfBounds ∧
    do_stat tree_ops (fun _ => true) (some 1) (some 1) tree_state deep_path =
      .error .outOfBounds :=
  ⟨by decide, by decide, rfl, rfl⟩
/-! ## How `do_link` resolves `from` -/

end Weenix
